import Mathlib

/-!
# sdl-game: entity manager, collision helpers and spawn placement

A shallow embedding of `src/EntityManagement/EntityManager.cpp`,
`src/Helpers/CollisionHelpers.cpp` and the systems of `src/Game.cpp`.

Conventions of the embedding.

* `float` coordinates are `Int`. Every coordinate the program stores is an
  integer of small magnitude (`0`, `rand() % windowSize`, steps of `2`,
  `windowSize - rect.w`), which `float` represents and adds exactly. The model
  says what the program computes as long as the operands and the result of a
  sum are integers of magnitude at most `2^24`; beyond that binary32 rounds.
  The statements on the exact value of a sum carry this range as a hypothesis
  (`SumExact`).
* A `std::shared_ptr<Entity>` is an index into `EntityManager.heap`, the list of
  the `Entity` objects allocated by `addEntity`. Entities are shared between the
  pending list, the canonical list, the tag buckets and `Game.m_player`, so a
  write through one pointer is seen through all of them.
* Code that can throw or has undefined behaviour returns `Except Fault _`.
-/

namespace SdlGame

/-! ## Data model -/

/-- Ways a call can fail to return normally. -/
inductive Fault where
  /-- The `std::runtime_error` of `CollisionHelpers`: "Entity <tag>, with ID <id> lacks a
  transform or collision component." -/
  | missingComponent (tag : String) (id : Nat)
  /-- The `std::runtime_error` of `sMovement`: "Player entity lacks an input component." -/
  | missingInput
  /-- The `std::runtime_error` of `sMovement`: "Entity <tag>, with ID <id> lacks a transform
  component." -/
  | missingTransform (tag : String) (id : Nat)
  /-- Dereference of a null (or dangling) pointer: undefined behaviour. -/
  | nullDereference
  /-- The expression `rand() % 0`: undefined behaviour. -/
  | divisionByZero
  /-- The step budget of a loop model was used up (excluded by `spawnRetry_fuel`). -/
  | outOfFuel
deriving DecidableEq, Repr

/-- Equality of results is decidable, so that closed statements can be evaluated. -/
instance instDecidableEqExcept {ε α : Type} [DecidableEq ε] [DecidableEq α] :
    DecidableEq (Except ε α)
  | .ok a, .ok b =>
    if h : a = b then isTrue (by rw [h]) else isFalse (by intro h2; cases h2; exact h rfl)
  | .error a, .error b =>
    if h : a = b then isTrue (by rw [h]) else isFalse (by intro h2; cases h2; exact h rfl)
  | .ok _, .error _ => isFalse (by intro h; cases h)
  | .error _, .ok _ => isFalse (by intro h; cases h)

/-- Modelled from the spec: `Vec2.h` is not among the sources. "Vec2: {x: float, y: float}.
Value type; arithmetic is componentwise". A coordinate is modelled by the integer it holds,
so the model covers integer-valued coordinates; it agrees with binary32 on the sums whose
operands and result have magnitude at most `2^24` (see `SumExact`), which is where every
coordinate of a running game lies. -/
structure Vec2 where
  x : Int
  y : Int
deriving DecidableEq, Repr

/-- Modelled from the spec: componentwise addition, the `+=` of `Vec2`. The sums are exact;
the `float` sums of the program are the same numbers when `SumExact` holds of the
components. -/
def Vec2.add (a b : Vec2) : Vec2 := ⟨a.x + b.x, a.y + b.y⟩

/-- Modelled from the spec: scaling, the `*` of `Vec2` by a number. -/
def Vec2.scale (a : Vec2) (k : Int) : Vec2 := ⟨a.x * k, a.y * k⟩

/-- The class `CTransform` of `Components.h`. -/
structure CTransform where
  topLeftCornerPos : Vec2 := ⟨0, 0⟩
  centerPos : Vec2 := ⟨0, 0⟩
  velocity : Vec2 := ⟨0, 0⟩
  angle : Int := 0
deriving DecidableEq, Repr

/-- The constructor `CTransform(position, velocity, angle)`. -/
def CTransform.new (position velocity : Vec2) (angle : Int) : CTransform :=
  { topLeftCornerPos := position, velocity := velocity, angle := angle }

/-- The struct `RGBA` of `Components.h`. -/
structure RGBA where
  r : Int
  g : Int
  b : Int
  a : Int
deriving DecidableEq, Repr

/-- The struct `ShapeConfig` of `Components.h`. -/
structure ShapeConfig where
  height : Int
  width : Int
  color : RGBA
deriving DecidableEq, Repr

/-- The SDL rectangle `SDL_Rect`: four `int` fields. -/
structure SDL_Rect where
  x : Int := 0
  y : Int := 0
  w : Int := 0
  h : Int := 0
deriving DecidableEq, Repr

/-- The class `CShape` of `Components.h` (the renderer handle is left out). -/
structure CShape where
  rect : SDL_Rect
  color : RGBA
deriving DecidableEq, Repr

/-- The constructor `CShape(renderer, config)` with a non-null renderer: `rect.h` and
`rect.w` are taken from the configuration. -/
def CShape.new (config : ShapeConfig) : CShape :=
  { rect := { h := config.height, w := config.width }, color := config.color }

/-- The class `CInput` of `Components.h`. -/
structure CInput where
  forward : Bool := false
  backward : Bool := false
  left : Bool := false
  right : Bool := false
deriving DecidableEq, Repr

/-- Modelled from the spec: the class `CLifespan` is not among the sources. "Lifespan
component: birth timestamp + total duration (same time unit, monotonic clock ticks)". -/
structure CLifespan where
  birthTime : Nat
  lifespan : Nat
deriving DecidableEq, Repr

/-- Modelled from the spec: `Entity.hpp` is not among the sources. "Entity: {id: uint (unique,
monotonically assigned), tag: string, active: bool, optional{Transform, Shape, Input,
Lifespan}}". A component slot is a `std::shared_ptr` that may be null. -/
structure Entity where
  m_id : Nat
  m_tag : String
  m_active : Bool := true
  cTransform : Option CTransform := none
  cShape : Option CShape := none
  cInput : Option CInput := none
  cLifespan : Option CLifespan := none
deriving DecidableEq, Repr

/-- Modelled from the spec: the constructor `Entity(id, tag)` "builds an entity with empty
components"; a new entity is active. -/
def Entity.new (id : Nat) (tag : String) : Entity := { m_id := id, m_tag := tag }

/-- The accessor `Entity::tag()`. -/
def Entity.tag (e : Entity) : String := e.m_tag

/-- The accessor `Entity::id()`. -/
def Entity.id (e : Entity) : Nat := e.m_id

/-- The accessor `Entity::isActive()`. -/
def Entity.isActive (e : Entity) : Bool := e.m_active

/-- Modelled from the spec: `Entity::destroy()`. "Destruction is logical: setting
active=false". -/
def Entity.destroy (e : Entity) : Entity := { e with m_active := false }

namespace EntityTags

/-- Modelled from the spec: `EntityTags.hpp` is not among the sources; the tag of "the
controlled avatar". Only its being different from `Enemy` is used. -/
def Player : String := "Player"

/-- Modelled from the spec: the tag of a hazard. -/
def Enemy : String := "Enemy"

end EntityTags

/-! ## CollisionHelpers.cpp -/

/-- The enumeration `enum Boundaries { TOP, BOTTOM, LEFT, RIGHT }`: bit positions 0 to 3. -/
inductive Boundaries where
  | TOP
  | BOTTOM
  | LEFT
  | RIGHT
deriving DecidableEq, Repr

/-- The type `std::bitset<4>`; `b0` is the bit at position 0. -/
structure Bitset4 where
  b0 : Bool := false
  b1 : Bool := false
  b2 : Bool := false
  b3 : Bool := false
deriving DecidableEq, Repr

/-- Read access `bits[i]`. -/
def Bitset4.get (bits : Bitset4) : Boundaries → Bool
  | .TOP => bits.b0
  | .BOTTOM => bits.b1
  | .LEFT => bits.b2
  | .RIGHT => bits.b3

/-- Write access `bits[i] = v`. -/
def Bitset4.set (bits : Bitset4) (i : Boundaries) (v : Bool) : Bitset4 :=
  match i with
  | .TOP => { bits with b0 := v }
  | .BOTTOM => { bits with b1 := v }
  | .LEFT => { bits with b2 := v }
  | .RIGHT => { bits with b3 := v }

/-- The member `std::bitset::any()`. -/
def Bitset4.any (bits : Bitset4) : Bool := bits.b0 || bits.b1 || bits.b2 || bits.b3

/-- The function `hasNullComponentPointers`: only the transform pointer is looked at. -/
def hasNullComponentPointers (entity : Entity) : Bool :=
  let cTransformIsNullPtr := entity.cTransform.isNone
  cTransformIsNullPtr

/-- Dereference of `entity->cTransform`. -/
def derefTransform (entity : Entity) : Except Fault CTransform :=
  match entity.cTransform with
  | none => .error .nullDereference
  | some t => .ok t

/-- Dereference of `entity->cShape`, giving `cShape->rect`. -/
def derefRect (entity : Entity) : Except Fault SDL_Rect :=
  match entity.cShape with
  | none => .error .nullDereference
  | some s => .ok s.rect

namespace CollisionHelpers

/-- The function `CollisionHelpers::detectOutOfBounds`. It only reads the entity. -/
def detectOutOfBounds (entity : Entity) (window_size : Vec2) : Except Fault Bitset4 :=
  if hasNullComponentPointers entity then
    .error (.missingComponent entity.tag entity.id)
  else do
    let tr ← derefTransform entity
    let topLeftCornerPos := tr.topLeftCornerPos
    let collidesWithTop := decide (topLeftCornerPos.y ≤ 0)
    let rect ← derefRect entity
    let collidesWithBottom := decide (topLeftCornerPos.y + rect.h ≥ window_size.y)
    let collidesWithLeft := decide (topLeftCornerPos.x ≤ 0)
    let collidesWithRight := decide (topLeftCornerPos.x + rect.w ≥ window_size.x)
    let collidesWithBoundary : Bitset4 := {}
    let collidesWithBoundary := collidesWithBoundary.set .TOP collidesWithTop
    let collidesWithBoundary := collidesWithBoundary.set .BOTTOM collidesWithBottom
    let collidesWithBoundary := collidesWithBoundary.set .LEFT collidesWithLeft
    let collidesWithBoundary := collidesWithBoundary.set .RIGHT collidesWithRight
    pure collidesWithBoundary

/-- The function `CollisionHelpers::enforcePlayerBounds`; the result is the entity after
the writes to `cTransform->topLeftCornerPos`. -/
def enforcePlayerBounds (entity : Entity) (collides : Bitset4) (window_size : Vec2) :
    Except Fault Entity :=
  if hasNullComponentPointers entity then
    .error (.missingComponent entity.tag entity.id)
  else do
    let tr ← derefTransform entity
    let leftCornerPosition := tr.topLeftCornerPos
    let leftCornerPosition :=
      if collides.get .TOP then { leftCornerPosition with y := 0 } else leftCornerPosition
    let leftCornerPosition ←
      if collides.get .BOTTOM then do
        let rect ← derefRect entity
        pure { leftCornerPosition with y := window_size.y - rect.h }
      else pure leftCornerPosition
    let leftCornerPosition :=
      if collides.get .LEFT then { leftCornerPosition with x := 0 } else leftCornerPosition
    let leftCornerPosition ←
      if collides.get .RIGHT then do
        let rect ← derefRect entity
        pure { leftCornerPosition with x := window_size.x - rect.w }
      else pure leftCornerPosition
    pure { entity with cTransform := some { tr with topLeftCornerPos := leftCornerPosition } }

/-- The function `CollisionHelpers::enforceNonPlayerBounds`; the result is the entity after
the writes to `cTransform->topLeftCornerPos` and `cTransform->velocity`. -/
def enforceNonPlayerBounds (entity : Entity) (collides : Bitset4) (window_size : Vec2) :
    Except Fault Entity :=
  if hasNullComponentPointers entity then
    .error (.missingComponent entity.tag entity.id)
  else if entity.tag = EntityTags.Player then
    pure entity
  else do
    let tr ← derefTransform entity
    let leftCornerPosition := tr.topLeftCornerPos
    let velocity := tr.velocity
    let (leftCornerPosition, velocity) :=
      if collides.get .TOP then
        ({ leftCornerPosition with y := 0 }, { velocity with y := -velocity.y })
      else (leftCornerPosition, velocity)
    let (leftCornerPosition, velocity) ←
      if collides.get .BOTTOM then do
        let rect ← derefRect entity
        pure ({ leftCornerPosition with y := window_size.y - rect.h },
              { velocity with y := -velocity.y })
      else pure (leftCornerPosition, velocity)
    let (leftCornerPosition, velocity) :=
      if collides.get .LEFT then
        ({ leftCornerPosition with x := 0 }, { velocity with x := -velocity.x })
      else (leftCornerPosition, velocity)
    let (leftCornerPosition, velocity) ←
      if collides.get .RIGHT then do
        let rect ← derefRect entity
        pure ({ leftCornerPosition with x := window_size.x - rect.w },
              { velocity with x := -velocity.x })
      else pure (leftCornerPosition, velocity)
    pure { entity with
      cTransform := some { tr with topLeftCornerPos := leftCornerPosition, velocity := velocity } }

/-- The function `CollisionHelpers::calculateCollisionBetweenEntities`. It only reads the
two entities. -/
def calculateCollisionBetweenEntities (entityA entityB : Entity) : Except Fault Bool :=
  if hasNullComponentPointers entityA then
    .error (.missingComponent entityA.tag entityA.id)
  else if hasNullComponentPointers entityB then
    .error (.missingComponent entityB.tag entityB.id)
  else do
    let rectA ← derefRect entityA
    let rectB ← derefRect entityB
    let trA ← derefTransform entityA
    let trB ← derefTransform entityB
    let posA := trA.topLeftCornerPos
    let posB := trB.topLeftCornerPos
    let leftSideCollision := decide (posA.x + rectA.w ≥ posB.x)
    let rightSideCollision := decide (posA.x ≤ posB.x + rectB.w)
    let topSideCollision := decide (posA.y + rectA.h ≥ posB.y)
    let bottomSideCollision := decide (posA.y ≤ posB.y + rectB.h)
    pure (leftSideCollision && rightSideCollision && topSideCollision && bottomSideCollision)

end CollisionHelpers

/-! ## EntityManager.cpp -/

/-- A `std::shared_ptr<Entity>`: the index of the entity object in the heap. -/
abbrev EntityPtr := Nat

/-- The type `EntityVector`, a `std::vector<std::shared_ptr<Entity>>`. -/
abbrev EntityVector := List EntityPtr

/-- The type `EntityMap`, a `std::map<std::string, EntityVector>`, as an association list.
The order of the keys is not observable by the code modelled here. -/
abbrev EntityMap := List (String × EntityVector)

/-- The bucket stored for `tag`, empty when the map has no such key. -/
def EntityMap.bucket : EntityMap → String → EntityVector
  | [], _ => []
  | (k, v) :: rest, tag => if k = tag then v else EntityMap.bucket rest tag

/-- The statement `map[tag].push_back(e)`: `operator[]` creates an empty bucket when the key
is new. -/
def EntityMap.pushBack : EntityMap → String → EntityPtr → EntityMap
  | [], tag, e => [(tag, [e])]
  | (k, v) :: rest, tag, e =>
    if k = tag then (k, v ++ [e]) :: rest else (k, v) :: EntityMap.pushBack rest tag e

/-- The expression `map[tag]` on its own: the map after `operator[]`. -/
def EntityMap.touch : EntityMap → String → EntityMap
  | [], tag => [(tag, [])]
  | (k, v) :: rest, tag =>
    if k = tag then (k, v) :: rest else (k, v) :: EntityMap.touch rest tag

/-- Dereference of a `std::shared_ptr<Entity>`. -/
def deref (heap : List Entity) (p : EntityPtr) : Except Fault Entity :=
  match heap[p]? with
  | none => .error .nullDereference
  | some e => .ok e

/-- The class `EntityManager`, together with the entity objects its pointers refer to. -/
structure EntityManager where
  heap : List Entity := []
  m_entities : EntityVector := []
  m_entityMap : EntityMap := []
  m_toAdd : EntityVector := []
  m_totalEntities : Nat := 0
deriving DecidableEq, Repr

namespace EntityManager

/-- The method `EntityManager::addEntity`: the new pointer and the manager afterwards. -/
def addEntity (m : EntityManager) (tag : String) : EntityPtr × EntityManager :=
  let e := m.heap.length
  (e, { m with
        heap := m.heap ++ [Entity.new m.m_totalEntities tag]
        m_totalEntities := m.m_totalEntities + 1
        m_toAdd := m.m_toAdd ++ [e] })

/-- The method `EntityManager::getEntities()`. -/
def getEntities (m : EntityManager) : EntityVector := m.m_entities

/-- The method `EntityManager::getEntities(tag)`: `m_entityMap[tag]` and the manager
afterwards. -/
def getEntitiesByTag (m : EntityManager) (tag : String) : EntityVector × EntityManager :=
  (m.m_entityMap.bucket tag, { m with m_entityMap := m.m_entityMap.touch tag })

/-- The call `entity->destroy()` through the pointer `p`. -/
def destroy (m : EntityManager) (p : EntityPtr) : Except Fault EntityManager :=
  match m.heap[p]? with
  | none => .error .nullDereference
  | some e => .ok { m with heap := m.heap.set p e.destroy }

/-- The lambda `removeDeadEntities` of `update`: erase-remove of the entities that are not
active. -/
def removeDeadEntities (heap : List Entity) : EntityVector → Except Fault EntityVector
  | [] => .ok []
  | p :: rest =>
    match deref heap p with
    | .error f => .error f
    | .ok entity =>
      match removeDeadEntities heap rest with
      | .error f => .error f
      | .ok rest => .ok (if !entity.isActive then rest else p :: rest)

/-- The first loop of `update`: every pending entity is pushed to the canonical list and to
the bucket of its tag. -/
def flushPending (heap : List Entity) :
    EntityVector → EntityVector × EntityMap → Except Fault (EntityVector × EntityMap)
  | [], st => .ok st
  | e :: rest, (entities, entityMap) =>
    match deref heap e with
    | .error f => .error f
    | .ok entity => flushPending heap rest (entities ++ [e], entityMap.pushBack entity.tag e)

/-- The second loop of `update`: `removeDeadEntities` on each bucket of the map. -/
def pruneBuckets (heap : List Entity) : EntityMap → Except Fault EntityMap
  | [] => .ok []
  | (tag, entityVec) :: rest =>
    match removeDeadEntities heap entityVec with
    | .error f => .error f
    | .ok entityVec =>
      match pruneBuckets heap rest with
      | .error f => .error f
      | .ok rest => .ok ((tag, entityVec) :: rest)

/-- The method `EntityManager::update`. -/
def update (m : EntityManager) : Except Fault EntityManager :=
  match flushPending m.heap m.m_toAdd (m.m_entities, m.m_entityMap) with
  | .error f => .error f
  | .ok (entities, entityMap) =>
    match removeDeadEntities m.heap entities with
    | .error f => .error f
    | .ok entities =>
      match pruneBuckets m.heap entityMap with
      | .error f => .error f
      | .ok entityMap =>
        .ok { m with m_entities := entities, m_entityMap := entityMap, m_toAdd := [] }

/-- Manager states reached from the empty manager by `addEntity`, `destroy` and `update`, by
the query `getEntities(tag)`, whose `operator[]` may add an empty bucket, and by writes to the
component slots of an entity through a pointer (id, tag and active flag are kept). -/
inductive Reachable : EntityManager → Prop where
  | empty : Reachable {}
  | addEntity (m : EntityManager) (tag : String) : Reachable m → Reachable (m.addEntity tag).2
  | destroy (m m2 : EntityManager) (p : EntityPtr) :
      Reachable m → m.destroy p = .ok m2 → Reachable m2
  | update (m m2 : EntityManager) : Reachable m → m.update = .ok m2 → Reachable m2
  | getEntities (m : EntityManager) (tag : String) :
      Reachable m → Reachable (m.getEntitiesByTag tag).2
  | setComponents (m : EntityManager) (p : EntityPtr) (e e2 : Entity) :
      Reachable m → m.heap[p]? = some e → e2.m_id = e.m_id → e2.m_tag = e.m_tag →
      e2.m_active = e.m_active → Reachable { m with heap := m.heap.set p e2 }

end EntityManager

/-! ## Game.cpp -/

/-- Modelled from the spec: the configuration struct of `Game.h` (not among the sources),
"supplies window size ... and window title at startup". -/
structure GameConfig where
  windowSize : Vec2 := ⟨1366, 768⟩
  windowTitle : String := ""
deriving DecidableEq, Repr

/-- Modelled from the spec: the player configuration of `Game.h` (not among the sources),
the "controlled-entity visual/shape parameters". -/
structure PlayerConfig where
  shape : ShapeConfig
deriving DecidableEq, Repr

/-- The data members of the class `Game` that the systems use. A null `m_player` is an index
outside the heap. -/
structure Game where
  m_gameConfig : GameConfig
  m_playerConfig : PlayerConfig
  m_entities : EntityManager := {}
  m_player : EntityPtr := 0
  m_score : Int := 0
  m_lastEnemySpawnTime : Nat := 0
  m_paused : Bool := false
  m_isRunning : Bool := false
deriving DecidableEq, Repr

/-- Modelled from the spec: the constructor `CLifespan(lifespan)`; the birth timestamp is the
clock value `now` at construction. -/
def CLifespan.new (lifespan now : Nat) : CLifespan := { birthTime := now, lifespan := lifespan }

/-- The expression `rand() % static_cast<int>(bound)` for the value `r` returned by `rand()`;
the remainder of C++ truncates towards zero. -/
def randMod (r : Nat) (bound : Int) : Except Fault Int :=
  if bound = 0 then .error .divisionByZero else .ok (Int.tmod (r : Int) bound)

namespace Game

/-- The loop of `sCollision` over `m_entities.getEntities()`, on the heap and the score. -/
def collisionLoop (player : EntityPtr) :
    List Entity × Int → EntityVector → Except Fault (List Entity × Int)
  | st, [] => .ok st
  | (heap, score), p :: rest => do
    let entity ← deref heap p
    if entity.tag = EntityTags.Player then
      collisionLoop player (heap, score) rest
    else do
      let playerEntity ← deref heap player
      let hit ← CollisionHelpers.calculateCollisionBetweenEntities playerEntity entity
      if hit then
        collisionLoop player (heap.set p entity.destroy, score + 1) rest
      else
        collisionLoop player (heap, score) rest

/-- The method `Game::sCollision`. -/
def sCollision (g : Game) : Except Fault Game := do
  let windowSize : Vec2 := ⟨1366, 768⟩
  let player ← deref g.m_entities.heap g.m_player
  let collides ← CollisionHelpers.detectOutOfBounds player windowSize
  let player ← CollisionHelpers.enforcePlayerBounds player collides windowSize
  let heap := g.m_entities.heap.set g.m_player player
  let (heap, score) ← collisionLoop g.m_player (heap, g.m_score) g.m_entities.getEntities
  let entities ← ({ g.m_entities with heap := heap }).update
  pure { g with m_entities := entities, m_score := score }

/-- The loop of `sMovement` over `m_entities.getEntities()`, on the heap. -/
def movementLoop (playerVelocity : Vec2) : List Entity → EntityVector → Except Fault (List Entity)
  | heap, [] => .ok heap
  | heap, p :: rest => do
    let e ← deref heap p
    match e.cTransform with
    | none => .error (.missingTransform e.tag e.id)
    | some tr =>
      if e.tag = EntityTags.Player then
        let position := tr.topLeftCornerPos.add (playerVelocity.scale 2)
        movementLoop playerVelocity
          (heap.set p { e with cTransform := some { tr with topLeftCornerPos := position } }) rest
      else
        movementLoop playerVelocity heap rest

/-- The local variable `playerVelocity` of `sMovement` after the four tests of the intent
flags (lines 192 to 209). -/
def playerVelocity (cInput : CInput) : Vec2 :=
  let playerVelocity : Vec2 := ⟨0, 0⟩
  let playerVelocity := if cInput.forward then { playerVelocity with y := -1 } else playerVelocity
  let playerVelocity := if cInput.backward then { playerVelocity with y := 1 } else playerVelocity
  let playerVelocity := if cInput.left then { playerVelocity with x := -1 } else playerVelocity
  let playerVelocity := if cInput.right then { playerVelocity with x := 1 } else playerVelocity
  playerVelocity

/-- The method `Game::sMovement`. -/
def sMovement (g : Game) : Except Fault Game := do
  let player ← deref g.m_entities.heap g.m_player
  match player.cInput with
  | none => .error .missingInput
  | some cInput =>
    let heap ← movementLoop (playerVelocity cInput) g.m_entities.heap g.m_entities.getEntities
    pure { g with m_entities := { g.m_entities with heap := heap } }

/-- The method `Game::spawnPlayer`. -/
def spawnPlayer (g : Game) : Except Fault Game := do
  let (player, entities) := g.m_entities.addEntity EntityTags.Player
  let e ← deref entities.heap player
  let e := { e with
    cTransform := some (CTransform.new ⟨0, 0⟩ ⟨0, 0⟩ 0)
    cShape := some (CShape.new g.m_playerConfig.shape)
    cInput := some {} }
  let entities ← ({ entities with heap := entities.heap.set player e }).update
  pure { g with m_player := player, m_entities := entities }

/-- The local constant `MAX_SPAWN_ATTEMPTS` of `spawnEnemy`. -/
def MAX_SPAWN_ATTEMPTS : Nat := 10

/-- The loops of `spawnEnemy` over `m_entities.getEntities()`: whether some entity of the
canonical list collides with the enemy; the loop stops at the first hit. -/
def touchesAny (heap : List Entity) (enemy : EntityPtr) : EntityVector → Except Fault Bool
  | [] => .ok false
  | p :: rest => do
    let entity ← deref heap p
    let enemyEntity ← deref heap enemy
    let hit ← CollisionHelpers.calculateCollisionBetweenEntities entity enemyEntity
    if hit then pure true else touchesAny heap enemy rest

/-- The local variables of `spawnEnemy` during the placement search, the manager it works on,
and `draws`, the number of calls of `rand()` made so far. -/
structure SpawnSearch where
  entities : EntityManager
  enemy : EntityPtr
  isValidSpawn : Bool
  spawnAttempt : Nat
  draws : Nat
deriving DecidableEq, Repr

/-- The `while` loop of `spawnEnemy`. The k-th call of `rand()` returns `rand k`. The loop
runs at most `MAX_SPAWN_ATTEMPTS` times; `fuel` bounds the number of iterations. -/
def spawnRetry (windowSize : Vec2) (rand : Nat → Nat) : Nat → SpawnSearch → Except Fault SpawnSearch
  | fuel, st =>
    if !st.isValidSpawn && decide (st.spawnAttempt < MAX_SPAWN_ATTEMPTS) then
      match fuel with
      | 0 => .error .outOfFuel
      | fuel + 1 => do
        let randomX ← randMod (rand st.draws) windowSize.x
        let randomY ← randMod (rand (st.draws + 1)) windowSize.y
        let e ← deref st.entities.heap st.enemy
        let tr ← derefTransform e
        let e := { e with cTransform := some { tr with topLeftCornerPos := ⟨randomX, randomY⟩ } }
        let heap := st.entities.heap.set st.enemy e
        let collides ← CollisionHelpers.detectOutOfBounds e windowSize
        let touchesBoundary := collides.any
        let touchesOtherEntities ← touchesAny heap st.enemy st.entities.getEntities
        spawnRetry windowSize rand fuel
          { st with
            entities := { st.entities with heap := heap }
            spawnAttempt := st.spawnAttempt + 1
            isValidSpawn := !touchesBoundary && !touchesOtherEntities
            draws := st.draws + 2 }
    else .ok st

/-- The method `Game::spawnEnemy` up to the end of its `while` loop (lines 274 to 319): the
first placement and the retries. `ticks` is the clock value when the lifespan component is
built. -/
def spawnSearch (g : Game) (rand : Nat → Nat) (ticks : Nat) : Except Fault SpawnSearch := do
  let windowSize := g.m_gameConfig.windowSize
  let x ← randMod (rand 0) windowSize.x
  let y ← randMod (rand 1) windowSize.y
  let (enemy, entities) := g.m_entities.addEntity EntityTags.Enemy
  let e ← deref entities.heap enemy
  let e := { e with
    cTransform := some (CTransform.new ⟨x, y⟩ ⟨0, 0⟩ 0)
    cShape := some (CShape.new ⟨40, 40, ⟨255, 0, 0, 255⟩⟩)
    cLifespan := some (CLifespan.new 30000 ticks) }
  let heap := entities.heap.set enemy e
  let collides ← CollisionHelpers.detectOutOfBounds e windowSize
  let touchesBoundary := collides.any
  let touchesOtherEntities ← touchesAny heap enemy entities.getEntities
  let isValidSpawn := !touchesBoundary && !touchesOtherEntities
  let spawnAttempt := 1
  spawnRetry windowSize rand MAX_SPAWN_ATTEMPTS
    { entities := { entities with heap := heap }
      enemy := enemy
      isValidSpawn := isValidSpawn
      spawnAttempt := spawnAttempt
      draws := 2 }

/-- The method `Game::spawnEnemy`. -/
def spawnEnemy (g : Game) (rand : Nat → Nat) (ticks : Nat) : Except Fault Game := do
  let st ← spawnSearch g rand ticks
  let entities ← if !st.isValidSpawn then st.entities.destroy st.enemy else pure st.entities
  let entities ← entities.update
  pure { g with m_entities := entities }

end Game

/-! ## Game.cpp: input, spawner, lifespan, rendering and the tick -/

/-- Subtraction of two `Uint32` values: the difference modulo `2^32`. -/
def sub32 (a b : Nat) : Nat := (a % 2 ^ 32 + 2 ^ 32 - b % 2 ^ 32) % 2 ^ 32

/-- The key symbols that `sInput` tells apart. -/
inductive Key where
  | w
  | s
  | a
  | d
  | p
  | other
deriving DecidableEq, Repr

/-- The SDL events that `sInput` tells apart. -/
inductive Event where
  | quit
  | keyDown (sym : Key)
  | keyUp (sym : Key)
  | other
deriving DecidableEq, Repr

/-- What one call of `mainLoop` receives from outside: the events that `SDL_PollEvent` hands
out, the value of `SDL_GetTicks()` read by `sSpawner`, the values of `rand()` (the k-th call
returns `rand k`), the clock value at which a lifespan component is built, and the values of
`SDL_GetTicks()` read by `sLifespan` (the k-th call returns `clock k`). -/
structure TickInput where
  events : List Event := []
  spawnTicks : Nat := 0
  rand : Nat → Nat := fun _ => 0
  birthTicks : Nat := 0
  clock : Nat → Nat := fun _ => 0

namespace Game

/-- Modelled from the spec: `setPaused(bool)` of `Game.h` (not among the sources), the
"`setPaused(bool)` control". -/
def setPaused (g : Game) (paused : Bool) : Game := { g with m_paused := paused }

/-- A write `m_player->cInput-><flag> = value` of `sInput`. -/
def writeInput (g : Game) (f : CInput → CInput) : Except Fault Game := do
  let player ← deref g.m_entities.heap g.m_player
  match player.cInput with
  | none => .error .nullDereference
  | some cInput =>
    pure { g with m_entities := { g.m_entities with
      heap := g.m_entities.heap.set g.m_player { player with cInput := some (f cInput) } } }

/-- The method `Game::sInput` on the events that `SDL_PollEvent` hands out. -/
def sInput (g : Game) : List Event → Except Fault Game
  | [] => .ok g
  | event :: rest =>
    match event with
    | .quit => .ok { g with m_isRunning := false }
    | .keyDown .w => do
      let g ← writeInput g (fun c => { c with forward := true })
      sInput g rest
    | .keyDown .s => do
      let g ← writeInput g (fun c => { c with backward := true })
      sInput g rest
    | .keyDown .a => do
      let g ← writeInput g (fun c => { c with left := true })
      sInput g rest
    | .keyDown .d => do
      let g ← writeInput g (fun c => { c with right := true })
      sInput g rest
    | .keyDown .p => sInput (g.setPaused (!g.m_paused)) rest
    | .keyDown .other => sInput g rest
    | .keyUp .w => do
      let g ← writeInput g (fun c => { c with forward := false })
      sInput g rest
    | .keyUp .s => do
      let g ← writeInput g (fun c => { c with backward := false })
      sInput g rest
    | .keyUp .a => do
      let g ← writeInput g (fun c => { c with left := false })
      sInput g rest
    | .keyUp .d => do
      let g ← writeInput g (fun c => { c with right := false })
      sInput g rest
    | .keyUp .p => sInput g rest
    | .keyUp .other => sInput g rest
    | .other => sInput g rest

/-- The method `Game::sSpawner`; `ticks` is the value of `SDL_GetTicks()`. -/
def sSpawner (g : Game) (ticks : Nat) (rand : Nat → Nat) (birthTicks : Nat) :
    Except Fault Game :=
  if sub32 ticks g.m_lastEnemySpawnTime < 2500 then
    .ok g
  else
    spawnEnemy { g with m_lastEnemySpawnTime := ticks } rand birthTicks

/-- The loop of `sLifespan` over `m_entities.getEntities()`, on the heap and the number of
calls of `SDL_GetTicks()` made so far. -/
def lifespanLoop (clock : Nat → Nat) :
    List Entity × Nat → EntityVector → Except Fault (List Entity × Nat)
  | st, [] => .ok st
  | (heap, calls), p :: rest => do
    let entity ← deref heap p
    if entity.tag = EntityTags.Player then
      lifespanLoop clock (heap, calls) rest
    else
      match entity.cLifespan with
      | none => lifespanLoop clock (heap, calls) rest
      | some cLifespan =>
        let currentTime := clock calls
        if sub32 currentTime cLifespan.birthTime > cLifespan.lifespan then
          lifespanLoop clock (heap.set p entity.destroy, calls + 1) rest
        else
          lifespanLoop clock (heap, calls + 1) rest

/-- The method `Game::sLifespan`. -/
def sLifespan (g : Game) (clock : Nat → Nat) : Except Fault Game := do
  let (heap, _) ← lifespanLoop clock (g.m_entities.heap, 0) g.m_entities.getEntities
  pure { g with m_entities := { g.m_entities with heap := heap } }

/-- The loop of `sRender` over `m_entities.getEntities()`: the position is copied into
`cShape->rect.x` and `cShape->rect.y` (the draw calls are left out). -/
def renderLoop : List Entity → EntityVector → Except Fault (List Entity)
  | heap, [] => .ok heap
  | heap, p :: rest => do
    let entity ← deref heap p
    match entity.cShape with
    | none => renderLoop heap rest
    | some cShape => do
      let tr ← derefTransform entity
      let pos := tr.topLeftCornerPos
      let rect := { cShape.rect with x := pos.x, y := pos.y }
      renderLoop (heap.set p { entity with cShape := some { cShape with rect := rect } }) rest

/-- The method `Game::sRender`. -/
def sRender (g : Game) : Except Fault Game := do
  let heap ← renderLoop g.m_entities.heap g.m_entities.getEntities
  pure { g with m_entities := { g.m_entities with heap := heap } }

/-- The systems of `mainLoop` that run before `sRender` when the game is not paused:
`sMovement`, `sCollision`, `sSpawner`, `sLifespan`. -/
def systems (g : Game) (input : TickInput) : Except Fault Game := do
  let g ← sMovement g
  let g ← sCollision g
  let g ← sSpawner g input.spawnTicks input.rand input.birthTicks
  sLifespan g input.clock

/-- The function `Game::mainLoop` up to the call of `sRender`: the state that the render step
finds. -/
def beforeRender (g : Game) (input : TickInput) : Except Fault Game := do
  let g ← sInput g input.events
  if !g.m_paused then systems g input else pure g

/-- The function `Game::mainLoop`: one tick. -/
def mainLoop (g : Game) (input : TickInput) : Except Fault Game := do
  let g ← sInput g input.events
  if !g.m_paused then do
    let g ← systems g input
    sRender g
  else pure g

/-- The game states reached from the state after `spawnPlayer` on a fresh game by any number
of calls of `mainLoop`. -/
inductive Reachable : Game → Prop where
  | init (g0 g : Game) : g0.m_entities = {} → g0.spawnPlayer = .ok g → Reachable g
  | tick (g g2 : Game) (input : TickInput) : Reachable g → g.mainLoop input = .ok g2 →
      Reachable g2

end Game

/-! ### Specification-level views of the heap -/

/-- Whether the pointer refers to an entity whose `active` flag is set. -/
def activeAt (heap : List Entity) (p : EntityPtr) : Bool :=
  match heap[p]? with
  | some e => e.isActive
  | none => false

/-- The tag of the entity the pointer refers to. -/
def tagAt (heap : List Entity) (p : EntityPtr) : String :=
  match heap[p]? with
  | some e => e.tag
  | none => ""

/-- Every pointer of the vector refers to an entity object. -/
def ValidVec (heap : List Entity) (v : EntityVector) : Prop := ∀ p ∈ v, p < heap.length

/-- Every pointer held by the manager refers to an entity object. -/
structure EntityManager.Valid (m : EntityManager) : Prop where
  entities : ValidVec m.heap m.m_entities
  toAdd : ValidVec m.heap m.m_toAdd
  buckets : ∀ kv ∈ m.m_entityMap, ValidVec m.heap kv.2

/-- The map after the first loop of `update`, as a fold. -/
def pushAll (heap : List Entity) (entityMap : EntityMap) (toAdd : EntityVector) : EntityMap :=
  toAdd.foldl (fun mp p => mp.pushBack (tagAt heap p) p) entityMap

/-- The map after the second loop of `update`. -/
def pruneAll (heap : List Entity) (entityMap : EntityMap) : EntityMap :=
  entityMap.map (fun kv => (kv.1, kv.2.filter (activeAt heap)))

/-- The result of `update` in closed form (see `update_eq_updated`). -/
def EntityManager.updated (m : EntityManager) : EntityManager :=
  { m with
    m_entities := (m.m_entities ++ m.m_toAdd).filter (activeAt m.heap)
    m_entityMap := pruneAll m.heap (pushAll m.heap m.m_entityMap m.m_toAdd)
    m_toAdd := [] }

/-- The invariant of the manager states reached from the empty manager: the pointers are
valid, no entity is held twice, the map has one entry per key, and the bucket of a tag lists
the entities of the canonical list that have this tag, in the same order. -/
structure EntityManager.Inv (m : EntityManager) : Prop where
  valid : m.Valid
  nodup : (m.m_entities ++ m.m_toAdd).Nodup
  keys : (m.m_entityMap.map Prod.fst).Nodup
  buckets : ∀ tag,
    m.m_entityMap.bucket tag = m.m_entities.filter (fun p => decide (tagAt m.heap p = tag))

/-- The overlap relation of §4.4 on two entities, in inequalities: both have a transform and
a shape, and `A.x + A.w >= B.x`, `A.x <= B.x + B.w`, `A.y + A.h >= B.y`,
`A.y <= B.y + B.h`. -/
def rectsOverlap (a b : Entity) : Bool :=
  match a.cTransform, a.cShape, b.cTransform, b.cShape with
  | some tA, some sA, some tB, some sB =>
    decide (tA.topLeftCornerPos.x + sA.rect.w ≥ tB.topLeftCornerPos.x) &&
    decide (tA.topLeftCornerPos.x ≤ tB.topLeftCornerPos.x + sB.rect.w) &&
    decide (tA.topLeftCornerPos.y + sA.rect.h ≥ tB.topLeftCornerPos.y) &&
    decide (tA.topLeftCornerPos.y ≤ tB.topLeftCornerPos.y + sB.rect.h)
  | _, _, _, _ => false

/-- Whether the entity behind `p` is a non-player entity whose rectangle overlaps the
rectangle of the entity behind `player`. -/
def hitsPlayer (heap : List Entity) (player p : EntityPtr) : Bool :=
  match heap[player]?, heap[p]? with
  | some a, some e => decide (e.tag ≠ EntityTags.Player) && rectsOverlap a e
  | _, _ => false

/-- The entity has a transform and a shape. -/
def Entity.HasBody (e : Entity) : Prop := (∃ t, e.cTransform = some t) ∧ ∃ s, e.cShape = some s

/-- The position to which `enforcePlayerBounds` moves a rectangle at `pos` of extent `w` by `h`
when it is given the flags of `detectOutOfBounds`: each coordinate is put on the far boundary
if the far-side flag is set, else on 0 if the near-side flag is set, else left alone. -/
def clampedPos (pos : Vec2) (w h : Int) (ws : Vec2) : Vec2 :=
  ⟨if pos.x + w ≥ ws.x then ws.x - w else if pos.x ≤ 0 then 0 else pos.x,
   if pos.y + h ≥ ws.y then ws.y - h else if pos.y ≤ 0 then 0 else pos.y⟩

/-- Whether the entity behind `p` is a non-player entity whose rectangle overlaps the
rectangle of the entity `player`. -/
def nonPlayerOverlap (player : Entity) (heap : List Entity) (p : EntityPtr) : Bool :=
  match heap[p]? with
  | some e => decide (e.tag ≠ EntityTags.Player) && rectsOverlap player e
  | none => false

/-- The entity with the position of its transform (if it has one) reset: what the movement
step leaves unchanged. -/
def Entity.unplaced (e : Entity) : Entity :=
  { e with cTransform := e.cTransform.map (fun tr => { tr with topLeftCornerPos := ⟨0, 0⟩ }) }

/-! ### Specification-level views of the spawn placement -/

/-- The hazard that `spawnEnemy` builds: entity `id` with tag `Enemy`, a transform at `pos`
with zero velocity, a 40 by 40 shape and a lifespan of 30000 born at `ticks`. -/
def enemyAt (id : Nat) (pos : Vec2) (ticks : Nat) : Entity :=
  { m_id := id, m_tag := EntityTags.Enemy, m_active := true,
    cTransform := some (CTransform.new pos ⟨0, 0⟩ 0),
    cShape := some (CShape.new ⟨40, 40, ⟨255, 0, 0, 255⟩⟩),
    cInput := none,
    cLifespan := some (CLifespan.new 30000 ticks) }

/-- The k-th candidate position (k = 0 is the first placement): the draws `2k` and `2k + 1`
of `rand()`, each reduced modulo the window size. -/
def candidate (ws : Vec2) (rand : Nat → Nat) (k : Nat) : Vec2 :=
  ⟨Int.tmod (rand (2 * k) : Int) ws.x, Int.tmod (rand (2 * k + 1) : Int) ws.y⟩

/-- A 40 by 40 rectangle at `pos` sets one of the four out-of-bounds flags. -/
def touchesBoundary (ws pos : Vec2) : Bool :=
  decide (pos.y ≤ 0) || decide (pos.y + 40 ≥ ws.y) || decide (pos.x ≤ 0) ||
    decide (pos.x + 40 ≥ ws.x)

/-- Some entity behind a pointer of `entities` overlaps the entity `en`. -/
def overlapsSome (base : List Entity) (entities : EntityVector) (en : Entity) : Bool :=
  entities.any (fun p =>
    match base[p]? with
    | some e => rectsOverlap e en
    | none => false)

/-- The candidate position is valid for the game: no out-of-bounds flag and no overlap with an
entity of the canonical list. -/
def placementValid (g : Game) (pos : Vec2) : Bool :=
  !touchesBoundary g.m_gameConfig.windowSize pos &&
    !overlapsSome g.m_entities.heap g.m_entities.m_entities (enemyAt 0 pos 0)

/-- An invalid candidate position, in inequalities: the 40 by 40 rectangle at `pos` touches a
boundary of the window, or overlaps some entity of the canonical list. -/
def CandidateInvalid (g : Game) (pos : Vec2) : Prop :=
  (pos.y ≤ 0 ∨ pos.y + 40 ≥ g.m_gameConfig.windowSize.y ∨ pos.x ≤ 0 ∨
    pos.x + 40 ≥ g.m_gameConfig.windowSize.x) ∨
  ∃ p ∈ g.m_entities.m_entities, ∃ e t s, g.m_entities.heap[p]? = some e ∧
    e.cTransform = some t ∧ e.cShape = some s ∧
    t.topLeftCornerPos.x + s.rect.w ≥ pos.x ∧ t.topLeftCornerPos.x ≤ pos.x + 40 ∧
    t.topLeftCornerPos.y + s.rect.h ≥ pos.y ∧ t.topLeftCornerPos.y ≤ pos.y + 40

/-- The state of the placement search of `spawnEnemy` on `g` when the hazard stands at `pos`,
the last test gave `valid` and `a` candidates have been tested. -/
def searchState (g : Game) (ticks : Nat) (pos : Vec2) (valid : Bool) (a : Nat) :
    Game.SpawnSearch :=
  { entities :=
      { (g.m_entities.addEntity EntityTags.Enemy).2 with
        heap := g.m_entities.heap ++ [enemyAt g.m_entities.m_totalEntities pos ticks] }
    enemy := g.m_entities.heap.length
    isValidSpawn := valid
    spawnAttempt := a
    draws := 2 * a }

/-- Every entity of the canonical list exists and has a transform and a shape. -/
def Game.BodiesPresent (g : Game) : Prop :=
  ∀ p ∈ g.m_entities.m_entities, ∃ e, g.m_entities.heap[p]? = some e ∧ e.HasBody

/-- The manager at the end of `spawnEnemy`, before its `update()`: the hazard `en` is the last
object of the heap and the last pointer of the pending list. -/
def spawnedManager (g : Game) (en : Entity) : EntityManager :=
  { (g.m_entities.addEntity EntityTags.Enemy).2 with heap := g.m_entities.heap ++ [en] }

/-- The hazard at the end of `spawnEnemy`: destroyed unless the last placement was valid. -/
def spawnedEnemy (g : Game) (ticks : Nat) (pos : Vec2) : Entity :=
  if placementValid g pos then enemyAt g.m_entities.m_totalEntities pos ticks
  else (enemyAt g.m_entities.m_totalEntities pos ticks).destroy

/-- The state invariant of the game between two systems: the manager's pointers are valid,
nothing is pending, every entity of the canonical list has a transform and a shape, the
player pointer refers to an entity tagged `Player` with transform, shape and input component,
and the configured window size is non-zero. It holds after `spawnPlayer` and is kept by
`sMovement`, `sCollision` and `spawnEnemy` (see `wellFormed_spawnPlayer` and the lemmas after
it). -/
structure Game.WellFormed (g : Game) : Prop where
  valid : g.m_entities.Valid
  pending : g.m_entities.m_toAdd = []
  bodies : g.BodiesPresent
  player : ∃ pl, g.m_entities.heap[g.m_player]? = some pl ∧ pl.tag = EntityTags.Player ∧
    pl.HasBody ∧ ∃ cInput, pl.cInput = some cInput
  window : g.m_gameConfig.windowSize.x ≠ 0 ∧ g.m_gameConfig.windowSize.y ≠ 0

/-! ### Specification-level views of creation order -/

/-- The id of the entity the pointer refers to. -/
def idAt (heap : List Entity) (p : EntityPtr) : Nat :=
  match heap[p]? with
  | some e => e.id
  | none => 0

/-- The order invariant of the manager states reached from the empty manager: the i-th
entity object has id i, `m_totalEntities` counts the objects, and the canonical list followed
by the pending list is strictly increasing. -/
structure EntityManager.Ordered (m : EntityManager) : Prop where
  ids : ∀ (p : EntityPtr) (e : Entity), m.heap[p]? = some e → e.id = p
  total : m.m_totalEntities = m.heap.length
  sorted : (m.m_entities ++ m.m_toAdd).Pairwise (fun a b => a < b)

/-! ### Specification-level views of the lifespan phase -/

/-- Whether `sLifespan` destroys the entity behind `p` when the clock reads `now`: it is not
tagged `Player`, carries a lifespan component, and the `Uint32` difference of `now` and the
birth time exceeds the duration. -/
def expiredAt (heap : List Entity) (now : Nat) (p : EntityPtr) : Bool :=
  match heap[p]? with
  | some e =>
    decide (e.tag ≠ EntityTags.Player) &&
      (match e.cLifespan with
       | some cLifespan => decide (sub32 now cLifespan.birthTime > cLifespan.lifespan)
       | none => false)
  | none => false

/-- The entity after the movement step moved it with the intent vector `v`: the position of
its transform grows by `2 * v`. -/
def Entity.moved (v : Vec2) (e : Entity) : Entity :=
  match e.cTransform with
  | some tr =>
    { e with cTransform := some { tr with
        topLeftCornerPos := ⟨tr.topLeftCornerPos.x + 2 * v.x, tr.topLeftCornerPos.y + 2 * v.y⟩ } }
  | none => e

/-! ### Specification-level views of the player's survival -/

/-- The heap `heap2` keeps the entity objects of `heap`: every object of `heap` is still there
with the same tag, and with the same `active` flag when its tag is `Player`. -/
def PlayersKept (heap heap2 : List Entity) : Prop :=
  ∀ (p : EntityPtr) (e : Entity), heap[p]? = some e →
    ∃ e2, heap2[p]? = some e2 ∧ e2.tag = e.tag ∧
      (e.tag = EntityTags.Player → e2.isActive = e.isActive)

/-- The player of the game is there: `m_player` refers to an entity tagged `Player` whose
`active` flag is set and which is in the canonical list. -/
structure Game.PlayerPresent (g : Game) : Prop where
  tagged : tagAt g.m_entities.heap g.m_player = EntityTags.Player
  active : activeAt g.m_entities.heap g.m_player = true
  listed : g.m_player ∈ g.m_entities.getEntities

/-- What a system leaves in place on the way from `g` to `g2`: the entity objects are kept in
the sense of `PlayersKept`, `m_player` is the same pointer, and an entity of the canonical
list that is active afterwards is still in the canonical list. -/
structure Game.KeepsPlayers (g g2 : Game) : Prop where
  heap : PlayersKept g.m_entities.heap g2.m_entities.heap
  player : g2.m_player = g.m_player
  listed : ∀ p ∈ g.m_entities.getEntities, activeAt g2.m_entities.heap p = true →
    p ∈ g2.m_entities.getEntities

/-! ### Specification-level views of `float` arithmetic -/

/-- The integer `n` has magnitude at most `2^24`. Every such integer is a value of the
binary32 type `float`, and an `int` of this magnitude converts to `float` without rounding. -/
def ExactFloat (n : Int) : Prop := -(2 ^ 24) ≤ n ∧ n ≤ 2 ^ 24

instance instDecidableExactFloat (n : Int) : Decidable (ExactFloat n) := by
  unfold ExactFloat
  infer_instance

/-- The `float` sum of `a` and `b` is their exact sum: `a`, `b` and `a + b` are integers of
magnitude at most `2^24`, so no operand and no result is rounded. Beyond this range binary32
rounds (the `float` sum of `2^24` and `43` is `2^24 + 44`), and the integer coordinates of
`Vec2` no longer say what the program computes. -/
def SumExact (a b : Int) : Prop := ExactFloat a ∧ ExactFloat b ∧ ExactFloat (a + b)

instance instDecidableSumExact (a b : Int) : Decidable (SumExact a b) := by
  unfold SumExact
  infer_instance

/-! ### Sample entities and states -/

namespace Examples

/-- A hazard as `spawnEnemy` builds it, at position `(x, y)` with velocity `(vx, vy)`. -/
def hazardAt (id : Nat) (x y vx vy : Int) : Entity :=
  { m_id := id, m_tag := EntityTags.Enemy,
    cTransform := some (CTransform.new ⟨x, y⟩ ⟨vx, vy⟩ 0),
    cShape := some (CShape.new ⟨40, 40, ⟨255, 0, 0, 255⟩⟩),
    cLifespan := some (CLifespan.new 30000 0) }

/-- A player as `spawnPlayer` builds it with a 40 by 40 shape, moved to `(x, y)`, with the
given intent flags. -/
def playerAt (x y : Int) (cInput : CInput) : Entity :=
  { m_id := 0, m_tag := EntityTags.Player,
    cTransform := some (CTransform.new ⟨x, y⟩ ⟨0, 0⟩ 0),
    cShape := some (CShape.new ⟨40, 40, ⟨0, 255, 0, 255⟩⟩),
    cInput := some cInput }

/-- The manager after `addEntity(Player)` and `addEntity(Enemy)` on the empty manager. -/
def twoPending : EntityManager :=
  ((({} : EntityManager).addEntity EntityTags.Player).2.addEntity EntityTags.Enemy).2

/-- The manager `twoPending` after `destroy()` on the pending enemy. -/
def pendingDestroyed : EntityManager :=
  { twoPending with heap := twoPending.heap.set 1 (Entity.new 1 EntityTags.Enemy).destroy }

/-- A game whose canonical list holds a player with a 40 by 40 shape at `(px, py)` with the
intent flags `cInput`, and one hazard at `(hx, hy)`. -/
def playerAndHazard (px py : Int) (cInput : CInput) (hx hy : Int) : Game :=
  { m_gameConfig := {}
    m_playerConfig := ⟨⟨40, 40, ⟨0, 255, 0, 255⟩⟩⟩
    m_entities :=
      { heap := [playerAt px py cInput, hazardAt 1 hx hy 0 0]
        m_entities := [0, 1]
        m_entityMap := [(EntityTags.Player, [0]), (EntityTags.Enemy, [1])]
        m_toAdd := []
        m_totalEntities := 2 }
    m_player := 0 }

/-- The scenario of the collision phase: player at `(100, 100)`, hazard at `(110, 110)`. -/
def collisionScenario : Game := playerAndHazard 100 100 {} 110 110

/-- A game whose canonical list holds only a player with a 40 by 40 shape at `(px, py)` with
the intent flags `cInput`, as after `spawnPlayer` and some input and movement. -/
def playerAlone (px py : Int) (cInput : CInput) : Game :=
  { m_gameConfig := {}
    m_playerConfig := ⟨⟨40, 40, ⟨0, 255, 0, 255⟩⟩⟩
    m_entities :=
      { heap := [playerAt px py cInput]
        m_entities := [0]
        m_entityMap := [(EntityTags.Player, [0])]
        m_toAdd := []
        m_totalEntities := 1 }
    m_player := 0 }

/-- The manager `twoPending` after `update()`: both entities are in the canonical list. -/
def twoListed : EntityManager :=
  { heap := [Entity.new 0 EntityTags.Player, Entity.new 1 EntityTags.Enemy]
    m_entities := [0, 1]
    m_entityMap := [(EntityTags.Player, [0]), (EntityTags.Enemy, [1])]
    m_toAdd := []
    m_totalEntities := 2 }

/-- A game whose canonical list holds a player at `(0, 0)` and one hazard at `(500, 500)` with
duration 30000 born at clock value `birth`. -/
def playerAndHazardBorn (birth : Nat) : Game :=
  { m_gameConfig := {}
    m_playerConfig := ⟨⟨40, 40, ⟨0, 255, 0, 255⟩⟩⟩
    m_entities :=
      { heap := [playerAt 0 0 {}, enemyAt 1 ⟨500, 500⟩ birth]
        m_entities := [0, 1]
        m_entityMap := [(EntityTags.Player, [0]), (EntityTags.Enemy, [1])]
        m_toAdd := []
        m_totalEntities := 2 }
    m_player := 0 }

/-- An entity with a transform at `(x, y)` but no shape component. -/
def shapeless (x y : Int) : Entity :=
  { m_id := 7, m_tag := EntityTags.Enemy,
    cTransform := some (CTransform.new ⟨x, y⟩ ⟨0, 0⟩ 0) }

/-- The entity after `sRender` copied its position into `cShape->rect`. -/
def drawn (e : Entity) : Entity :=
  match e.cTransform, e.cShape with
  | some tr, some cShape =>
    { e with cShape := some { cShape with
        rect := { cShape.rect with x := tr.topLeftCornerPos.x, y := tr.topLeftCornerPos.y } } }
  | _, _ => e

/-- A running game with the default configuration, the given entity objects, canonical list
and tag map, nothing pending, the first object as player, and the given time of the last
spawn. -/
def gameWith (heap : List Entity) (entities : EntityVector) (entityMap : EntityMap)
    (lastSpawn : Nat) : Game :=
  { m_gameConfig := {}
    m_playerConfig := ⟨⟨40, 40, ⟨0, 255, 0, 255⟩⟩⟩
    m_entities :=
      { heap := heap
        m_entities := entities
        m_entityMap := entityMap
        m_toAdd := []
        m_totalEntities := heap.length }
    m_player := 0
    m_lastEnemySpawnTime := lastSpawn
    m_isRunning := true }

/-- A fresh game: running, with an empty manager. -/
def fresh : Game :=
  { m_gameConfig := {}, m_playerConfig := ⟨⟨40, 40, ⟨0, 255, 0, 255⟩⟩⟩, m_isRunning := true }

/-- The state after `spawnPlayer` on the fresh game. -/
def started : Game := gameWith [playerAt 0 0 {}] [0] [(EntityTags.Player, [0])] 0

/-- First tick: no event, the clock reads 2500 throughout, `rand()` returns 43 and then 30. -/
def firstInput : TickInput :=
  { spawnTicks := 2500, rand := fun k => if k = 0 then 43 else 30, birthTicks := 2500,
    clock := fun _ => 2500 }

/-- The state after the first tick: a hazard born at 2500 stands at `(43, 30)`. -/
def afterFirst : Game :=
  gameWith [playerAt 0 0 {}, drawn (enemyAt 1 ⟨43, 30⟩ 2500)] [0, 1]
    [(EntityTags.Player, [0]), (EntityTags.Enemy, [1])] 2500

/-- Second tick: the key `d` goes down, the clock reads 40000 throughout, `rand()` returns
500. -/
def secondInput : TickInput :=
  { events := [.keyDown .d], spawnTicks := 40000, rand := fun _ => 500, birthTicks := 40000,
    clock := fun _ => 40000 }

/-- The state after the second tick: the first hazard has expired and is inactive, and it is
still in the canonical list and in its bucket. -/
def afterSecond : Game :=
  gameWith [drawn (playerAt 2 0 { right := true }), (drawn (enemyAt 1 ⟨43, 30⟩ 2500)).destroy,
      drawn (enemyAt 2 ⟨500, 500⟩ 40000)] [0, 1, 2]
    [(EntityTags.Player, [0]), (EntityTags.Enemy, [1, 2])] 40000

/-- Third tick: no event, the clock reads 40016 throughout. -/
def thirdInput : TickInput :=
  { spawnTicks := 40016, rand := fun _ => 500, birthTicks := 40016, clock := fun _ => 40016 }

/-- Second tick, after `sInput`: the right intent is held. -/
def secondAfterInput : Game :=
  gameWith [playerAt 0 0 { right := true }, drawn (enemyAt 1 ⟨43, 30⟩ 2500)] [0, 1]
    [(EntityTags.Player, [0]), (EntityTags.Enemy, [1])] 2500

/-- Second tick, after `sMovement` and after `sCollision`: the player is at `(2, 0)`. -/
def secondAfterMovement : Game :=
  gameWith [playerAt 2 0 { right := true }, drawn (enemyAt 1 ⟨43, 30⟩ 2500)] [0, 1]
    [(EntityTags.Player, [0]), (EntityTags.Enemy, [1])] 2500

/-- Second tick, after `sSpawner`: a second hazard, born at 40000, stands at `(500, 500)`. -/
def secondAfterSpawner : Game :=
  gameWith [playerAt 2 0 { right := true }, drawn (enemyAt 1 ⟨43, 30⟩ 2500),
      enemyAt 2 ⟨500, 500⟩ 40000] [0, 1, 2]
    [(EntityTags.Player, [0]), (EntityTags.Enemy, [1, 2])] 40000

/-- Second tick, after `sLifespan`, when `sRender` is about to run: the first hazard is
inactive and still in the canonical list. -/
def atSecondRender : Game :=
  gameWith [playerAt 2 0 { right := true }, (drawn (enemyAt 1 ⟨43, 30⟩ 2500)).destroy,
      enemyAt 2 ⟨500, 500⟩ 40000] [0, 1, 2]
    [(EntityTags.Player, [0]), (EntityTags.Enemy, [1, 2])] 40000

/-- First tick, after `sSpawner` and after `sLifespan`. -/
def firstAfterSpawner : Game :=
  gameWith [playerAt 0 0 {}, enemyAt 1 ⟨43, 30⟩ 2500] [0, 1]
    [(EntityTags.Player, [0]), (EntityTags.Enemy, [1])] 2500

/-- Third tick, after `sMovement`: the player is at `(4, 0)`. -/
def thirdAfterMovement : Game :=
  gameWith [(drawn (playerAt 2 0 { right := true })).moved ⟨1, 0⟩,
      (drawn (enemyAt 1 ⟨43, 30⟩ 2500)).destroy, drawn (enemyAt 2 ⟨500, 500⟩ 40000)] [0, 1, 2]
    [(EntityTags.Player, [0]), (EntityTags.Enemy, [1, 2])] 40000

/-- Third tick, after `sCollision` (and after `sSpawner` and `sLifespan`): the expired hazard
has been counted as a hit and pruned. -/
def thirdAfterCollision : Game :=
  { gameWith [(drawn (playerAt 2 0 { right := true })).moved ⟨1, 0⟩,
      (drawn (enemyAt 1 ⟨43, 30⟩ 2500)).destroy, drawn (enemyAt 2 ⟨500, 500⟩ 40000)] [0, 2]
      [(EntityTags.Player, [0]), (EntityTags.Enemy, [2])] 40000 with m_score := 1 }

/-- The state after the third tick. -/
def afterThird : Game :=
  { gameWith [drawn (playerAt 4 0 { right := true }),
      (drawn (enemyAt 1 ⟨43, 30⟩ 2500)).destroy, drawn (enemyAt 2 ⟨500, 500⟩ 40000)] [0, 2]
      [(EntityTags.Player, [0]), (EntityTags.Enemy, [2])] 40000 with m_score := 1 }

/-- The manager after `addEntity(Enemy)`, `addEntity(Player)` and `addEntity(Enemy)` on the
empty manager: three pending entities. -/
def threePending : EntityManager :=
  ((((({} : EntityManager).addEntity EntityTags.Enemy).2.addEntity EntityTags.Player).2).addEntity
    EntityTags.Enemy).2

/-- The manager `threePending` after `update()`: the three entities are in the canonical list
and in their buckets. -/
def threeListed : EntityManager :=
  { heap := [Entity.new 0 EntityTags.Enemy, Entity.new 1 EntityTags.Player,
      Entity.new 2 EntityTags.Enemy]
    m_entities := [0, 1, 2]
    m_entityMap := [(EntityTags.Enemy, [0, 2]), (EntityTags.Player, [1])]
    m_toAdd := []
    m_totalEntities := 3 }

/-- The manager `threeListed` after `destroy()` on its first entity. -/
def firstDestroyed : EntityManager :=
  { threeListed with heap := threeListed.heap.set 0 (Entity.new 0 EntityTags.Enemy).destroy }

/-- The manager `firstDestroyed` after `addEntity(Enemy)` and `addEntity(Player)`: the
canonical list is `[0, 1, 2]` with entity 0 destroyed, and entities 3 and 4 are pending. -/
def staggered : EntityManager :=
  ((firstDestroyed.addEntity EntityTags.Enemy).2.addEntity EntityTags.Player).2

end Examples

/-! # Theorems -/

/-! ### Lemmas on `update` -/

theorem deref_of_lt {heap : List Entity} {p : EntityPtr} (h : p < heap.length) :
    deref heap p = .ok (heap.get ⟨p, h⟩) := by
  simp [deref, List.getElem?_eq_getElem h]

theorem activeAt_of_lt {heap : List Entity} {p : EntityPtr} (h : p < heap.length) :
    activeAt heap p = (heap.get ⟨p, h⟩).isActive := by
  simp [activeAt, List.getElem?_eq_getElem h]

theorem tagAt_of_lt {heap : List Entity} {p : EntityPtr} (h : p < heap.length) :
    tagAt heap p = (heap.get ⟨p, h⟩).tag := by
  simp [tagAt, List.getElem?_eq_getElem h]

theorem removeDeadEntities_eq (heap : List Entity) (v : EntityVector) (hv : ValidVec heap v) :
    EntityManager.removeDeadEntities heap v = .ok (v.filter (activeAt heap)) := by
  induction v with
  | nil => rfl
  | cons p rest ih =>
    have hp : p < heap.length := hv p (List.mem_cons_self _ _)
    have hrest : ValidVec heap rest := fun q hq => hv q (List.mem_cons_of_mem _ hq)
    simp only [EntityManager.removeDeadEntities, deref_of_lt hp, ih hrest, List.filter_cons,
      activeAt_of_lt hp]
    cases (heap.get ⟨p, hp⟩).isActive <;> simp

theorem flushPending_eq (heap : List Entity) (toAdd : EntityVector) (hv : ValidVec heap toAdd)
    (entities : EntityVector) (entityMap : EntityMap) :
    EntityManager.flushPending heap toAdd (entities, entityMap) =
      .ok (entities ++ toAdd, pushAll heap entityMap toAdd) := by
  induction toAdd generalizing entities entityMap with
  | nil => simp [EntityManager.flushPending, pushAll]
  | cons p rest ih =>
    have hp : p < heap.length := hv p (List.mem_cons_self _ _)
    have hrest : ValidVec heap rest := fun q hq => hv q (List.mem_cons_of_mem _ hq)
    simp only [EntityManager.flushPending, deref_of_lt hp, ih hrest, pushAll, List.foldl_cons,
      tagAt_of_lt hp, List.append_assoc, List.singleton_append]

theorem pruneBuckets_eq (heap : List Entity) (entityMap : EntityMap)
    (hv : ∀ kv ∈ entityMap, ValidVec heap kv.2) :
    EntityManager.pruneBuckets heap entityMap = .ok (pruneAll heap entityMap) := by
  induction entityMap with
  | nil => rfl
  | cons kv rest ih =>
    obtain ⟨k, v⟩ := kv
    have h1 : ValidVec heap v := hv (k, v) (List.mem_cons_self _ _)
    have h2 : ∀ kv ∈ rest, ValidVec heap kv.2 := fun kv hkv => hv kv (List.mem_cons_of_mem _ hkv)
    simp [EntityManager.pruneBuckets, removeDeadEntities_eq heap v h1, ih h2, pruneAll]

theorem mem_pushBack {entityMap : EntityMap} {tag : String} {e : EntityPtr}
    {kv : String × EntityVector} (h : kv ∈ entityMap.pushBack tag e) :
    ∀ p ∈ kv.2, p = e ∨ ∃ kv2 ∈ entityMap, p ∈ kv2.2 := by
  induction entityMap with
  | nil =>
    simp only [EntityMap.pushBack, List.mem_singleton] at h
    subst h
    intro p hp
    left
    simpa using hp
  | cons hd rest ih =>
    obtain ⟨k, v⟩ := hd
    intro p hp
    by_cases hk : k = tag
    · simp only [EntityMap.pushBack, hk, if_true, List.mem_cons] at h
      rcases h with h | h
      · subst h
        simp only [List.mem_append, List.mem_singleton] at hp
        rcases hp with hp | hp
        · right; exact ⟨(k, v), List.mem_cons_self _ _, hp⟩
        · left; exact hp
      · right; exact ⟨kv, List.mem_cons_of_mem _ h, hp⟩
    · simp only [EntityMap.pushBack, hk, if_false, List.mem_cons] at h
      rcases h with h | h
      · subst h
        right; exact ⟨(k, v), List.mem_cons_self _ _, hp⟩
      · rcases ih h p hp with h3 | ⟨kv2, h3, h4⟩
        · left; exact h3
        · right; exact ⟨kv2, List.mem_cons_of_mem _ h3, h4⟩

theorem mem_pushAll (heap : List Entity) (toAdd : EntityVector) (entityMap : EntityMap)
    {kv : String × EntityVector} (h : kv ∈ pushAll heap entityMap toAdd) :
    ∀ p ∈ kv.2, p ∈ toAdd ∨ ∃ kv2 ∈ entityMap, p ∈ kv2.2 := by
  induction toAdd generalizing entityMap with
  | nil =>
    intro p hp
    right
    exact ⟨kv, by simpa [pushAll] using h, hp⟩
  | cons q rest ih =>
    intro p hp
    simp only [pushAll, List.foldl_cons] at h
    rcases ih _ h p hp with h1 | ⟨kv2, h1, h2⟩
    · left; exact List.mem_cons_of_mem _ h1
    · rcases mem_pushBack h1 p h2 with h3 | h3
      · left; rw [h3]; exact List.mem_cons_self _ _
      · right; exact h3

theorem update_eq_updated (m : EntityManager) (hv : m.Valid) : m.update = .ok m.updated := by
  have h1 := flushPending_eq m.heap m.m_toAdd hv.toAdd m.m_entities m.m_entityMap
  have h2 : ValidVec m.heap (m.m_entities ++ m.m_toAdd) := by
    intro p hp
    rcases List.mem_append.1 hp with h | h
    · exact hv.entities p h
    · exact hv.toAdd p h
  have h3 : ∀ kv ∈ pushAll m.heap m.m_entityMap m.m_toAdd, ValidVec m.heap kv.2 := by
    intro kv hkv p hp
    rcases mem_pushAll m.heap m.m_toAdd m.m_entityMap hkv p hp with h | ⟨kv2, h, h4⟩
    · exact hv.toAdd p h
    · exact hv.buckets kv2 h p h4
  simp only [EntityManager.update, h1, removeDeadEntities_eq _ _ h2, pruneBuckets_eq _ _ h3,
    EntityManager.updated]

/-! ## Boundary detection, clamping, reflection and the overlap test -/

/-- C1. For an entity with a transform (top-left position `t.topLeftCornerPos`) and a shape
(`s.rect.w`, `s.rect.h`) whose sums `y + h` and `x + w` are exact in `float` (`SumExact`:
operands and sum are integers of magnitude at most `2^24`), and for every window size,
`detectOutOfBounds` returns a flag set in which TOP is set iff `y <= 0`, BOTTOM iff
`y + h >= H`, LEFT iff `x <= 0` and RIGHT iff `x + w >= W`, each flag on its own inequality.
The function is a pure function of the entity, which it does not change. -/
theorem detectOutOfBounds_flags (entity : Entity) (t : CTransform) (s : CShape)
    (window_size : Vec2) (ht : entity.cTransform = some t) (hs : entity.cShape = some s)
    (_ : SumExact t.topLeftCornerPos.y s.rect.h) (_ : SumExact t.topLeftCornerPos.x s.rect.w) :
    ∃ flags, CollisionHelpers.detectOutOfBounds entity window_size = .ok flags ∧
      (flags.get .TOP = true ↔ t.topLeftCornerPos.y ≤ 0) ∧
      (flags.get .BOTTOM = true ↔ t.topLeftCornerPos.y + s.rect.h ≥ window_size.y) ∧
      (flags.get .LEFT = true ↔ t.topLeftCornerPos.x ≤ 0) ∧
      (flags.get .RIGHT = true ↔ t.topLeftCornerPos.x + s.rect.w ≥ window_size.x) := by
  simp [CollisionHelpers.detectOutOfBounds, hasNullComponentPointers, derefTransform, derefRect,
    ht, hs, Bitset4.get, Bitset4.set, bind, Except.bind, pure, Except.pure]

/-- A hazard at `(0, 728)` with extent 40 by 40 in a 1366 by 768 window: the sums are exact,
and the four flags follow the four inequalities (here LEFT and BOTTOM hold). -/
theorem detectOutOfBounds_flags_witness :
    SumExact 728 40 ∧ SumExact 0 40 ∧
    ∃ flags, CollisionHelpers.detectOutOfBounds (Examples.hazardAt 1 0 728 0 0) ⟨1366, 768⟩
        = .ok flags ∧
      (flags.get .TOP = true ↔ (728 : Int) ≤ 0) ∧
      (flags.get .BOTTOM = true ↔ (728 : Int) + 40 ≥ 768) ∧
      (flags.get .LEFT = true ↔ (0 : Int) ≤ 0) ∧
      (flags.get .RIGHT = true ↔ (0 : Int) + 40 ≥ 1366) :=
  ⟨by decide, by decide,
    detectOutOfBounds_flags (Examples.hazardAt 1 0 728 0 0) (CTransform.new ⟨0, 728⟩ ⟨0, 0⟩ 0)
      (CShape.new ⟨40, 40, ⟨255, 0, 0, 255⟩⟩) ⟨1366, 768⟩ rfl rfl (by decide) (by decide)⟩

/-- The overlap test on two entities that have a transform and a shape, in closed form. -/
theorem calculateCollision_eq (entityA entityB : Entity) (tA tB : CTransform) (sA sB : CShape)
    (hA : entityA.cTransform = some tA) (hsA : entityA.cShape = some sA)
    (hB : entityB.cTransform = some tB) (hsB : entityB.cShape = some sB) :
    CollisionHelpers.calculateCollisionBetweenEntities entityA entityB =
      .ok (decide (tA.topLeftCornerPos.x + sA.rect.w ≥ tB.topLeftCornerPos.x) &&
        decide (tA.topLeftCornerPos.x ≤ tB.topLeftCornerPos.x + sB.rect.w) &&
        decide (tA.topLeftCornerPos.y + sA.rect.h ≥ tB.topLeftCornerPos.y) &&
        decide (tA.topLeftCornerPos.y ≤ tB.topLeftCornerPos.y + sB.rect.h)) := by
  simp [CollisionHelpers.calculateCollisionBetweenEntities, hasNullComponentPointers,
    derefTransform, derefRect, hA, hsA, hB, hsB, bind, Except.bind, pure, Except.pure]

/-- C5. For entities A and B that both have a transform and a shape and whose sums
`A.x + A.w`, `A.y + A.h`, `B.x + B.w` and `B.y + B.h` are exact in `float` (`SumExact`:
operands and sum are integers of magnitude at most `2^24`), the overlap test returns true iff
`A.x + A.w >= B.x`, `A.x <= B.x + B.w`, `A.y + A.h >= B.y` and `A.y <= B.y + B.h`; so
rectangles that only touch (`A.x + A.w = B.x`, the other three inequalities holding) are
reported as overlapping. -/
theorem calculateCollision_iff (entityA entityB : Entity) (tA tB : CTransform) (sA sB : CShape)
    (hA : entityA.cTransform = some tA) (hsA : entityA.cShape = some sA)
    (hB : entityB.cTransform = some tB) (hsB : entityB.cShape = some sB)
    (_ : SumExact tA.topLeftCornerPos.x sA.rect.w) (_ : SumExact tA.topLeftCornerPos.y sA.rect.h)
    (_ : SumExact tB.topLeftCornerPos.x sB.rect.w)
    (_ : SumExact tB.topLeftCornerPos.y sB.rect.h) :
    ∃ b, CollisionHelpers.calculateCollisionBetweenEntities entityA entityB = .ok b ∧
      (b = true ↔
        tA.topLeftCornerPos.x + sA.rect.w ≥ tB.topLeftCornerPos.x ∧
        tA.topLeftCornerPos.x ≤ tB.topLeftCornerPos.x + sB.rect.w ∧
        tA.topLeftCornerPos.y + sA.rect.h ≥ tB.topLeftCornerPos.y ∧
        tA.topLeftCornerPos.y ≤ tB.topLeftCornerPos.y + sB.rect.h) ∧
      (tA.topLeftCornerPos.x + sA.rect.w = tB.topLeftCornerPos.x →
        tA.topLeftCornerPos.x ≤ tB.topLeftCornerPos.x + sB.rect.w →
        tA.topLeftCornerPos.y + sA.rect.h ≥ tB.topLeftCornerPos.y →
        tA.topLeftCornerPos.y ≤ tB.topLeftCornerPos.y + sB.rect.h → b = true) := by
  refine ⟨_, calculateCollision_eq entityA entityB tA tB sA sB hA hsA hB hsB, ?_, ?_⟩
  · simp [and_assoc]
  · intro h1 h2 h3 h4
    simp only [Bool.and_eq_true, decide_eq_true_eq]
    exact ⟨⟨⟨h1.ge, h2⟩, h3⟩, h4⟩

/-- Two 40 by 40 hazards at `(0, 0)` and `(40, 40)` touch at one corner only; the sums are
exact, and the test reports an overlap. -/
theorem calculateCollision_iff_witness :
    SumExact 0 40 ∧ SumExact 40 40 ∧
    ∃ b, CollisionHelpers.calculateCollisionBetweenEntities
        (Examples.hazardAt 1 0 0 0 0) (Examples.hazardAt 2 40 40 0 0) = .ok b ∧
      (b = true ↔ (0 : Int) + 40 ≥ 40 ∧ (0 : Int) ≤ 40 + 40 ∧ (0 : Int) + 40 ≥ 40 ∧
        (0 : Int) ≤ 40 + 40) ∧
      ((0 : Int) + 40 = 40 → (0 : Int) ≤ 40 + 40 → (0 : Int) + 40 ≥ 40 → (0 : Int) ≤ 40 + 40 →
        b = true) :=
  ⟨by decide, by decide,
    calculateCollision_iff (Examples.hazardAt 1 0 0 0 0) (Examples.hazardAt 2 40 40 0 0)
      (CTransform.new ⟨0, 0⟩ ⟨0, 0⟩ 0) (CTransform.new ⟨40, 40⟩ ⟨0, 0⟩ 0)
      (CShape.new ⟨40, 40, ⟨255, 0, 0, 255⟩⟩) (CShape.new ⟨40, 40, ⟨255, 0, 0, 255⟩⟩)
      rfl rfl rfl rfl (by decide) (by decide) (by decide) (by decide)⟩

/-- C6. Overlap symmetry: for entities A and B that both have a transform and a shape,
`overlaps(A, B) = overlaps(B, A)`. -/
theorem calculateCollision_symm (entityA entityB : Entity) (tA tB : CTransform)
    (sA sB : CShape)
    (hA : entityA.cTransform = some tA) (hsA : entityA.cShape = some sA)
    (hB : entityB.cTransform = some tB) (hsB : entityB.cShape = some sB) :
    CollisionHelpers.calculateCollisionBetweenEntities entityA entityB =
      CollisionHelpers.calculateCollisionBetweenEntities entityB entityA := by
  rw [calculateCollision_eq entityA entityB tA tB sA sB hA hsA hB hsB,
    calculateCollision_eq entityB entityA tB tA sB sA hB hsB hA hsA]
  congr 1
  rw [Bool.eq_iff_iff]
  simp only [Bool.and_eq_true, decide_eq_true_eq, ge_iff_le]
  constructor <;> (rintro ⟨⟨⟨h1, h2⟩, h3⟩, h4⟩; exact ⟨⟨⟨h2, h1⟩, h4⟩, h3⟩)

/-- A player at `(100, 100)` and a hazard at `(110, 110)`: the test gives the same answer in
both orders. -/
theorem calculateCollision_symm_witness :
    CollisionHelpers.calculateCollisionBetweenEntities
        (Examples.playerAt 100 100 {}) (Examples.hazardAt 1 110 110 0 0) =
      CollisionHelpers.calculateCollisionBetweenEntities
        (Examples.hazardAt 1 110 110 0 0) (Examples.playerAt 100 100 {}) :=
  calculateCollision_symm (Examples.playerAt 100 100 {}) (Examples.hazardAt 1 110 110 0 0)
    (CTransform.new ⟨100, 100⟩ ⟨0, 0⟩ 0) (CTransform.new ⟨110, 110⟩ ⟨0, 0⟩ 0)
    (CShape.new ⟨40, 40, ⟨0, 255, 0, 255⟩⟩) (CShape.new ⟨40, 40, ⟨255, 0, 0, 255⟩⟩)
    rfl rfl rfl rfl

/-- C9. Reflection: for a non-player entity with a transform, `enforceNonPlayerBounds` with
a flag set in which exactly LEFT is set returns normally and leaves the entity with velocity
`(-vx, vy)`, `position.x = 0` and `position.y` unchanged; nothing else of the entity
changes. -/
theorem enforceNonPlayerBounds_left (entity : Entity) (t : CTransform) (window_size : Vec2)
    (ht : entity.cTransform = some t) (htag : entity.tag ≠ EntityTags.Player) :
    CollisionHelpers.enforceNonPlayerBounds entity (({} : Bitset4).set .LEFT true) window_size =
      .ok { entity with
        cTransform := some { t with
          topLeftCornerPos := ⟨0, t.topLeftCornerPos.y⟩
          velocity := ⟨-t.velocity.x, t.velocity.y⟩ } } := by
  simp [CollisionHelpers.enforceNonPlayerBounds, hasNullComponentPointers, derefTransform,
    ht, htag, Bitset4.get, Bitset4.set, bind, Except.bind, pure, Except.pure]

/-- A hazard at `(-3, 200)` moving with velocity `(-5, 7)` is put at `(0, 200)` with velocity
`(5, 7)`. -/
theorem enforceNonPlayerBounds_left_witness :
    CollisionHelpers.enforceNonPlayerBounds (Examples.hazardAt 1 (-3) 200 (-5) 7)
        (({} : Bitset4).set .LEFT true) ⟨1366, 768⟩ =
      .ok (Examples.hazardAt 1 0 200 5 7) :=
  enforceNonPlayerBounds_left (Examples.hazardAt 1 (-3) 200 (-5) 7)
    (CTransform.new ⟨-3, 200⟩ ⟨-5, 7⟩ 0) ⟨1366, 768⟩ rfl (by decide)

/-- C10. Clamp idempotence: for an entity with a transform and a shape, any flag set and any
window size, `enforcePlayerBounds` returns an entity on which a second call with the same
flags and window size changes nothing. -/
theorem enforcePlayerBounds_idem (entity : Entity) (t : CTransform) (s : CShape)
    (collides : Bitset4) (window_size : Vec2)
    (ht : entity.cTransform = some t) (hs : entity.cShape = some s) :
    ∃ once, CollisionHelpers.enforcePlayerBounds entity collides window_size = .ok once ∧
      CollisionHelpers.enforcePlayerBounds once collides window_size = .ok once := by
  obtain ⟨b0, b1, b2, b3⟩ := collides
  cases b0 <;> cases b1 <;> cases b2 <;> cases b3 <;>
    simp [CollisionHelpers.enforcePlayerBounds, hasNullComponentPointers, derefTransform,
      derefRect, ht, hs, Bitset4.get, bind, Except.bind, pure, Except.pure]

/-- A player at `(-2, 800)` with all four flags set: one call and two calls both give
`(1326, 728)`. -/
theorem enforcePlayerBounds_idem_witness :
    ∃ once, CollisionHelpers.enforcePlayerBounds (Examples.playerAt (-2) 800 {})
        ⟨true, true, true, true⟩ ⟨1366, 768⟩ = .ok once ∧
      CollisionHelpers.enforcePlayerBounds once ⟨true, true, true, true⟩ ⟨1366, 768⟩ = .ok once :=
  enforcePlayerBounds_idem (Examples.playerAt (-2) 800 {}) (CTransform.new ⟨-2, 800⟩ ⟨0, 0⟩ 0)
    (CShape.new ⟨40, 40, ⟨0, 255, 0, 255⟩⟩) ⟨true, true, true, true⟩ ⟨1366, 768⟩ rfl rfl

/-! ## The invariant of the entity manager -/

theorem bucket_pushBack (entityMap : EntityMap) (tag : String) (e : EntityPtr) (t : String) :
    (entityMap.pushBack tag e).bucket t =
      if tag = t then entityMap.bucket t ++ [e] else entityMap.bucket t := by
  induction entityMap with
  | nil =>
    by_cases h : tag = t <;> simp [EntityMap.pushBack, EntityMap.bucket, h]
  | cons hd rest ih =>
    obtain ⟨k, v⟩ := hd
    by_cases hk : k = tag
    · subst hk
      by_cases h : k = t <;> simp [EntityMap.pushBack, EntityMap.bucket, h]
    · by_cases h : k = t
      · subst h
        have h2 : ¬ tag = k := fun h3 => hk h3.symm
        simp [EntityMap.pushBack, EntityMap.bucket, hk, h2]
      · simp only [EntityMap.pushBack, hk, if_false, EntityMap.bucket, h, ih]

theorem keys_pushBack (entityMap : EntityMap) (tag : String) (e : EntityPtr) :
    (entityMap.pushBack tag e).map Prod.fst =
      if tag ∈ entityMap.map Prod.fst then entityMap.map Prod.fst
      else entityMap.map Prod.fst ++ [tag] := by
  induction entityMap with
  | nil => simp [EntityMap.pushBack]
  | cons hd rest ih =>
    obtain ⟨k, v⟩ := hd
    by_cases hk : k = tag
    · subst hk
      simp [EntityMap.pushBack]
    · have h2 : ¬ tag = k := fun h3 => hk h3.symm
      simp only [EntityMap.pushBack, hk, if_false, List.map_cons, ih, List.mem_cons, h2,
        false_or]
      by_cases h3 : tag ∈ rest.map Prod.fst <;> simp [h3]

theorem keys_nodup_pushBack (entityMap : EntityMap) (tag : String) (e : EntityPtr)
    (h : (entityMap.map Prod.fst).Nodup) : ((entityMap.pushBack tag e).map Prod.fst).Nodup := by
  rw [keys_pushBack]
  by_cases h3 : tag ∈ entityMap.map Prod.fst
  · simpa [h3] using h
  · simp only [h3, if_false]
    rw [List.nodup_append]
    refine ⟨h, List.nodup_singleton _, ?_⟩
    intro x hx hx2
    rw [List.mem_singleton] at hx2
    exact h3 (hx2 ▸ hx)

theorem bucket_pushAll (heap : List Entity) (toAdd : EntityVector) (entityMap : EntityMap)
    (t : String) :
    (pushAll heap entityMap toAdd).bucket t =
      entityMap.bucket t ++ toAdd.filter (fun p => decide (tagAt heap p = t)) := by
  induction toAdd generalizing entityMap with
  | nil => simp [pushAll]
  | cons q rest ih =>
    have h := ih (entityMap.pushBack (tagAt heap q) q)
    simp only [pushAll, List.foldl_cons] at h ⊢
    rw [h, bucket_pushBack]
    by_cases hq : tagAt heap q = t <;> simp [hq, List.filter_cons]

theorem keys_nodup_pushAll (heap : List Entity) (toAdd : EntityVector) (entityMap : EntityMap)
    (h : (entityMap.map Prod.fst).Nodup) :
    ((pushAll heap entityMap toAdd).map Prod.fst).Nodup := by
  induction toAdd generalizing entityMap with
  | nil => simpa [pushAll] using h
  | cons q rest ih =>
    simp only [pushAll, List.foldl_cons]
    exact ih _ (keys_nodup_pushBack _ _ _ h)

theorem bucket_pruneAll (heap : List Entity) (entityMap : EntityMap) (t : String) :
    (pruneAll heap entityMap).bucket t = (entityMap.bucket t).filter (activeAt heap) := by
  induction entityMap with
  | nil => simp [pruneAll, EntityMap.bucket]
  | cons hd rest ih =>
    obtain ⟨k, v⟩ := hd
    simp only [pruneAll, List.map_cons, EntityMap.bucket] at ih ⊢
    by_cases h : k = t <;> simp [h, ih]

theorem keys_pruneAll (heap : List Entity) (entityMap : EntityMap) :
    (pruneAll heap entityMap).map Prod.fst = entityMap.map Prod.fst := by
  simp [pruneAll, Function.comp_def]

theorem bucket_of_mem (entityMap : EntityMap) (h : (entityMap.map Prod.fst).Nodup)
    (kv : String × EntityVector) (hkv : kv ∈ entityMap) : entityMap.bucket kv.1 = kv.2 := by
  induction entityMap with
  | nil => simp at hkv
  | cons hd rest ih =>
    obtain ⟨k, v⟩ := hd
    simp only [List.map_cons, List.nodup_cons] at h
    rcases List.mem_cons.1 hkv with h1 | h1
    · subst h1
      simp [EntityMap.bucket]
    · have hne : ¬ k = kv.1 := by
        intro h2
        exact h.1 (h2 ▸ List.mem_map_of_mem Prod.fst h1)
      simp only [EntityMap.bucket, hne, if_false]
      exact ih h.2 h1

theorem updated_valid (m : EntityManager) (hv : m.Valid) : m.updated.Valid := by
  refine ⟨?_, ?_, ?_⟩
  · intro p hp
    simp only [EntityManager.updated, List.mem_filter, List.mem_append] at hp
    rcases hp.1 with h | h
    · exact hv.entities p h
    · exact hv.toAdd p h
  · intro p hp
    simp [EntityManager.updated] at hp
  · intro kv hkv p hp
    simp only [EntityManager.updated, pruneAll, List.mem_map] at hkv
    obtain ⟨kv0, h0, rfl⟩ := hkv
    have hp2 : p ∈ kv0.2 := (List.mem_filter.1 hp).1
    rcases mem_pushAll m.heap m.m_toAdd m.m_entityMap h0 p hp2 with h | ⟨kv2, h, h4⟩
    · exact hv.toAdd p h
    · exact hv.buckets kv2 h p h4

theorem inv_empty : EntityManager.Inv {} := by
  refine ⟨⟨?_, ?_, ?_⟩, ?_, ?_, ?_⟩ <;> simp [ValidVec, EntityMap.bucket]

theorem tagAt_append_of_lt (heap extra : List Entity) (p : EntityPtr) (h : p < heap.length) :
    tagAt (heap ++ extra) p = tagAt heap p := by
  simp [tagAt, List.getElem?_append_left h]

theorem inv_addEntity (m : EntityManager) (tag : String) (h : m.Inv) :
    (m.addEntity tag).2.Inv := by
  have hlen : ∀ p, p < m.heap.length → p < (m.heap ++ [Entity.new m.m_totalEntities tag]).length :=
    fun p hp => by simp; omega
  refine ⟨⟨?_, ?_, ?_⟩, ?_, h.keys, ?_⟩
  · intro p hp
    exact hlen p (h.valid.entities p hp)
  · intro p hp
    simp only [EntityManager.addEntity, List.mem_append, List.mem_singleton] at hp
    rcases hp with hp | hp
    · exact hlen p (h.valid.toAdd p hp)
    · simp [EntityManager.addEntity, hp]
  · intro kv hkv p hp
    exact hlen p (h.valid.buckets kv hkv p hp)
  · have h1 := h.nodup
    simp only [EntityManager.addEntity, ← List.append_assoc]
    rw [List.nodup_append]
    refine ⟨h1, List.nodup_singleton _, ?_⟩
    intro x hx hx2
    rw [List.mem_singleton] at hx2
    subst hx2
    rcases List.mem_append.1 hx with h2 | h2
    · exact Nat.lt_irrefl _ (h.valid.entities _ h2)
    · exact Nat.lt_irrefl _ (h.valid.toAdd _ h2)
  · intro t
    simp only [EntityManager.addEntity]
    rw [h.buckets t]
    apply List.filter_congr
    intro p hp
    simp only [tagAt_append_of_lt _ _ _ (h.valid.entities p hp)]

theorem destroy_heap (m m2 : EntityManager) (p : EntityPtr) (h : m.destroy p = .ok m2) :
    ∃ e, m.heap[p]? = some e ∧ m2 = { m with heap := m.heap.set p e.destroy } := by
  unfold EntityManager.destroy at h
  split at h
  · cases h
  · rename_i e he
    refine ⟨e, he, ?_⟩
    injection h with h
    exact h.symm

theorem tagAt_set_destroy (heap : List Entity) (p : EntityPtr) (e : Entity)
    (he : heap[p]? = some e) (q : EntityPtr) :
    tagAt (heap.set p e.destroy) q = tagAt heap q := by
  have hp : p < heap.length := by
    rcases List.getElem?_eq_some.1 he with ⟨h, _⟩
    exact h
  by_cases hq : p = q
  · subst hq
    simp [tagAt, List.getElem?_set, hp, he, Entity.destroy, Entity.tag]
  · simp [tagAt, List.getElem?_set, hq]

theorem inv_destroy (m m2 : EntityManager) (p : EntityPtr) (h : m.Inv)
    (hd : m.destroy p = .ok m2) : m2.Inv := by
  obtain ⟨e, he, rfl⟩ := destroy_heap m m2 p hd
  refine ⟨⟨?_, ?_, ?_⟩, h.nodup, h.keys, ?_⟩
  · intro q hq
    simpa using h.valid.entities q hq
  · intro q hq
    simpa using h.valid.toAdd q hq
  · intro kv hkv q hq
    simpa using h.valid.buckets kv hkv q hq
  · intro t
    simp only [tagAt_set_destroy m.heap p e he]
    exact h.buckets t

theorem inv_updated (m : EntityManager) (h : m.Inv) : m.updated.Inv := by
  refine ⟨updated_valid m h.valid, ?_, ?_, ?_⟩
  · simpa [EntityManager.updated] using h.nodup.filter _
  · simp only [EntityManager.updated, keys_pruneAll]
    exact keys_nodup_pushAll _ _ _ h.keys
  · intro t
    simp only [EntityManager.updated, bucket_pruneAll, bucket_pushAll, h.buckets t,
      List.filter_append, List.filter_filter]
    congr 1 <;> (apply List.filter_congr; intro x _; exact Bool.and_comm _ _)

theorem bucket_touch (entityMap : EntityMap) (tag t : String) :
    (entityMap.touch tag).bucket t = entityMap.bucket t := by
  induction entityMap with
  | nil =>
    by_cases h : tag = t <;> simp [EntityMap.touch, EntityMap.bucket, h]
  | cons hd rest ih =>
    obtain ⟨k, v⟩ := hd
    by_cases hk : k = tag
    · simp [EntityMap.touch, hk]
    · by_cases h : k = t
      · subst h
        simp only [EntityMap.touch, hk, if_false, EntityMap.bucket, if_true]
      · simp only [EntityMap.touch, hk, if_false, EntityMap.bucket, h, ih]

theorem keys_touch (entityMap : EntityMap) (tag : String) :
    (entityMap.touch tag).map Prod.fst =
      if tag ∈ entityMap.map Prod.fst then entityMap.map Prod.fst
      else entityMap.map Prod.fst ++ [tag] := by
  induction entityMap with
  | nil => simp [EntityMap.touch]
  | cons hd rest ih =>
    obtain ⟨k, v⟩ := hd
    by_cases hk : k = tag
    · subst hk
      simp [EntityMap.touch]
    · have h2 : ¬ tag = k := fun h3 => hk h3.symm
      simp only [EntityMap.touch, hk, if_false, List.map_cons, ih, List.mem_cons, h2,
        false_or]
      by_cases h3 : tag ∈ rest.map Prod.fst <;> simp [h3]

theorem mem_touch {entityMap : EntityMap} {tag : String} {kv : String × EntityVector}
    (h : kv ∈ entityMap.touch tag) : kv ∈ entityMap ∨ kv = (tag, []) := by
  induction entityMap with
  | nil =>
    right
    simpa [EntityMap.touch] using h
  | cons hd rest ih =>
    obtain ⟨k, v⟩ := hd
    by_cases hk : k = tag
    · left
      simpa [EntityMap.touch, hk] using h
    · simp only [EntityMap.touch, hk, if_false, List.mem_cons] at h
      rcases h with h | h
      · left; rw [h]; exact List.mem_cons_self _ _
      · rcases ih h with h2 | h2
        · left; exact List.mem_cons_of_mem _ h2
        · right; exact h2

theorem inv_getEntities (m : EntityManager) (tag : String) (h : m.Inv) :
    (m.getEntitiesByTag tag).2.Inv := by
  refine ⟨⟨h.valid.entities, h.valid.toAdd, ?_⟩, h.nodup, ?_, ?_⟩
  · intro kv hkv p hp
    rcases mem_touch hkv with h1 | h1
    · exact h.valid.buckets kv h1 p hp
    · rw [h1] at hp
      simp at hp
  · show ((m.m_entityMap.touch tag).map Prod.fst).Nodup
    rw [keys_touch]
    by_cases h3 : tag ∈ m.m_entityMap.map Prod.fst
    · simpa [h3] using h.keys
    · simp only [h3, if_false]
      rw [List.nodup_append]
      refine ⟨h.keys, List.nodup_singleton _, ?_⟩
      intro x hx hx2
      rw [List.mem_singleton] at hx2
      exact h3 (hx2 ▸ hx)
  · intro t
    show (m.m_entityMap.touch tag).bucket t = _
    rw [bucket_touch]
    exact h.buckets t

theorem tagAt_set_same_tag (heap : List Entity) (p : EntityPtr) (e e2 : Entity)
    (he : heap[p]? = some e) (htag : e2.m_tag = e.m_tag) (q : EntityPtr) :
    tagAt (heap.set p e2) q = tagAt heap q := by
  have hp : p < heap.length := (List.getElem?_eq_some.1 he).1
  by_cases hq : p = q
  · subst hq
    simp [tagAt, List.getElem?_set, hp, he, Entity.tag, htag]
  · simp [tagAt, List.getElem?_set, hq]

theorem inv_setComponents (m : EntityManager) (p : EntityPtr) (e e2 : Entity) (h : m.Inv)
    (he : m.heap[p]? = some e) (htag : e2.m_tag = e.m_tag) :
    ({ m with heap := m.heap.set p e2 } : EntityManager).Inv := by
  refine ⟨⟨?_, ?_, ?_⟩, h.nodup, h.keys, ?_⟩
  · intro q hq
    simpa using h.valid.entities q hq
  · intro q hq
    simpa using h.valid.toAdd q hq
  · intro kv hkv q hq
    simpa using h.valid.buckets kv hkv q hq
  · intro t
    simp only [tagAt_set_same_tag m.heap p e e2 he htag]
    exact h.buckets t

theorem inv_of_reachable (m : EntityManager) (h : m.Reachable) : m.Inv := by
  induction h with
  | empty => exact inv_empty
  | addEntity m tag _ ih => exact inv_addEntity m tag ih
  | destroy m m2 p _ hd ih => exact inv_destroy m m2 p ih hd
  | update m m2 _ hu ih =>
    rw [update_eq_updated m ih.valid] at hu
    injection hu with hu
    rw [← hu]
    exact inv_updated m ih
  | getEntities m tag _ ih => exact inv_getEntities m tag ih
  | setComponents m p e e2 _ he _ htag _ ih => exact inv_setComponents m p e e2 ih he htag

/-- C2. For a manager state reached from the empty manager by `addEntity`, `destroy` and
`update`, a call of `update` returns a state in which every entity of the canonical list is
active, is exactly once in the bucket of its own tag and in no bucket of another tag; every
entity of a bucket is in the canonical list and active; and the map has one bucket per
tag. -/
theorem update_invariant (m : EntityManager) (h : m.Reachable) :
    ∃ m2, m.update = .ok m2 ∧
      (∀ p ∈ m2.m_entities, ∃ e, m2.heap[p]? = some e ∧ e.isActive = true ∧
        (m2.m_entityMap.bucket e.tag).count p = 1 ∧
        ∀ kv ∈ m2.m_entityMap, kv.1 ≠ e.tag → p ∉ kv.2) ∧
      (∀ kv ∈ m2.m_entityMap, ∀ p ∈ kv.2,
        p ∈ m2.m_entities ∧ ∃ e, m2.heap[p]? = some e ∧ e.isActive = true) ∧
      (m2.m_entityMap.map Prod.fst).Nodup := by
  have hinv := inv_of_reachable m h
  have hu := inv_updated m hinv
  have hact : ∀ p ∈ m.updated.m_entities,
      ∃ e, m.updated.heap[p]? = some e ∧ e.isActive = true ∧ tagAt m.updated.heap p = e.tag := by
    intro p hp
    have hp2 : activeAt m.heap p = true := by
      simp only [EntityManager.updated, List.mem_filter] at hp
      exact hp.2
    have hlt : p < m.heap.length := hu.valid.entities p hp
    refine ⟨m.heap.get ⟨p, hlt⟩, ?_, ?_, ?_⟩
    · simp [EntityManager.updated, List.getElem?_eq_getElem hlt]
    · rw [← activeAt_of_lt hlt]; exact hp2
    · exact tagAt_of_lt hlt
  have hnd : m.updated.m_entities.Nodup := (List.nodup_append.1 hu.nodup).1
  refine ⟨m.updated, update_eq_updated m hinv.valid, ?_, ?_, hu.keys⟩
  · intro p hp
    obtain ⟨e, he, hact2, htag⟩ := hact p hp
    refine ⟨e, he, hact2, ?_, ?_⟩
    · rw [hu.buckets e.tag]
      apply List.count_eq_one_of_mem (hnd.filter _)
      rw [List.mem_filter]
      exact ⟨hp, by simp [htag]⟩
    · intro kv hkv hne hmem
      rw [← bucket_of_mem _ hu.keys kv hkv, hu.buckets kv.1, List.mem_filter] at hmem
      have h2 := hmem.2
      simp only [decide_eq_true_eq] at h2
      exact hne (h2 ▸ htag)
  · intro kv hkv p hp
    rw [← bucket_of_mem _ hu.keys kv hkv, hu.buckets kv.1, List.mem_filter] at hp
    obtain ⟨e, he, hact2, _⟩ := hact p hp.1
    exact ⟨hp.1, e, he, hact2⟩

/-- C2 at a concrete state: after `addEntity(Player)`, `addEntity(Enemy)` and the destruction
of the enemy while it is still pending, `update` returns a state that satisfies the
invariant. -/
theorem update_invariant_witness :
    ∃ m2, Examples.pendingDestroyed.update = .ok m2 ∧
      (∀ p ∈ m2.m_entities, ∃ e, m2.heap[p]? = some e ∧ e.isActive = true ∧
        (m2.m_entityMap.bucket e.tag).count p = 1 ∧
        ∀ kv ∈ m2.m_entityMap, kv.1 ≠ e.tag → p ∉ kv.2) ∧
      (∀ kv ∈ m2.m_entityMap, ∀ p ∈ kv.2,
        p ∈ m2.m_entities ∧ ∃ e, m2.heap[p]? = some e ∧ e.isActive = true) ∧
      (m2.m_entityMap.map Prod.fst).Nodup :=
  update_invariant Examples.pendingDestroyed
    (EntityManager.Reachable.destroy Examples.twoPending Examples.pendingDestroyed 1
      (EntityManager.Reachable.addEntity _ EntityTags.Enemy
        (EntityManager.Reachable.addEntity _ EntityTags.Player EntityManager.Reachable.empty))
      (by decide))

/-! ## The collision phase -/

theorem getElem?_map_destroy {heap G : List Entity} (hG : heap.map Entity.destroy = G)
    {p : EntityPtr} {e : Entity} (he : G[p]? = some e) :
    ∃ e0, heap[p]? = some e0 ∧ e0.destroy = e := by
  rw [← hG, List.getElem?_map] at he
  cases h : heap[p]? with
  | none => simp [h] at he
  | some e0 => exact ⟨e0, rfl, by simpa [h] using he⟩

theorem map_destroy_set {heap : List Entity} {p : EntityPtr} {e0 : Entity}
    (he : heap[p]? = some e0) :
    (heap.set p e0.destroy).map Entity.destroy = heap.map Entity.destroy := by
  apply List.ext_getElem?
  intro q
  simp only [List.getElem?_map, List.getElem?_set]
  by_cases hq : p = q
  · subst hq
    have hp : p < heap.length := (List.getElem?_eq_some.1 he).1
    simp [hp, he, Entity.destroy]
  · simp [hq]

theorem activeAt_set_destroy {heap : List Entity} {p : EntityPtr} {e0 : Entity}
    (he : heap[p]? = some e0) (q : EntityPtr) :
    activeAt (heap.set p e0.destroy) q = (activeAt heap q && !decide (q = p)) := by
  have hp : p < heap.length := (List.getElem?_eq_some.1 he).1
  by_cases hq : p = q
  · subst hq
    simp [activeAt, List.getElem?_set, hp, Entity.destroy, Entity.isActive]
  · have hq2 : ¬ q = p := fun h => hq h.symm
    simp [activeAt, List.getElem?_set, hq, hq2]

theorem calculateCollision_destroy (a b : Entity) :
    CollisionHelpers.calculateCollisionBetweenEntities a.destroy b.destroy =
      CollisionHelpers.calculateCollisionBetweenEntities a b := rfl

theorem calculateCollision_rectsOverlap (a b : Entity) (ha : a.HasBody) (hb : b.HasBody) :
    CollisionHelpers.calculateCollisionBetweenEntities a b = .ok (rectsOverlap a b) := by
  obtain ⟨⟨tA, hA⟩, sA, hsA⟩ := ha
  obtain ⟨⟨tB, hB⟩, sB, hsB⟩ := hb
  rw [calculateCollision_eq a b tA tB sA sB hA hsA hB hsB]
  simp [rectsOverlap, hA, hsA, hB, hsB]

theorem collisionLoop_spec (player : EntityPtr) (G : List Entity) (pl : Entity)
    (hplG : G[player]? = some pl) (hplB : pl.HasBody)
    (l : EntityVector)
    (hl : ∀ p ∈ l, ∃ e, G[p]? = some e ∧ (e.tag ≠ EntityTags.Player → e.HasBody))
    (heap : List Entity) (score : Int) (hG : heap.map Entity.destroy = G) :
    ∃ heap2, Game.collisionLoop player (heap, score) l =
        .ok (heap2, score + ((l.filter (hitsPlayer G player)).length : Int)) ∧
      heap2.map Entity.destroy = G ∧
      ∀ q, activeAt heap2 q = (activeAt heap q && !(decide (q ∈ l) && hitsPlayer G player q)) := by
  induction l generalizing heap score with
  | nil => exact ⟨heap, by simp [Game.collisionLoop], hG, by simp⟩
  | cons p rest ih =>
    have hrest : ∀ p ∈ rest, ∃ e, G[p]? = some e ∧ (e.tag ≠ EntityTags.Player → e.HasBody) :=
      fun q hq => hl q (List.mem_cons_of_mem _ hq)
    obtain ⟨e, heG, hbody⟩ := hl p (List.mem_cons_self _ _)
    obtain ⟨e0, he0, hde⟩ := getElem?_map_destroy hG heG
    obtain ⟨pl0, hpl0, hdpl⟩ := getElem?_map_destroy hG hplG
    have htag : e0.tag = e.tag := by rw [← hde]; rfl
    by_cases hP : e0.tag = EntityTags.Player
    · have hhit : hitsPlayer G player p = false := by
        simp [hitsPlayer, hplG, heG, ← htag, hP]
      obtain ⟨heap2, h1, h2, h3⟩ := ih hrest heap score hG
      refine ⟨heap2, ?_, h2, ?_⟩
      · simp only [Game.collisionLoop, deref, he0, hP, if_true, bind, Except.bind, h1,
          List.filter_cons, hhit]
        simp
      · intro q
        rw [h3 q]
        by_cases hq : q = p
        · subst hq; simp [hhit]
        · simp [hq]
    · have hbody2 : e.HasBody := hbody (htag ▸ hP)
      have hcalc : CollisionHelpers.calculateCollisionBetweenEntities pl0 e0 =
          .ok (rectsOverlap pl e) := by
        rw [← calculateCollision_destroy, hdpl, hde]
        exact calculateCollision_rectsOverlap pl e hplB hbody2
      have hhit : hitsPlayer G player p = rectsOverlap pl e := by
        have : ¬ e.tag = EntityTags.Player := htag ▸ hP
        simp [hitsPlayer, hplG, heG, this]
      cases hov : rectsOverlap pl e with
      | false =>
        rw [hov] at hcalc hhit
        obtain ⟨heap2, h1, h2, h3⟩ := ih hrest heap score hG
        refine ⟨heap2, ?_, h2, ?_⟩
        · simp only [Game.collisionLoop, deref, he0, hpl0, hP, if_false, bind, Except.bind,
            hcalc, h1, List.filter_cons, hhit]
          simp
        · intro q
          rw [h3 q]
          by_cases hq : q = p
          · subst hq; simp [hhit]
          · simp [hq]
      | true =>
        rw [hov] at hcalc hhit
        have hG2 : (heap.set p e0.destroy).map Entity.destroy = G := by
          rw [map_destroy_set he0, hG]
        obtain ⟨heap2, h1, h2, h3⟩ := ih hrest (heap.set p e0.destroy) (score + 1) hG2
        refine ⟨heap2, ?_, h2, ?_⟩
        · simp only [Game.collisionLoop, deref, he0, hpl0, hP, if_false, bind, Except.bind,
            hcalc, if_true, h1, List.filter_cons, hhit, List.length_cons]
          push_cast
          simp [add_assoc, add_comm]
        · intro q
          rw [h3 q, activeAt_set_destroy he0]
          by_cases hq : q = p
          · subst hq; simp [hhit]
          · simp [hq]

theorem clamp_spec (pl : Entity) (t : CTransform) (s : CShape) (ws : Vec2)
    (ht : pl.cTransform = some t) (hs : pl.cShape = some s) :
    ∃ flags, CollisionHelpers.detectOutOfBounds pl ws = .ok flags ∧
      CollisionHelpers.enforcePlayerBounds pl flags ws =
        .ok { pl with cTransform := some { t with
          topLeftCornerPos := clampedPos t.topLeftCornerPos s.rect.w s.rect.h ws } } := by
  refine ⟨⟨decide (t.topLeftCornerPos.y ≤ 0), decide (t.topLeftCornerPos.y + s.rect.h ≥ ws.y),
    decide (t.topLeftCornerPos.x ≤ 0), decide (t.topLeftCornerPos.x + s.rect.w ≥ ws.x)⟩, ?_, ?_⟩
  · simp [CollisionHelpers.detectOutOfBounds, hasNullComponentPointers, derefTransform,
      derefRect, ht, hs, Bitset4.set, bind, Except.bind, pure, Except.pure]
  · by_cases h1 : t.topLeftCornerPos.y ≤ 0 <;>
      by_cases h2 : t.topLeftCornerPos.y + s.rect.h ≥ ws.y <;>
      by_cases h3 : t.topLeftCornerPos.x ≤ 0 <;>
      by_cases h4 : t.topLeftCornerPos.x + s.rect.w ≥ ws.x <;>
      simp [CollisionHelpers.enforcePlayerBounds, hasNullComponentPointers, derefTransform,
        derefRect, ht, hs, Bitset4.get, bind, Except.bind, pure, Except.pure, clampedPos,
        h1, h2, h3, h4]

theorem clampedPos_bounds (pos : Vec2) (w h : Int) (ws : Vec2) (hw : w ≤ ws.x) (hh : h ≤ ws.y) :
    0 ≤ (clampedPos pos w h ws).x ∧ (clampedPos pos w h ws).x ≤ ws.x - w ∧
    0 ≤ (clampedPos pos w h ws).y ∧ (clampedPos pos w h ws).y ≤ ws.y - h := by
  simp only [clampedPos]
  refine ⟨?_, ?_, ?_, ?_⟩ <;> split_ifs <;> omega

theorem valid_of_length (m : EntityManager) (heap2 : List Entity) (hv : m.Valid)
    (hlen : heap2.length = m.heap.length) : ({ m with heap := heap2 } : EntityManager).Valid := by
  refine ⟨?_, ?_, ?_⟩
  · intro p hp
    show p < heap2.length
    rw [hlen]; exact hv.entities p hp
  · intro p hp
    show p < heap2.length
    rw [hlen]; exact hv.toAdd p hp
  · intro kv hkv p hp
    show p < heap2.length
    rw [hlen]; exact hv.buckets kv hkv p hp

theorem sCollision_spec (g : Game) (pl : Entity) (t : CTransform) (s : CShape)
    (hv : g.m_entities.Valid)
    (hpl : g.m_entities.heap[g.m_player]? = some pl)
    (ht : pl.cTransform = some t) (hs : pl.cShape = some s)
    (hc : ∀ p ∈ g.m_entities.m_entities, ∃ e, g.m_entities.heap[p]? = some e ∧
      (e.tag ≠ EntityTags.Player → e.HasBody))
    (clamped : Entity)
    (hcl : clamped = { pl with cTransform := some { t with
      topLeftCornerPos := clampedPos t.topLeftCornerPos s.rect.w s.rect.h ⟨1366, 768⟩ } })
    (heap1 : List Entity) (hh1 : heap1 = g.m_entities.heap.set g.m_player clamped) :
    ∃ heap2,
      g.sCollision = .ok { g with
        m_entities := ({ g.m_entities with heap := heap2 } : EntityManager).updated
        m_score := g.m_score + ((g.m_entities.m_entities.filter
          (hitsPlayer (heap1.map Entity.destroy) g.m_player)).length : Int) } ∧
      heap2.map Entity.destroy = heap1.map Entity.destroy ∧
      ∀ q, activeAt heap2 q = (activeAt heap1 q &&
        !(decide (q ∈ g.m_entities.m_entities) &&
          hitsPlayer (heap1.map Entity.destroy) g.m_player q)) := by
  obtain ⟨flags, hdet, henf⟩ := clamp_spec pl t s ⟨1366, 768⟩ ht hs
  rw [← hcl] at henf
  have hplt : g.m_player < g.m_entities.heap.length := (List.getElem?_eq_some.1 hpl).1
  have hclB : clamped.destroy.HasBody := by
    subst hcl
    exact ⟨⟨_, rfl⟩, s, hs⟩
  have h1p : heap1[g.m_player]? = some clamped := by
    rw [hh1]; exact List.getElem?_set_self hplt
  have hG1 : (heap1.map Entity.destroy)[g.m_player]? = some clamped.destroy := by
    rw [List.getElem?_map, h1p]; rfl
  have hl : ∀ p ∈ g.m_entities.m_entities, ∃ e, (heap1.map Entity.destroy)[p]? = some e ∧
      (e.tag ≠ EntityTags.Player → e.HasBody) := by
    intro p hp
    by_cases hpp : p = g.m_player
    · subst hpp
      exact ⟨clamped.destroy, hG1, fun _ => hclB⟩
    · obtain ⟨e, he, hb⟩ := hc p hp
      refine ⟨e.destroy, ?_, ?_⟩
      · rw [List.getElem?_map, hh1, List.getElem?_set_ne (fun h => hpp h.symm), he]; rfl
      · intro htag
        exact hb htag
  obtain ⟨heap2, hloop, hmap, hact⟩ := collisionLoop_spec g.m_player (heap1.map Entity.destroy)
    clamped.destroy hG1 hclB g.m_entities.m_entities hl heap1 g.m_score rfl
  have hlen : heap2.length = g.m_entities.heap.length := by
    have := congrArg List.length hmap
    simp only [List.length_map] at this
    rw [this, hh1, List.length_set]
  have hupd := update_eq_updated _ (valid_of_length g.m_entities heap2 hv hlen)
  refine ⟨heap2, ?_, hmap, hact⟩
  rw [hh1] at hloop
  simp only [Game.sCollision, deref, hpl, hdet, henf, bind, Except.bind, pure, Except.pure,
    EntityManager.getEntities, hloop, hupd, hh1]

theorem hitsPlayer_eq {G : List Entity} {player p : EntityPtr} {a e : Entity}
    (h1 : G[player]? = some a) (h2 : G[p]? = some e) :
    hitsPlayer G player p = (decide (e.tag ≠ EntityTags.Player) && rectsOverlap a e) := by
  simp only [hitsPlayer, h1, h2]

/-- C7. Collision phase. Let the player have a transform and a shape, let every non-player
entity of the canonical list have them too, and let `clamped` be the player after
`detectOutOfBounds` and `enforcePlayerBounds` on the 1366 by 768 window. Then `sCollision`
returns; the score has grown by the number of non-player entities of the canonical list whose
rectangle overlaps the clamped player; each of these is inactive afterwards, and every other
non-player entity of the list keeps its active flag. In the scenario (player at `(100, 100)`,
hazard at `(110, 110)`, both 40 by 40) the overlap test is true, the score goes from 0 to 1
and the hazard is inactive. -/
theorem sCollision_score (g : Game) (pl : Entity) (flags : Bitset4) (clamped : Entity)
    (hv : g.m_entities.Valid)
    (hpl : g.m_entities.heap[g.m_player]? = some pl)
    (hplB : pl.HasBody) (hplTag : pl.tag = EntityTags.Player)
    (hc : ∀ p ∈ g.m_entities.m_entities, ∃ e, g.m_entities.heap[p]? = some e ∧
      (e.tag ≠ EntityTags.Player → e.HasBody))
    (hdet : CollisionHelpers.detectOutOfBounds pl ⟨1366, 768⟩ = .ok flags)
    (henf : CollisionHelpers.enforcePlayerBounds pl flags ⟨1366, 768⟩ = .ok clamped) :
    (∃ g2, g.sCollision = .ok g2 ∧
      g2.m_score = g.m_score + ((g.m_entities.m_entities.filter
        (nonPlayerOverlap clamped g.m_entities.heap)).length : Int) ∧
      ∀ p ∈ g.m_entities.m_entities, ∀ e, g.m_entities.heap[p]? = some e →
        e.tag ≠ EntityTags.Player →
        ∃ e2, g2.m_entities.heap[p]? = some e2 ∧
          (rectsOverlap clamped e = true → e2.isActive = false) ∧
          (rectsOverlap clamped e = false → e2.isActive = e.isActive)) ∧
    CollisionHelpers.calculateCollisionBetweenEntities (Examples.playerAt 100 100 {})
        (Examples.hazardAt 1 110 110 0 0) = .ok true ∧
      Examples.collisionScenario.m_score = 0 ∧
      Examples.collisionScenario.sCollision.map (fun g2 => g2.m_score) = .ok 1 ∧
      Examples.collisionScenario.sCollision.map
        (fun g2 => g2.m_entities.heap[1]?.map Entity.isActive) = .ok (some false) := by
  refine ⟨?_, by decide, by decide, by decide, by decide⟩
  obtain ⟨⟨t, ht⟩, s, hs⟩ := hplB
  obtain ⟨flags2, hdet2, henf2⟩ := clamp_spec pl t s ⟨1366, 768⟩ ht hs
  rw [hdet] at hdet2
  injection hdet2 with hdet2
  subst hdet2
  rw [henf] at henf2
  injection henf2 with hcl
  obtain ⟨heap2, hres, hmap, hact⟩ := sCollision_spec g pl t s hv hpl ht hs hc clamped hcl _ rfl
  have hplt : g.m_player < g.m_entities.heap.length := (List.getElem?_eq_some.1 hpl).1
  have hclTag : clamped.tag = EntityTags.Player := by rw [hcl]; exact hplTag
  -- the entity behind a pointer of the list, seen through the heap with the clamped player
  have hview : ∀ p e, g.m_entities.heap[p]? = some e → e.tag ≠ EntityTags.Player →
      p ≠ g.m_player ∧
      ((g.m_entities.heap.set g.m_player clamped).map Entity.destroy)[p]? = some e.destroy ∧
      (g.m_entities.heap.set g.m_player clamped)[p]? = some e := by
    intro p e he htag
    have hne : p ≠ g.m_player := by
      intro h
      rw [h, hpl] at he
      injection he with he
      exact htag (he ▸ hplTag)
    have h3 : (g.m_entities.heap.set g.m_player clamped)[p]? = some e := by
      rw [List.getElem?_set_ne (fun h => hne h.symm), he]
    exact ⟨hne, by rw [List.getElem?_map, h3]; rfl, h3⟩
  have hG1 : ((g.m_entities.heap.set g.m_player clamped).map Entity.destroy)[g.m_player]? =
      some clamped.destroy := by
    rw [List.getElem?_map, List.getElem?_set_self hplt]; rfl
  have hhit : ∀ p ∈ g.m_entities.m_entities,
      hitsPlayer ((g.m_entities.heap.set g.m_player clamped).map Entity.destroy) g.m_player p =
        nonPlayerOverlap clamped g.m_entities.heap p := by
    intro p hp
    obtain ⟨e, he, _⟩ := hc p hp
    by_cases htag : e.tag = EntityTags.Player
    · have h1 : nonPlayerOverlap clamped g.m_entities.heap p = false := by
        simp [nonPlayerOverlap, he, htag]
      rw [h1]
      by_cases hpp : p = g.m_player
      · subst hpp
        have : clamped.destroy.tag = EntityTags.Player := hclTag
        rw [hitsPlayer_eq hG1 hG1]
        simp [this]
      · have h3 : ((g.m_entities.heap.set g.m_player clamped).map Entity.destroy)[p]? =
            some e.destroy := by
          rw [List.getElem?_map, List.getElem?_set_ne (fun h => hpp h.symm), he]; rfl
        have : e.destroy.tag = EntityTags.Player := htag
        rw [hitsPlayer_eq hG1 h3]
        simp [this]
    · obtain ⟨_, h3, _⟩ := hview p e he htag
      have h4 : ¬ e.destroy.tag = EntityTags.Player := htag
      have h5 : rectsOverlap clamped.destroy e.destroy = rectsOverlap clamped e := rfl
      rw [hitsPlayer_eq hG1 h3, h5]
      simp [h4, nonPlayerOverlap, he, htag]
  refine ⟨_, hres, ?_, ?_⟩
  · show g.m_score + _ = g.m_score + _
    rw [List.filter_congr hhit]
  · intro p hp e he htag
    obtain ⟨hne, h3, h4⟩ := hview p e he htag
    have hlt : p < heap2.length := by
      have := congrArg List.length hmap
      simp only [List.length_map, List.length_set] at this
      rw [this]
      exact (List.getElem?_eq_some.1 he).1
    have hov : hitsPlayer ((g.m_entities.heap.set g.m_player clamped).map Entity.destroy)
        g.m_player p = rectsOverlap clamped e := by
      rw [hhit p hp]
      simp [nonPlayerOverlap, he, htag]
    have hq := hact p
    rw [activeAt_of_lt hlt, hov] at hq
    have h5 : activeAt (g.m_entities.heap.set g.m_player clamped) p = e.isActive := by
      simp [activeAt, h4]
    rw [h5] at hq
    refine ⟨heap2.get ⟨p, hlt⟩, ?_, ?_, ?_⟩
    · show heap2[p]? = _
      exact List.getElem?_eq_getElem hlt
    · intro h; rw [hq, h]; simp [hp]
    · intro h; rw [hq, h]; simp

/-- C7 at the scenario: the collision phase on the player at `(100, 100)` and the hazard at
`(110, 110)` returns a state with score 1 in which the hazard is inactive. -/
theorem sCollision_score_witness :
    ∃ g2, Examples.collisionScenario.sCollision = .ok g2 ∧ g2.m_score = 1 ∧
      ∃ e2, g2.m_entities.heap[1]? = some e2 ∧ e2.isActive = false := by
  have hc : ∀ p ∈ Examples.collisionScenario.m_entities.m_entities,
      ∃ e, Examples.collisionScenario.m_entities.heap[p]? = some e ∧
        (e.tag ≠ EntityTags.Player → e.HasBody) := by
    intro p hp
    have hp2 : p = 0 ∨ p = 1 := by
      simpa [Examples.collisionScenario, Examples.playerAndHazard] using hp
    rcases hp2 with rfl | rfl
    · exact ⟨_, rfl, fun _ => ⟨⟨_, rfl⟩, _, rfl⟩⟩
    · exact ⟨_, rfl, fun _ => ⟨⟨_, rfl⟩, _, rfl⟩⟩
  obtain ⟨⟨g2, h, hs, hall⟩, _⟩ := sCollision_score Examples.collisionScenario
    (Examples.playerAt 100 100 {}) {} (Examples.playerAt 100 100 {})
    ⟨by unfold ValidVec; decide, by unfold ValidVec; decide, by unfold ValidVec; decide⟩
    rfl ⟨⟨_, rfl⟩, _, rfl⟩ rfl hc (by decide) (by decide)
  refine ⟨g2, h, ?_, ?_⟩
  · rw [hs]; decide
  · obtain ⟨e2, he2, h1, _⟩ := hall 1 (by decide) (Examples.hazardAt 1 110 110 0 0) rfl
      (by decide)
    exact ⟨e2, he2, h1 (by decide)⟩

/-! ## The movement step followed by the collision phase -/

theorem getElem?_map_unplaced {heap G : List Entity} (hG : heap.map Entity.unplaced = G)
    {p : EntityPtr} {e : Entity} (he : G[p]? = some e) :
    ∃ e0, heap[p]? = some e0 ∧ e0.unplaced = e := by
  rw [← hG, List.getElem?_map] at he
  cases h : heap[p]? with
  | none => simp [h] at he
  | some e0 => exact ⟨e0, rfl, by simpa [h] using he⟩

theorem map_unplaced_set {heap : List Entity} {p : EntityPtr} {e0 : Entity} {tr : CTransform}
    (he : heap[p]? = some e0) (htr : e0.cTransform = some tr) (pos : Vec2) :
    (heap.set p { e0 with cTransform := some { tr with topLeftCornerPos := pos } }).map
      Entity.unplaced = heap.map Entity.unplaced := by
  apply List.ext_getElem?
  intro q
  simp only [List.getElem?_map, List.getElem?_set]
  by_cases hq : p = q
  · subst hq
    have hp : p < heap.length := (List.getElem?_eq_some.1 he).1
    simp [hp, he, Entity.unplaced, htr]
  · simp [hq]

theorem movementLoop_spec (v : Vec2) (G : List Entity) (l : EntityVector)
    (hl : ∀ p ∈ l, ∃ e t, G[p]? = some e ∧ e.cTransform = some t)
    (heap : List Entity) (hG : heap.map Entity.unplaced = G) :
    ∃ heap2, Game.movementLoop v heap l = .ok heap2 ∧ heap2.map Entity.unplaced = G := by
  induction l generalizing heap with
  | nil => exact ⟨heap, rfl, hG⟩
  | cons p rest ih =>
    have hrest : ∀ p ∈ rest, ∃ e t, G[p]? = some e ∧ e.cTransform = some t :=
      fun q hq => hl q (List.mem_cons_of_mem _ hq)
    obtain ⟨e, t, heG, het⟩ := hl p (List.mem_cons_self _ _)
    obtain ⟨e0, he0, hde⟩ := getElem?_map_unplaced hG heG
    have htr : ∃ tr, e0.cTransform = some tr := by
      cases h : e0.cTransform with
      | none => rw [← hde] at het; simp [Entity.unplaced, h] at het
      | some tr => exact ⟨tr, rfl⟩
    obtain ⟨tr, htr⟩ := htr
    by_cases hP : e0.tag = EntityTags.Player
    · have hG2 := (map_unplaced_set he0 htr (tr.topLeftCornerPos.add (v.scale 2))).trans hG
      obtain ⟨heap2, h1, h2⟩ := ih hrest _ hG2
      exact ⟨heap2, by simp only [Game.movementLoop, deref, he0, htr, hP, if_true, bind,
        Except.bind, h1], h2⟩
    · obtain ⟨heap2, h1, h2⟩ := ih hrest heap hG
      exact ⟨heap2, by simp only [Game.movementLoop, deref, he0, htr, hP, if_false, bind,
        Except.bind, h1], h2⟩

theorem sMovement_spec (g : Game) (pl : Entity) (cInput : CInput)
    (hpl : g.m_entities.heap[g.m_player]? = some pl) (hin : pl.cInput = some cInput)
    (hc : ∀ p ∈ g.m_entities.m_entities, ∃ e t, g.m_entities.heap[p]? = some e ∧
      e.cTransform = some t) :
    ∃ heap2, g.sMovement = .ok { g with m_entities := { g.m_entities with heap := heap2 } } ∧
      heap2.map Entity.unplaced = g.m_entities.heap.map Entity.unplaced := by
  have hl : ∀ p ∈ g.m_entities.m_entities, ∃ e t,
      (g.m_entities.heap.map Entity.unplaced)[p]? = some e ∧ e.cTransform = some t := by
    intro p hp
    obtain ⟨e, t, he, ht⟩ := hc p hp
    exact ⟨e.unplaced, { t with topLeftCornerPos := ⟨0, 0⟩ },
      by rw [List.getElem?_map, he]; rfl, by simp [Entity.unplaced, ht]⟩
  obtain ⟨heap2, h1, h2⟩ := movementLoop_spec (Game.playerVelocity cInput) _ _ hl _ rfl
  refine ⟨heap2, ?_, h2⟩
  simp only [Game.sMovement, deref, hpl, hin, bind, Except.bind, pure, Except.pure,
    EntityManager.getEntities, h1]

/-- C8. Player containment. Let the player have a transform, an input component and a shape
of extent `(w, h)` with `w <= 1366` and `h <= 768`, let every entity of the canonical list
have a transform and every non-player entity of it a shape. Then for every player position
and every combination of the intent flags, `sMovement` followed by `sCollision` returns, and
the player's position afterwards satisfies `0 <= x <= 1366 - w` and `0 <= y <= 768 - h`. A
player at `(0, 0)` with extent `(40, 40)` and only the left intent held is at `(0, 0)`
afterwards. -/
theorem player_containment (g : Game) (pl : Entity) (t : CTransform) (s : CShape)
    (cInput : CInput)
    (hv : g.m_entities.Valid)
    (hpl : g.m_entities.heap[g.m_player]? = some pl)
    (ht : pl.cTransform = some t) (hs : pl.cShape = some s) (hin : pl.cInput = some cInput)
    (hc : ∀ p ∈ g.m_entities.m_entities, ∃ e t, g.m_entities.heap[p]? = some e ∧
      e.cTransform = some t ∧ (e.tag ≠ EntityTags.Player → ∃ s, e.cShape = some s))
    (hw : s.rect.w ≤ 1366) (hh : s.rect.h ≤ 768) :
    (∃ g1 g2 pl2 t2, g.sMovement = .ok g1 ∧ g1.sCollision = .ok g2 ∧
      g2.m_entities.heap[g2.m_player]? = some pl2 ∧ pl2.cTransform = some t2 ∧
      0 ≤ t2.topLeftCornerPos.x ∧ t2.topLeftCornerPos.x ≤ 1366 - s.rect.w ∧
      0 ≤ t2.topLeftCornerPos.y ∧ t2.topLeftCornerPos.y ≤ 768 - s.rect.h) ∧
    ((Examples.playerAlone 0 0 { left := true }).sMovement.bind Game.sCollision).map
      (fun g2 => g2.m_entities.heap[g2.m_player]?.map
        (fun e => e.cTransform.map (fun tr => tr.topLeftCornerPos))) =
      .ok (some (some ⟨0, 0⟩)) := by
  refine ⟨?_, by decide⟩
  obtain ⟨heapM, hmov, hmapM⟩ := sMovement_spec g pl cInput hpl hin
    (fun p hp => by obtain ⟨e, t, h1, h2, _⟩ := hc p hp; exact ⟨e, t, h1, h2⟩)
  have hlenM : heapM.length = g.m_entities.heap.length := by
    have := congrArg List.length hmapM
    simpa using this
  -- what the movement step keeps of an entity
  have hkeep : ∀ (p : EntityPtr) (e : Entity), g.m_entities.heap[p]? = some e →
      ∃ e1, heapM[p]? = some e1 ∧ e1.unplaced = e.unplaced := by
    intro p e he
    have h1 : (g.m_entities.heap.map Entity.unplaced)[p]? = some e.unplaced := by
      rw [List.getElem?_map, he]; rfl
    exact getElem?_map_unplaced hmapM h1
  have hfields : ∀ e e1 : Entity, e1.unplaced = e.unplaced →
      e1.tag = e.tag ∧ e1.cShape = e.cShape ∧
      ∀ t, e.cTransform = some t → ∃ t1, e1.cTransform = some t1 := by
    intro e e1 h
    refine ⟨(congrArg Entity.m_tag h : e1.unplaced.m_tag = e.unplaced.m_tag),
      (congrArg Entity.cShape h : e1.unplaced.cShape = e.unplaced.cShape), ?_⟩
    intro t ht
    have h2 := congrArg Entity.cTransform h
    cases h3 : e1.cTransform with
    | none => simp [Entity.unplaced, h3, ht] at h2
    | some t1 => exact ⟨t1, rfl⟩
  obtain ⟨pl1, hpl1, hpl1u⟩ := hkeep _ _ hpl
  obtain ⟨_, hs1, ht1⟩ := hfields pl pl1 hpl1u
  obtain ⟨t1, ht1⟩ := ht1 t ht
  rw [hs] at hs1
  let g1 : Game := { g with m_entities := { g.m_entities with heap := heapM } }
  have hv1 : g1.m_entities.Valid := valid_of_length g.m_entities heapM hv hlenM
  have hc1 : ∀ p ∈ g1.m_entities.m_entities, ∃ e, g1.m_entities.heap[p]? = some e ∧
      (e.tag ≠ EntityTags.Player → e.HasBody) := by
    intro p hp
    obtain ⟨e, te, he, hte, hse⟩ := hc p hp
    obtain ⟨e1, he1, he1u⟩ := hkeep p e he
    obtain ⟨htag, hsh, htr⟩ := hfields e e1 he1u
    refine ⟨e1, he1, fun hne => ⟨htr te hte, ?_⟩⟩
    rw [hsh]
    exact hse (htag ▸ hne)
  obtain ⟨heap2, hres, hmap, _⟩ := sCollision_spec g1 pl1 t1 s hv1 hpl1 ht1 hs1 hc1 _ rfl _ rfl
  have hplt : g.m_player < heapM.length := (List.getElem?_eq_some.1 hpl1).1
  have hfin : (heap2.map Entity.destroy)[g.m_player]? = some (Entity.destroy
      { pl1 with cTransform := some { t1 with
        topLeftCornerPos := clampedPos t1.topLeftCornerPos s.rect.w s.rect.h ⟨1366, 768⟩ } }) := by
    rw [hmap, List.getElem?_map]
    show Option.map Entity.destroy ((heapM.set g.m_player _)[g.m_player]?) = _
    rw [List.getElem?_set_self hplt]
    rfl
  obtain ⟨pl2, hpl2, hpl2d⟩ := getElem?_map_destroy rfl hfin
  have hb := clampedPos_bounds t1.topLeftCornerPos s.rect.w s.rect.h ⟨1366, 768⟩ hw hh
  exact ⟨g1, _, pl2, _, hmov, hres, hpl2, congrArg Entity.cTransform hpl2d, hb.1, hb.2.1,
    hb.2.2.1, hb.2.2.2⟩

/-- C8 at a concrete state: a player at `(0, 0)` with only the left intent held, next to a
hazard at `(500, 500)`, is inside the window after movement and collision phase. -/
theorem player_containment_witness :
    ∃ g1 g2 pl2 t2, (Examples.playerAndHazard 0 0 { left := true } 500 500).sMovement = .ok g1 ∧
      g1.sCollision = .ok g2 ∧
      g2.m_entities.heap[g2.m_player]? = some pl2 ∧ pl2.cTransform = some t2 ∧
      0 ≤ t2.topLeftCornerPos.x ∧ t2.topLeftCornerPos.x ≤ 1366 - 40 ∧
      0 ≤ t2.topLeftCornerPos.y ∧ t2.topLeftCornerPos.y ≤ 768 - 40 :=
  (player_containment (Examples.playerAndHazard 0 0 { left := true } 500 500)
    (Examples.playerAt 0 0 { left := true }) (CTransform.new ⟨0, 0⟩ ⟨0, 0⟩ 0)
    (CShape.new ⟨40, 40, ⟨0, 255, 0, 255⟩⟩) { left := true }
    ⟨by unfold ValidVec; decide, by unfold ValidVec; decide, by unfold ValidVec; decide⟩
    rfl rfl rfl rfl
    (by
      intro p hp
      have hp2 : p = 0 ∨ p = 1 := by simpa [Examples.playerAndHazard] using hp
      rcases hp2 with rfl | rfl
      · exact ⟨_, _, rfl, rfl, fun _ => ⟨_, rfl⟩⟩
      · exact ⟨_, _, rfl, rfl, fun _ => ⟨_, rfl⟩⟩)
    (by decide) (by decide)).1

/-! ## Spawn placement -/

theorem detect_enemyAt (id : Nat) (pos : Vec2) (ticks : Nat) (ws : Vec2) :
    ∃ flags, CollisionHelpers.detectOutOfBounds (enemyAt id pos ticks) ws = .ok flags ∧
      flags.any = touchesBoundary ws pos := by
  refine ⟨_, rfl, ?_⟩
  simp [Bitset4.any, Bitset4.set, touchesBoundary, enemyAt, CTransform.new, CShape.new]

theorem rectsOverlap_enemyAt (e : Entity) (id id2 : Nat) (pos : Vec2) (ticks ticks2 : Nat) :
    rectsOverlap e (enemyAt id pos ticks) = rectsOverlap e (enemyAt id2 pos ticks2) := rfl

theorem touchesAny_spec (base : List Entity) (en : Entity) (hen : en.HasBody)
    (l : EntityVector) (hl : ∀ p ∈ l, ∃ e, base[p]? = some e ∧ e.HasBody) :
    Game.touchesAny (base ++ [en]) base.length l = .ok (overlapsSome base l en) := by
  induction l with
  | nil => rfl
  | cons p rest ih =>
    obtain ⟨e, he, hb⟩ := hl p (List.mem_cons_self _ _)
    have hrest := ih (fun q hq => hl q (List.mem_cons_of_mem _ hq))
    have hp : p < base.length := (List.getElem?_eq_some.1 he).1
    have h1 : (base ++ [en])[p]? = some e := by rw [List.getElem?_append_left hp, he]
    have h2 : (base ++ [en])[base.length]? = some en := by simp
    have h3 := calculateCollision_rectsOverlap e en hb hen
    unfold overlapsSome at hrest ⊢
    simp only [Game.touchesAny, deref, h1, h2, h3, bind, Except.bind, pure, Except.pure, hrest,
      List.any_cons, he]
    cases rectsOverlap e en <;> simp

theorem invalid_of_candidateInvalid (g : Game) (pos : Vec2) (h : CandidateInvalid g pos) :
    placementValid g pos = false := by
  rcases h with h | ⟨p, hp, e, t, s, he, ht, hs, h1, h2, h3, h4⟩
  · have : touchesBoundary g.m_gameConfig.windowSize pos = true := by
      simp only [touchesBoundary, Bool.or_eq_true, decide_eq_true_eq]
      tauto
    simp [placementValid, this]
  · have : overlapsSome g.m_entities.heap g.m_entities.m_entities (enemyAt 0 pos 0) = true := by
      simp only [overlapsSome, List.any_eq_true]
      refine ⟨p, hp, ?_⟩
      simp only [he, rectsOverlap, ht, hs, enemyAt, CTransform.new, CShape.new,
        Bool.and_eq_true, decide_eq_true_eq]
      exact ⟨⟨⟨h1, h2⟩, h3⟩, h4⟩
    simp [placementValid, this]

theorem set_last (base : List Entity) (a b : Entity) :
    (base ++ [a]).set base.length b = base ++ [b] := by
  induction base with
  | nil => rfl
  | cons x xs ih => simp [ih]

theorem spawnRetry_done (ws : Vec2) (rand : Nat → Nat) (fuel : Nat) (st : Game.SpawnSearch)
    (h : st.isValidSpawn = true ∨ Game.MAX_SPAWN_ATTEMPTS ≤ st.spawnAttempt) :
    Game.spawnRetry ws rand fuel st = .ok st := by
  unfold Game.spawnRetry
  rcases h with h | h
  · simp [h]
  · have : ¬ st.spawnAttempt < Game.MAX_SPAWN_ATTEMPTS := by omega
    simp [this]

theorem spawnRetry_succ (ws : Vec2) (rand : Nat → Nat) (fuel : Nat) (st : Game.SpawnSearch)
    (e : Entity) (tr : CTransform) (flags : Bitset4) (b : Bool)
    (hv : st.isValidSpawn = false) (ha : st.spawnAttempt < Game.MAX_SPAWN_ATTEMPTS)
    (hx : ws.x ≠ 0) (hy : ws.y ≠ 0)
    (he : st.entities.heap[st.enemy]? = some e) (htr : e.cTransform = some tr)
    (e2 : Entity)
    (he2 : e2 = { e with cTransform := some { tr with
      topLeftCornerPos := ⟨Int.tmod (rand st.draws : Int) ws.x,
        Int.tmod (rand (st.draws + 1) : Int) ws.y⟩ } })
    (heap2 : List Entity) (hheap2 : heap2 = st.entities.heap.set st.enemy e2)
    (hdet : CollisionHelpers.detectOutOfBounds e2 ws = .ok flags)
    (htouch : Game.touchesAny heap2 st.enemy st.entities.m_entities = .ok b) :
    Game.spawnRetry ws rand (fuel + 1) st =
      Game.spawnRetry ws rand fuel
        { st with
          entities := { st.entities with heap := heap2 }
          spawnAttempt := st.spawnAttempt + 1
          isValidSpawn := !flags.any && !b
          draws := st.draws + 2 } := by
  subst he2 hheap2
  conv => lhs; unfold Game.spawnRetry
  simp only [hv, ha, decide_True, Bool.not_false, Bool.and_self, if_true, randMod, hx,
    hy, if_false, bind, Except.bind, deref, he, derefTransform, htr, pure, Except.pure, hdet,
    EntityManager.getEntities, htouch]

theorem spawnRetry_step (g : Game) (rand : Nat → Nat) (ticks : Nat) (hb : g.BodiesPresent)
    (hx : g.m_gameConfig.windowSize.x ≠ 0) (hy : g.m_gameConfig.windowSize.y ≠ 0)
    (fuel : Nat) (pos : Vec2) (a : Nat) (ha : a < Game.MAX_SPAWN_ATTEMPTS) :
    Game.spawnRetry g.m_gameConfig.windowSize rand (fuel + 1) (searchState g ticks pos false a) =
      Game.spawnRetry g.m_gameConfig.windowSize rand fuel
        (searchState g ticks (candidate g.m_gameConfig.windowSize rand a)
          (placementValid g (candidate g.m_gameConfig.windowSize rand a)) (a + 1)) := by
  obtain ⟨flags, hdet, hany⟩ := detect_enemyAt g.m_entities.m_totalEntities
    (candidate g.m_gameConfig.windowSize rand a) ticks g.m_gameConfig.windowSize
  have htouch := touchesAny_spec g.m_entities.heap
    (enemyAt g.m_entities.m_totalEntities (candidate g.m_gameConfig.windowSize rand a) ticks)
    ⟨⟨_, rfl⟩, _, rfl⟩ g.m_entities.m_entities hb
  have hderef : (g.m_entities.heap ++ [enemyAt g.m_entities.m_totalEntities pos ticks])[
      g.m_entities.heap.length]? = some (enemyAt g.m_entities.m_totalEntities pos ticks) := by
    simp
  rw [spawnRetry_succ g.m_gameConfig.windowSize rand fuel (searchState g ticks pos false a)
    (enemyAt g.m_entities.m_totalEntities pos ticks) (CTransform.new pos ⟨0, 0⟩ 0) flags
    (overlapsSome g.m_entities.heap g.m_entities.m_entities
      (enemyAt g.m_entities.m_totalEntities (candidate g.m_gameConfig.windowSize rand a) ticks))
    rfl ha hx hy hderef rfl
    (enemyAt g.m_entities.m_totalEntities (candidate g.m_gameConfig.windowSize rand a) ticks) rfl
    (g.m_entities.heap ++
      [enemyAt g.m_entities.m_totalEntities (candidate g.m_gameConfig.windowSize rand a) ticks])
    (set_last _ _ _).symm hdet htouch]
  have hvalid : (!flags.any && !overlapsSome g.m_entities.heap g.m_entities.m_entities
      (enemyAt g.m_entities.m_totalEntities (candidate g.m_gameConfig.windowSize rand a) ticks)) =
      placementValid g (candidate g.m_gameConfig.windowSize rand a) := by
    rw [hany]; rfl
  rw [hvalid]
  have hd : 2 * a + 2 = 2 * (a + 1) := by omega
  simp only [searchState, hd]

theorem spawnRetry_loop (g : Game) (rand : Nat → Nat) (ticks : Nat) (hb : g.BodiesPresent)
    (hx : g.m_gameConfig.windowSize.x ≠ 0) (hy : g.m_gameConfig.windowSize.y ≠ 0)
    (fuel : Nat) :
    ∀ (a : Nat) (pos : Vec2), a ≤ 10 → 10 - a ≤ fuel →
      ∃ pos2 a2,
        Game.spawnRetry g.m_gameConfig.windowSize rand fuel
            (searchState g ticks pos (placementValid g pos) a) =
          .ok (searchState g ticks pos2 (placementValid g pos2) a2) ∧
        a ≤ a2 ∧ a2 ≤ 10 ∧
        (placementValid g pos = false →
          (∀ k, a ≤ k → k < 10 → placementValid g (candidate g.m_gameConfig.windowSize rand k)
            = false) →
          a2 = 10 ∧ placementValid g pos2 = false) := by
  have hM : Game.MAX_SPAWN_ATTEMPTS = 10 := rfl
  induction fuel with
  | zero =>
    intro a pos ha hf
    have ha10 : a = 10 := by omega
    refine ⟨pos, a, spawnRetry_done _ _ _ _ (Or.inr ?_), le_refl _, ha, ?_⟩
    · show Game.MAX_SPAWN_ATTEMPTS ≤ a
      omega
    · intro h _
      exact ⟨ha10, h⟩
  | succ f ih =>
    intro a pos ha hf
    cases hval : placementValid g pos with
    | true =>
      refine ⟨pos, a, ?_, le_refl _, ha, ?_⟩
      · rw [hval]
        exact spawnRetry_done _ _ _ _ (Or.inl rfl)
      · intro h; cases h
    | false =>
      by_cases ha10 : a = 10
      · refine ⟨pos, a, ?_, le_refl _, ha, ?_⟩
        · rw [hval]
          refine spawnRetry_done _ _ _ _ (Or.inr ?_)
          show Game.MAX_SPAWN_ATTEMPTS ≤ a
          omega
        · intro _ _
          exact ⟨ha10, hval⟩
      · have halt : a < Game.MAX_SPAWN_ATTEMPTS := by omega
        obtain ⟨pos2, a2, h1, h2, h3, h4⟩ :=
          ih (a + 1) (candidate g.m_gameConfig.windowSize rand a) (by omega) (by omega)
        refine ⟨pos2, a2, ?_, by omega, h3, ?_⟩
        · rw [spawnRetry_step g rand ticks hb hx hy f pos a halt, h1]
        · intro _ hall
          exact h4 (hall a (le_refl _) (by omega)) (fun k hk hk2 => hall k (by omega) hk2)

theorem spawnSearch_unfold (g : Game) (rand : Nat → Nat) (ticks : Nat)
    (hx : g.m_gameConfig.windowSize.x ≠ 0) (hy : g.m_gameConfig.windowSize.y ≠ 0)
    (e : Entity)
    (he : e = { Entity.new g.m_entities.m_totalEntities EntityTags.Enemy with
      cTransform := some (CTransform.new
        ⟨Int.tmod (rand 0 : Int) g.m_gameConfig.windowSize.x,
          Int.tmod (rand 1 : Int) g.m_gameConfig.windowSize.y⟩ ⟨0, 0⟩ 0)
      cShape := some (CShape.new ⟨40, 40, ⟨255, 0, 0, 255⟩⟩)
      cLifespan := some (CLifespan.new 30000 ticks) })
    (heap2 : List Entity)
    (hheap2 : heap2 = (g.m_entities.heap ++
      [Entity.new g.m_entities.m_totalEntities EntityTags.Enemy]).set g.m_entities.heap.length e)
    (flags : Bitset4) (b : Bool)
    (hdet : CollisionHelpers.detectOutOfBounds e g.m_gameConfig.windowSize = .ok flags)
    (htouch : Game.touchesAny heap2 g.m_entities.heap.length g.m_entities.m_entities = .ok b) :
    Game.spawnSearch g rand ticks =
      Game.spawnRetry g.m_gameConfig.windowSize rand Game.MAX_SPAWN_ATTEMPTS
        { entities := { (g.m_entities.addEntity EntityTags.Enemy).2 with heap := heap2 }
          enemy := g.m_entities.heap.length
          isValidSpawn := !flags.any && !b
          spawnAttempt := 1
          draws := 2 } := by
  subst he hheap2
  have hderef : (g.m_entities.heap ++
      [Entity.new g.m_entities.m_totalEntities EntityTags.Enemy])[g.m_entities.heap.length]? =
      some (Entity.new g.m_entities.m_totalEntities EntityTags.Enemy) := by
    simp
  simp only [Game.spawnSearch, randMod, hx, hy, if_false, bind, Except.bind,
    EntityManager.addEntity, deref, hderef, pure, Except.pure, hdet,
    EntityManager.getEntities, htouch]

theorem spawnSearch_spec (g : Game) (rand : Nat → Nat) (ticks : Nat) (hb : g.BodiesPresent)
    (hx : g.m_gameConfig.windowSize.x ≠ 0) (hy : g.m_gameConfig.windowSize.y ≠ 0) :
    ∃ pos a,
      Game.spawnSearch g rand ticks = .ok (searchState g ticks pos (placementValid g pos) a) ∧
      1 ≤ a ∧ a ≤ 10 ∧
      ((∀ k, k < 10 → placementValid g (candidate g.m_gameConfig.windowSize rand k) = false) →
        a = 10 ∧ placementValid g pos = false) := by
  obtain ⟨flags, hdet, hany⟩ := detect_enemyAt g.m_entities.m_totalEntities
    (candidate g.m_gameConfig.windowSize rand 0) ticks g.m_gameConfig.windowSize
  have htouch := touchesAny_spec g.m_entities.heap
    (enemyAt g.m_entities.m_totalEntities (candidate g.m_gameConfig.windowSize rand 0) ticks)
    ⟨⟨_, rfl⟩, _, rfl⟩ g.m_entities.m_entities hb
  have h0 := spawnSearch_unfold g rand ticks hx hy
    (enemyAt g.m_entities.m_totalEntities (candidate g.m_gameConfig.windowSize rand 0) ticks) rfl
    (g.m_entities.heap ++
      [enemyAt g.m_entities.m_totalEntities (candidate g.m_gameConfig.windowSize rand 0) ticks])
    (set_last _ _ _).symm flags _ hdet htouch
  have hvalid : (!flags.any && !overlapsSome g.m_entities.heap g.m_entities.m_entities
      (enemyAt g.m_entities.m_totalEntities (candidate g.m_gameConfig.windowSize rand 0) ticks)) =
      placementValid g (candidate g.m_gameConfig.windowSize rand 0) := by
    rw [hany]; rfl
  rw [hvalid] at h0
  obtain ⟨pos2, a2, h1, h2, h3, h4⟩ := spawnRetry_loop g rand ticks hb hx hy 10 1
    (candidate g.m_gameConfig.windowSize rand 0) (by omega) (by omega)
  refine ⟨pos2, a2, ?_, h2, h3, ?_⟩
  · rw [h0]
    exact h1
  · intro hall
    exact h4 (hall 0 (by omega)) (fun k _ hk => hall k hk)

theorem spawnedManager_valid (g : Game) (en : Entity) (hv : g.m_entities.Valid) :
    (spawnedManager g en).Valid := by
  have hlen : (g.m_entities.heap ++ [en]).length = g.m_entities.heap.length + 1 := by simp
  refine ⟨?_, ?_, ?_⟩
  · intro p hp
    show p < (g.m_entities.heap ++ [en]).length
    have h : p < g.m_entities.heap.length := hv.entities p hp
    rw [hlen]; exact Nat.lt_succ_of_lt h
  · intro p hp
    show p < (g.m_entities.heap ++ [en]).length
    have hp2 : p ∈ g.m_entities.m_toAdd ++ [g.m_entities.heap.length] := hp
    rcases List.mem_append.1 hp2 with h | h
    · have h2 : p < g.m_entities.heap.length := hv.toAdd p h
      rw [hlen]; exact Nat.lt_succ_of_lt h2
    · rw [List.mem_singleton] at h
      rw [hlen, h]; exact Nat.lt_succ_self _
  · intro kv hkv p hp
    show p < (g.m_entities.heap ++ [en]).length
    have h : p < g.m_entities.heap.length := hv.buckets kv hkv p hp
    rw [hlen]; exact Nat.lt_succ_of_lt h

theorem spawnEnemy_spec (g : Game) (rand : Nat → Nat) (ticks : Nat)
    (hv : g.m_entities.Valid) (hb : g.BodiesPresent)
    (hx : g.m_gameConfig.windowSize.x ≠ 0) (hy : g.m_gameConfig.windowSize.y ≠ 0) :
    ∃ pos a,
      Game.spawnSearch g rand ticks = .ok (searchState g ticks pos (placementValid g pos) a) ∧
      1 ≤ a ∧ a ≤ 10 ∧
      ((∀ k, k < 10 → placementValid g (candidate g.m_gameConfig.windowSize rand k) = false) →
        a = 10 ∧ placementValid g pos = false) ∧
      Game.spawnEnemy g rand ticks =
        .ok { g with m_entities := (spawnedManager g (spawnedEnemy g ticks pos)).updated } := by
  obtain ⟨pos, a, hs, h1, h2, h3⟩ := spawnSearch_spec g rand ticks hb hx hy
  refine ⟨pos, a, hs, h1, h2, h3, ?_⟩
  have hupd := update_eq_updated _ (spawnedManager_valid g (spawnedEnemy g ticks pos) hv)
  have hderef : (g.m_entities.heap ++ [enemyAt g.m_entities.m_totalEntities pos ticks])[
      g.m_entities.heap.length]? = some (enemyAt g.m_entities.m_totalEntities pos ticks) := by
    simp
  cases hval : placementValid g pos with
  | true =>
    have hen : spawnedEnemy g ticks pos = enemyAt g.m_entities.m_totalEntities pos ticks := by
      simp [spawnedEnemy, hval]
    rw [hen] at hupd ⊢
    rw [hval] at hs
    simp only [Game.spawnEnemy, hs, bind, Except.bind, searchState, Bool.not_true,
      Bool.false_eq_true, if_false, pure, Except.pure]
    simp only [spawnedManager] at hupd
    rw [hupd]
    rfl
  | false =>
    have hen : spawnedEnemy g ticks pos =
        (enemyAt g.m_entities.m_totalEntities pos ticks).destroy := by
      simp [spawnedEnemy, hval]
    rw [hen] at hupd ⊢
    rw [hval] at hs
    simp only [Game.spawnEnemy, hs, bind, Except.bind, searchState, Bool.not_false, if_true,
      EntityManager.destroy, hderef, set_last]
    simp only [spawnedManager] at hupd
    rw [hupd]
    rfl

theorem not_mem_updated_of_inactive (m : EntityManager) (p : EntityPtr)
    (h : activeAt m.heap p = false) :
    p ∉ m.updated.m_entities ∧ (∀ kv ∈ m.updated.m_entityMap, p ∉ kv.2) ∧
      p ∉ m.updated.m_toAdd := by
  refine ⟨?_, ?_, ?_⟩
  · intro hp
    simp only [EntityManager.updated, List.mem_filter] at hp
    rw [h] at hp
    exact Bool.false_ne_true hp.2
  · intro kv hkv hp
    simp only [EntityManager.updated, pruneAll, List.mem_map] at hkv
    obtain ⟨kv0, _, rfl⟩ := hkv
    have := (List.mem_filter.1 hp).2
    rw [h] at this
    exact Bool.false_ne_true this
  · simp [EntityManager.updated]

theorem rectsOverlap_symm (a b : Entity) : rectsOverlap a b = rectsOverlap b a := by
  unfold rectsOverlap
  cases a.cTransform <;> cases a.cShape <;> cases b.cTransform <;> cases b.cShape <;>
    simp only []
  rw [Bool.eq_iff_iff]
  simp only [Bool.and_eq_true, decide_eq_true_eq, ge_iff_le]
  constructor <;> (rintro ⟨⟨⟨h1, h2⟩, h3⟩, h4⟩; exact ⟨⟨⟨h2, h1⟩, h4⟩, h3⟩)

theorem spawned_heap_last (g : Game) (en : Entity) :
    (spawnedManager g en).updated.heap[g.m_entities.heap.length]? = some en := by
  simp [spawnedManager, EntityManager.updated]

/-- C3. Spawn bounded-retry. Let every entity of the canonical list have a transform and a
shape, the manager's pointers be valid and the window size be non-zero. If each of the first
ten candidate positions drawn from `rand` is invalid (it touches a boundary or overlaps an
entity of the canonical list), then the placement search of `spawnEnemy` returns after
exactly 10 tested candidates (20 calls of `rand()`) without a valid placement, `spawnEnemy`
returns, the new hazard is inactive, and it is neither in the canonical list, nor in a tag
bucket, nor pending. The hypotheses on the state are part of `Game.WellFormed`. -/
theorem spawnEnemy_exhausted (g : Game) (rand : Nat → Nat) (ticks : Nat)
    (hv : g.m_entities.Valid) (hb : g.BodiesPresent)
    (hx : g.m_gameConfig.windowSize.x ≠ 0) (hy : g.m_gameConfig.windowSize.y ≠ 0)
    (hall : ∀ k, k < 10 → CandidateInvalid g (candidate g.m_gameConfig.windowSize rand k)) :
    ∃ st g2 e, Game.spawnSearch g rand ticks = .ok st ∧
      st.spawnAttempt = 10 ∧ st.draws = 20 ∧ st.isValidSpawn = false ∧
      st.enemy = g.m_entities.heap.length ∧
      Game.spawnEnemy g rand ticks = .ok g2 ∧
      g2.m_entities.heap[st.enemy]? = some e ∧ e.tag = EntityTags.Enemy ∧
      e.isActive = false ∧
      st.enemy ∉ g2.m_entities.m_entities ∧
      (∀ kv ∈ g2.m_entities.m_entityMap, st.enemy ∉ kv.2) ∧
      st.enemy ∉ g2.m_entities.m_toAdd := by
  obtain ⟨pos, a, hs, _, _, h3, he⟩ := spawnEnemy_spec g rand ticks hv hb hx hy
  obtain ⟨ha, hval⟩ := h3 (fun k hk => invalid_of_candidateInvalid g _ (hall k hk))
  have hen : spawnedEnemy g ticks pos =
      (enemyAt g.m_entities.m_totalEntities pos ticks).destroy := by
    simp [spawnedEnemy, hval]
  rw [hen] at he
  have hlast := spawned_heap_last g (enemyAt g.m_entities.m_totalEntities pos ticks).destroy
  have hinact : activeAt (spawnedManager g
      (enemyAt g.m_entities.m_totalEntities pos ticks).destroy).heap g.m_entities.heap.length
      = false := by
    have h : (spawnedManager g (enemyAt g.m_entities.m_totalEntities pos ticks).destroy).heap[
        g.m_entities.heap.length]? =
        some (enemyAt g.m_entities.m_totalEntities pos ticks).destroy := hlast
    simp only [activeAt, h]
    rfl
  obtain ⟨h4, h5, h6⟩ := not_mem_updated_of_inactive _ _ hinact
  refine ⟨_, _, _, hs, ha, ?_, hval, rfl, he, hlast, rfl, rfl, h4, h5, h6⟩
  show 2 * a = 20
  omega

/-- C3 at a concrete state: the player alone at `(0, 0)` in the 1366 by 768 window, and a
`rand()` that always returns 0, so that every candidate is `(0, 0)`. -/
theorem spawnEnemy_exhausted_witness :
    ∃ st g2 e, Game.spawnSearch (Examples.playerAlone 0 0 {}) (fun _ => 0) 7 = .ok st ∧
      st.spawnAttempt = 10 ∧ st.draws = 20 ∧ st.isValidSpawn = false ∧
      st.enemy = (Examples.playerAlone 0 0 {}).m_entities.heap.length ∧
      Game.spawnEnemy (Examples.playerAlone 0 0 {}) (fun _ => 0) 7 = .ok g2 ∧
      g2.m_entities.heap[st.enemy]? = some e ∧ e.tag = EntityTags.Enemy ∧
      e.isActive = false ∧
      st.enemy ∉ g2.m_entities.m_entities ∧
      (∀ kv ∈ g2.m_entities.m_entityMap, st.enemy ∉ kv.2) ∧
      st.enemy ∉ g2.m_entities.m_toAdd :=
  spawnEnemy_exhausted (Examples.playerAlone 0 0 {}) (fun _ => 0) 7
    ⟨by unfold ValidVec; decide, by unfold ValidVec; decide, by unfold ValidVec; decide⟩
    (by
      intro p hp
      have hp2 : p = 0 := by simpa [Examples.playerAlone] using hp
      subst hp2
      exact ⟨_, rfl, ⟨_, rfl⟩, _, rfl⟩)
    (by decide) (by decide)
    (by
      intro k _
      left; left
      simp [candidate])

/-- C4. Spawn placement postcondition. Let every entity of the canonical list have a
transform and a shape, the manager's pointers be valid, nothing be pending and the window
size be non-zero. Then `spawnEnemy` returns and, if the hazard it created is active at that
point, the hazard sets no out-of-bounds flag (`x > 0`, `y > 0`, `x + 40 < windowSize.x`,
`y + 40 < windowSize.y`) and the overlap test is false between it and every other entity of
the canonical list. The hypotheses on the state are part of `Game.WellFormed`. -/
theorem spawnEnemy_placement (g : Game) (rand : Nat → Nat) (ticks : Nat)
    (hv : g.m_entities.Valid) (hb : g.BodiesPresent)
    (hx : g.m_gameConfig.windowSize.x ≠ 0) (hy : g.m_gameConfig.windowSize.y ≠ 0)
    (hpending : g.m_entities.m_toAdd = []) :
    ∃ st g2 e, Game.spawnSearch g rand ticks = .ok st ∧
      st.enemy = g.m_entities.heap.length ∧
      Game.spawnEnemy g rand ticks = .ok g2 ∧
      g2.m_entities.heap[st.enemy]? = some e ∧ e.tag = EntityTags.Enemy ∧
      (e.isActive = true →
        (∃ flags, CollisionHelpers.detectOutOfBounds e g.m_gameConfig.windowSize = .ok flags ∧
          flags.any = false) ∧
        (∃ t s, e.cTransform = some t ∧ e.cShape = some s ∧ s.rect.w = 40 ∧ s.rect.h = 40 ∧
          t.topLeftCornerPos.x > 0 ∧ t.topLeftCornerPos.y > 0 ∧
          t.topLeftCornerPos.x + 40 < g.m_gameConfig.windowSize.x ∧
          t.topLeftCornerPos.y + 40 < g.m_gameConfig.windowSize.y) ∧
        ∀ p ∈ g2.m_entities.m_entities, p ≠ st.enemy →
          ∃ o, g2.m_entities.heap[p]? = some o ∧
            CollisionHelpers.calculateCollisionBetweenEntities o e = .ok false ∧
            CollisionHelpers.calculateCollisionBetweenEntities e o = .ok false) := by
  obtain ⟨pos, a, hs, _, _, _, he⟩ := spawnEnemy_spec g rand ticks hv hb hx hy
  have hlast := spawned_heap_last g (spawnedEnemy g ticks pos)
  refine ⟨_, _, _, hs, rfl, he, hlast, ?_, ?_⟩
  · unfold spawnedEnemy
    split <;> rfl
  · intro hact
    have hval : placementValid g pos = true := by
      cases h : placementValid g pos with
      | true => rfl
      | false =>
        simp only [spawnedEnemy, h] at hact
        exact absurd hact (Bool.false_ne_true)
    have hen : spawnedEnemy g ticks pos = enemyAt g.m_entities.m_totalEntities pos ticks := by
      simp [spawnedEnemy, hval]
    rw [hen]
    simp only [placementValid, Bool.and_eq_true, Bool.not_eq_true'] at hval
    obtain ⟨hbd, hov⟩ := hval
    obtain ⟨flags, hdet, hany⟩ := detect_enemyAt g.m_entities.m_totalEntities pos ticks
      g.m_gameConfig.windowSize
    refine ⟨⟨flags, hdet, hany.trans hbd⟩, ?_, ?_⟩
    · simp only [touchesBoundary, Bool.or_eq_false_iff, decide_eq_false_iff_not, not_le] at hbd
      refine ⟨_, _, rfl, rfl, rfl, rfl, ?_⟩
      simp only [CTransform.new]
      omega
    · intro p hp hne
      have hp2 : p ∈ g.m_entities.m_entities := by
        simp only [EntityManager.updated, spawnedManager, EntityManager.addEntity, hpending,
          List.nil_append, List.mem_filter, List.mem_append, List.mem_singleton] at hp
        rcases hp.1 with h | h
        · exact h
        · exact absurd h hne
      obtain ⟨o, ho, hob⟩ := hb p hp2
      have hplt : p < g.m_entities.heap.length := (List.getElem?_eq_some.1 ho).1
      have hnov : rectsOverlap o (enemyAt g.m_entities.m_totalEntities pos ticks) = false := by
        simp only [overlapsSome, List.any_eq_false] at hov
        have := hov p hp2
        simp only [ho] at this
        rw [rectsOverlap_enemyAt o _ 0 pos _ 0]
        simpa using this
      have hbody : (enemyAt g.m_entities.m_totalEntities pos ticks).HasBody :=
        ⟨⟨_, rfl⟩, _, rfl⟩
      have hc1 := calculateCollision_rectsOverlap o _ hob hbody
      rw [hnov] at hc1
      obtain ⟨⟨tO, hto⟩, sO, hso⟩ := hob
      refine ⟨o, ?_, hc1, ?_⟩
      · show (g.m_entities.heap ++ _)[p]? = some o
        rw [List.getElem?_append_left hplt, ho]
      · have hc2 := calculateCollision_rectsOverlap _ o hbody ⟨⟨tO, hto⟩, sO, hso⟩
        rw [rectsOverlap_symm, hnov] at hc2
        exact hc2

/-- C4 at a concrete state: the player alone at `(0, 0)`, and a `rand()` whose k-th value is
`100 + k`, so that the first candidate `(100, 101)` is valid. -/
theorem spawnEnemy_placement_witness :
    ∃ st g2 e, Game.spawnSearch (Examples.playerAlone 0 0 {}) (fun k => 100 + k) 7 = .ok st ∧
      st.enemy = (Examples.playerAlone 0 0 {}).m_entities.heap.length ∧
      Game.spawnEnemy (Examples.playerAlone 0 0 {}) (fun k => 100 + k) 7 = .ok g2 ∧
      g2.m_entities.heap[st.enemy]? = some e ∧ e.tag = EntityTags.Enemy ∧
      (e.isActive = true →
        (∃ flags, CollisionHelpers.detectOutOfBounds e
            (Examples.playerAlone 0 0 {}).m_gameConfig.windowSize = .ok flags ∧
          flags.any = false) ∧
        (∃ t s, e.cTransform = some t ∧ e.cShape = some s ∧ s.rect.w = 40 ∧ s.rect.h = 40 ∧
          t.topLeftCornerPos.x > 0 ∧ t.topLeftCornerPos.y > 0 ∧
          t.topLeftCornerPos.x + 40 < (Examples.playerAlone 0 0 {}).m_gameConfig.windowSize.x ∧
          t.topLeftCornerPos.y + 40 < (Examples.playerAlone 0 0 {}).m_gameConfig.windowSize.y) ∧
        ∀ p ∈ g2.m_entities.m_entities, p ≠ st.enemy →
          ∃ o, g2.m_entities.heap[p]? = some o ∧
            CollisionHelpers.calculateCollisionBetweenEntities o e = .ok false ∧
            CollisionHelpers.calculateCollisionBetweenEntities e o = .ok false) :=
  spawnEnemy_placement (Examples.playerAlone 0 0 {}) (fun k => 100 + k) 7
    ⟨by unfold ValidVec; decide, by unfold ValidVec; decide, by unfold ValidVec; decide⟩
    (by
      intro p hp
      have hp2 : p = 0 := by simpa [Examples.playerAlone] using hp
      subst hp2
      exact ⟨_, rfl, ⟨_, rfl⟩, _, rfl⟩)
    (by decide) (by decide) rfl

/-! ## The state invariant of the game -/

theorem wellFormed_spawnPlayer (config : GameConfig) (playerConfig : PlayerConfig)
    (hx : config.windowSize.x ≠ 0) (hy : config.windowSize.y ≠ 0) :
    ∃ g1, Game.spawnPlayer { m_gameConfig := config, m_playerConfig := playerConfig } = .ok g1 ∧
      g1.WellFormed := by
  have hrun : Game.spawnPlayer { m_gameConfig := config, m_playerConfig := playerConfig } =
      .ok { m_gameConfig := config, m_playerConfig := playerConfig, m_player := 0,
            m_entities :=
              { heap := [{ m_id := 0, m_tag := EntityTags.Player,
                           cTransform := some (CTransform.new ⟨0, 0⟩ ⟨0, 0⟩ 0),
                           cShape := some (CShape.new playerConfig.shape),
                           cInput := some {} }]
                m_entities := [0]
                m_entityMap := [(EntityTags.Player, [0])]
                m_toAdd := []
                m_totalEntities := 1 } } := rfl
  refine ⟨_, hrun, ⟨?_, ?_, ?_⟩, rfl, ?_, ?_, ⟨hx, hy⟩⟩
  · intro p hp
    have : p = 0 := by simpa using hp
    subst this
    exact Nat.zero_lt_one
  · intro p hp
    simp at hp
  · intro kv hkv p hp
    have : kv = (EntityTags.Player, [0]) := by simpa using hkv
    subst this
    have : p = 0 := by simpa using hp
    subst this
    exact Nat.zero_lt_one
  · intro p hp
    have : p = 0 := by simpa using hp
    subst this
    exact ⟨_, rfl, ⟨_, rfl⟩, _, rfl⟩
  · exact ⟨_, rfl, rfl, ⟨⟨_, rfl⟩, _, rfl⟩, _, rfl⟩

theorem body_of_unplaced {e e1 : Entity} (h : e1.unplaced = e.unplaced) :
    e1.tag = e.tag ∧ e1.cInput = e.cInput ∧ (e.HasBody → e1.HasBody) := by
  refine ⟨(congrArg Entity.m_tag h : e1.unplaced.m_tag = e.unplaced.m_tag),
    (congrArg Entity.cInput h : e1.unplaced.cInput = e.unplaced.cInput), ?_⟩
  rintro ⟨⟨t, ht⟩, s, hs⟩
  have h2 : e1.unplaced.cTransform = e.unplaced.cTransform := congrArg Entity.cTransform h
  have h3 : e1.unplaced.cShape = e.unplaced.cShape := congrArg Entity.cShape h
  refine ⟨?_, s, h3.trans hs⟩
  cases h4 : e1.cTransform with
  | none => simp [Entity.unplaced, h4, ht] at h2
  | some t1 => exact ⟨t1, rfl⟩

theorem body_of_destroy {e e1 : Entity} (h : e1.destroy = e.destroy) :
    e1.tag = e.tag ∧ e1.cInput = e.cInput ∧ (e.HasBody → e1.HasBody) := by
  refine ⟨(congrArg Entity.m_tag h : e1.destroy.m_tag = e.destroy.m_tag),
    (congrArg Entity.cInput h : e1.destroy.cInput = e.destroy.cInput), ?_⟩
  rintro ⟨⟨t, ht⟩, s, hs⟩
  have h2 : e1.destroy.cTransform = e.destroy.cTransform := congrArg Entity.cTransform h
  have h3 : e1.destroy.cShape = e.destroy.cShape := congrArg Entity.cShape h
  exact ⟨⟨t, h2.trans ht⟩, s, h3.trans hs⟩

theorem wellFormed_sMovement (g : Game) (h : g.WellFormed) :
    ∃ g1, g.sMovement = .ok g1 ∧ g1.WellFormed := by
  obtain ⟨pl, hpl, hplTag, hplB, cInput, hin⟩ := h.player
  obtain ⟨heapM, hmov, hmapM⟩ := sMovement_spec g pl cInput hpl hin
    (fun p hp => by obtain ⟨e, he, ⟨t, ht⟩, _⟩ := h.bodies p hp; exact ⟨e, t, he, ht⟩)
  have hlenM : heapM.length = g.m_entities.heap.length := by
    have := congrArg List.length hmapM
    simpa using this
  have hkeep : ∀ (p : EntityPtr) (e : Entity), g.m_entities.heap[p]? = some e →
      ∃ e1, heapM[p]? = some e1 ∧ e1.unplaced = e.unplaced := by
    intro p e he
    have h1 : (g.m_entities.heap.map Entity.unplaced)[p]? = some e.unplaced := by
      rw [List.getElem?_map, he]; rfl
    exact getElem?_map_unplaced hmapM h1
  refine ⟨_, hmov, valid_of_length g.m_entities heapM h.valid hlenM, h.pending, ?_, ?_, h.window⟩
  · intro p hp
    obtain ⟨e, he, hb⟩ := h.bodies p hp
    obtain ⟨e1, he1, hu⟩ := hkeep p e he
    exact ⟨e1, he1, (body_of_unplaced hu).2.2 hb⟩
  · obtain ⟨pl1, hpl1, hu⟩ := hkeep _ _ hpl
    obtain ⟨h1, h2, h3⟩ := body_of_unplaced hu
    exact ⟨pl1, hpl1, h1.trans hplTag, h3 hplB, cInput, h2.trans hin⟩

theorem wellFormed_sCollision (g : Game) (h : g.WellFormed) :
    ∃ g2, g.sCollision = .ok g2 ∧ g2.WellFormed := by
  obtain ⟨pl, hpl, hplTag, ⟨⟨t, ht⟩, s, hs⟩, cInput, hin⟩ := h.player
  have hc : ∀ p ∈ g.m_entities.m_entities, ∃ e, g.m_entities.heap[p]? = some e ∧
      (e.tag ≠ EntityTags.Player → e.HasBody) := by
    intro p hp
    obtain ⟨e, he, hb⟩ := h.bodies p hp
    exact ⟨e, he, fun _ => hb⟩
  obtain ⟨heap2, hres, hmap, _⟩ := sCollision_spec g pl t s h.valid hpl ht hs hc _ rfl _ rfl
  have hplt : g.m_player < g.m_entities.heap.length := (List.getElem?_eq_some.1 hpl).1
  have hlen : heap2.length = g.m_entities.heap.length := by
    have := congrArg List.length hmap
    simpa using this
  -- every entity keeps tag, input and body through clamping and the loop
  have hkeep : ∀ (p : EntityPtr) (e : Entity), g.m_entities.heap[p]? = some e →
      ∃ e2, heap2[p]? = some e2 ∧ e2.tag = e.tag ∧ e2.cInput = e.cInput ∧
        (e.HasBody → e2.HasBody) := by
    intro p e he
    by_cases hpp : p = g.m_player
    · subst hpp
      rw [hpl] at he
      injection he with he
      subst he
      have h1 : (heap2.map Entity.destroy)[g.m_player]? = some (Entity.destroy
          { pl with cTransform := some { t with
            topLeftCornerPos := clampedPos t.topLeftCornerPos s.rect.w s.rect.h ⟨1366, 768⟩ } })
          := by
        rw [hmap, List.getElem?_map, List.getElem?_set_self hplt]; rfl
      obtain ⟨e2, he2, hd⟩ := getElem?_map_destroy rfl h1
      obtain ⟨h2, h3, h4⟩ := body_of_destroy hd
      exact ⟨e2, he2, h2, h3, fun _ => h4 ⟨⟨_, rfl⟩, s, hs⟩⟩
    · have h1 : (heap2.map Entity.destroy)[p]? = some e.destroy := by
        rw [hmap, List.getElem?_map, List.getElem?_set_ne (fun h => hpp h.symm), he]; rfl
      obtain ⟨e2, he2, hd⟩ := getElem?_map_destroy rfl h1
      exact ⟨e2, he2, body_of_destroy hd⟩
  have hv2 := valid_of_length g.m_entities heap2 h.valid hlen
  refine ⟨_, hres, updated_valid _ hv2, rfl, ?_, ?_, h.window⟩
  · intro p hp
    have hp2 : p ∈ g.m_entities.m_entities := by
      simp only [EntityManager.updated, List.mem_filter, List.mem_append] at hp
      rcases hp.1 with h1 | h1
      · exact h1
      · have h2 : p ∈ g.m_entities.m_toAdd := h1
        rw [h.pending] at h2
        simp at h2
    obtain ⟨e, he, hb⟩ := h.bodies p hp2
    obtain ⟨e2, he2, _, _, hb2⟩ := hkeep p e he
    exact ⟨e2, he2, hb2 hb⟩
  · obtain ⟨e2, he2, h2, h3, h4⟩ := hkeep _ _ hpl
    exact ⟨e2, he2, h2.trans hplTag, h4 ⟨⟨t, ht⟩, s, hs⟩, cInput, h3.trans hin⟩

theorem wellFormed_spawnEnemy (g : Game) (rand : Nat → Nat) (ticks : Nat) (h : g.WellFormed) :
    ∃ g2, Game.spawnEnemy g rand ticks = .ok g2 ∧ g2.WellFormed := by
  obtain ⟨pos, a, _, _, _, _, he⟩ :=
    spawnEnemy_spec g rand ticks h.valid h.bodies h.window.1 h.window.2
  have hbody : (spawnedEnemy g ticks pos).HasBody := by
    unfold spawnedEnemy
    split <;> exact ⟨⟨_, rfl⟩, _, rfl⟩
  have hold : ∀ (p : EntityPtr) (e : Entity), g.m_entities.heap[p]? = some e →
      (g.m_entities.heap ++ [spawnedEnemy g ticks pos])[p]? = some e := by
    intro p e hpe
    rw [List.getElem?_append_left (List.getElem?_eq_some.1 hpe).1, hpe]
  refine ⟨_, he, updated_valid _ (spawnedManager_valid g _ h.valid), rfl, ?_, ?_, h.window⟩
  · intro p hp
    simp only [EntityManager.updated, spawnedManager, EntityManager.addEntity, h.pending,
      List.nil_append, List.mem_filter, List.mem_append, List.mem_singleton] at hp
    rcases hp.1 with h1 | h1
    · obtain ⟨e, hpe, hb⟩ := h.bodies p h1
      exact ⟨e, hold p e hpe, hb⟩
    · subst h1
      exact ⟨_, spawned_heap_last g _, hbody⟩
  · obtain ⟨pl, hpl, rest⟩ := h.player
    exact ⟨pl, hold _ _ hpl, rest⟩

/-! ## The step budget of the retry loop is never used up -/

theorem bind_ne_outOfFuel {α β : Type} (x : Except Fault α) (f : α → Except Fault β)
    (hx : x ≠ .error .outOfFuel) (hf : ∀ a, f a ≠ .error .outOfFuel) :
    (x >>= f) ≠ .error .outOfFuel := by
  cases x with
  | error e =>
    intro h
    have h2 : e = Fault.outOfFuel := by simpa [bind, Except.bind] using h
    exact hx (by rw [h2])
  | ok a => exact hf a

theorem deref_ne_outOfFuel (heap : List Entity) (p : EntityPtr) :
    deref heap p ≠ .error .outOfFuel := by
  unfold deref
  split <;> simp

theorem derefTransform_ne_outOfFuel (e : Entity) : derefTransform e ≠ .error .outOfFuel := by
  unfold derefTransform
  split <;> simp

theorem derefRect_ne_outOfFuel (e : Entity) : derefRect e ≠ .error .outOfFuel := by
  unfold derefRect
  split <;> simp

theorem randMod_ne_outOfFuel (r : Nat) (bound : Int) : randMod r bound ≠ .error .outOfFuel := by
  unfold randMod
  split <;> simp

theorem detect_ne_outOfFuel (e : Entity) (ws : Vec2) :
    CollisionHelpers.detectOutOfBounds e ws ≠ .error .outOfFuel := by
  unfold CollisionHelpers.detectOutOfBounds
  split
  · simp
  · refine bind_ne_outOfFuel _ _ (derefTransform_ne_outOfFuel e) (fun tr => ?_)
    refine bind_ne_outOfFuel _ _ (derefRect_ne_outOfFuel e) (fun rect => ?_)
    simp [pure, Except.pure]

theorem calculateCollision_ne_outOfFuel (a b : Entity) :
    CollisionHelpers.calculateCollisionBetweenEntities a b ≠ .error .outOfFuel := by
  unfold CollisionHelpers.calculateCollisionBetweenEntities
  split
  · simp
  · split
    · simp
    · refine bind_ne_outOfFuel _ _ (derefRect_ne_outOfFuel a) (fun _ => ?_)
      refine bind_ne_outOfFuel _ _ (derefRect_ne_outOfFuel b) (fun _ => ?_)
      refine bind_ne_outOfFuel _ _ (derefTransform_ne_outOfFuel a) (fun _ => ?_)
      refine bind_ne_outOfFuel _ _ (derefTransform_ne_outOfFuel b) (fun _ => ?_)
      simp [pure, Except.pure]

theorem touchesAny_ne_outOfFuel (heap : List Entity) (enemy : EntityPtr) (l : EntityVector) :
    Game.touchesAny heap enemy l ≠ .error .outOfFuel := by
  induction l with
  | nil => simp [Game.touchesAny]
  | cons p rest ih =>
    unfold Game.touchesAny
    refine bind_ne_outOfFuel _ _ (deref_ne_outOfFuel heap p) (fun _ => ?_)
    refine bind_ne_outOfFuel _ _ (deref_ne_outOfFuel heap enemy) (fun _ => ?_)
    refine bind_ne_outOfFuel _ _ (calculateCollision_ne_outOfFuel _ _) (fun hit => ?_)
    cases hit
    · exact ih
    · simp [pure, Except.pure]

/-- The retry loop of `spawnEnemy` never uses up its step budget when the budget covers the
attempts that are left; `spawnSearch` starts it with budget 10 at attempt 1. -/
theorem spawnRetry_fuel (ws : Vec2) (rand : Nat → Nat) (fuel : Nat) :
    ∀ st : Game.SpawnSearch, Game.MAX_SPAWN_ATTEMPTS - st.spawnAttempt ≤ fuel →
      Game.spawnRetry ws rand fuel st ≠ .error .outOfFuel := by
  induction fuel with
  | zero =>
    intro st h
    rw [spawnRetry_done ws rand 0 st (Or.inr (by omega))]
    simp
  | succ f ih =>
    intro st h
    unfold Game.spawnRetry
    split
    · refine bind_ne_outOfFuel _ _ (randMod_ne_outOfFuel _ _) (fun _ => ?_)
      refine bind_ne_outOfFuel _ _ (randMod_ne_outOfFuel _ _) (fun _ => ?_)
      refine bind_ne_outOfFuel _ _ (deref_ne_outOfFuel _ _) (fun _ => ?_)
      refine bind_ne_outOfFuel _ _ (derefTransform_ne_outOfFuel _) (fun _ => ?_)
      refine bind_ne_outOfFuel _ _ (detect_ne_outOfFuel _ _) (fun _ => ?_)
      refine bind_ne_outOfFuel _ _ (touchesAny_ne_outOfFuel _ _ _) (fun _ => ?_)
      apply ih
      show Game.MAX_SPAWN_ATTEMPTS - (st.spawnAttempt + 1) ≤ f
      omega
    · simp

theorem spawnSearch_fuel (g : Game) (rand : Nat → Nat) (ticks : Nat) :
    Game.spawnSearch g rand ticks ≠ .error .outOfFuel := by
  unfold Game.spawnSearch
  refine bind_ne_outOfFuel _ _ (randMod_ne_outOfFuel _ _) (fun _ => ?_)
  refine bind_ne_outOfFuel _ _ (randMod_ne_outOfFuel _ _) (fun _ => ?_)
  refine bind_ne_outOfFuel _ _ (deref_ne_outOfFuel _ _) (fun _ => ?_)
  refine bind_ne_outOfFuel _ _ (detect_ne_outOfFuel _ _) (fun _ => ?_)
  refine bind_ne_outOfFuel _ _ (touchesAny_ne_outOfFuel _ _ _) (fun _ => ?_)
  apply spawnRetry_fuel
  show Game.MAX_SPAWN_ATTEMPTS - 1 ≤ Game.MAX_SPAWN_ATTEMPTS
  exact Nat.sub_le _ _

/-! ## `update` on clean states, and what a successful `update` implies -/

theorem valid_of_removeDead {heap : List Entity} {v v2 : EntityVector}
    (h : EntityManager.removeDeadEntities heap v = .ok v2) : ValidVec heap v := by
  induction v generalizing v2 with
  | nil => intro p hp; simp at hp
  | cons q rest ih =>
    unfold EntityManager.removeDeadEntities at h
    cases hq : deref heap q with
    | error f => simp [hq] at h
    | ok e =>
      cases hr : EntityManager.removeDeadEntities heap rest with
      | error f => simp [hq, hr] at h
      | ok r =>
        have hlt : q < heap.length := by
          unfold deref at hq
          cases hh : heap[q]? with
          | none => simp [hh] at hq
          | some e0 => exact (List.getElem?_eq_some.1 hh).1
        intro p hp
        rcases List.mem_cons.1 hp with h1 | h1
        · rw [h1]; exact hlt
        · exact ih hr p h1

theorem valid_of_flushPending {heap : List Entity} {toAdd : EntityVector}
    {st st2 : EntityVector × EntityMap}
    (h : EntityManager.flushPending heap toAdd st = .ok st2) : ValidVec heap toAdd := by
  induction toAdd generalizing st with
  | nil => intro p hp; simp at hp
  | cons q rest ih =>
    obtain ⟨entities, entityMap⟩ := st
    unfold EntityManager.flushPending at h
    cases hq : deref heap q with
    | error f => simp [hq] at h
    | ok e =>
      simp only [hq] at h
      have hlt : q < heap.length := by
        unfold deref at hq
        cases hh : heap[q]? with
        | none => simp [hh] at hq
        | some e0 => exact (List.getElem?_eq_some.1 hh).1
      intro p hp
      rcases List.mem_cons.1 hp with h1 | h1
      · rw [h1]; exact hlt
      · exact ih h p h1

theorem valid_of_pruneBuckets {heap : List Entity} {entityMap map2 : EntityMap}
    (h : EntityManager.pruneBuckets heap entityMap = .ok map2) :
    ∀ kv ∈ entityMap, ValidVec heap kv.2 := by
  induction entityMap generalizing map2 with
  | nil => intro kv hkv; simp at hkv
  | cons hd rest ih =>
    obtain ⟨k, v⟩ := hd
    unfold EntityManager.pruneBuckets at h
    cases hv : EntityManager.removeDeadEntities heap v with
    | error f => simp [hv] at h
    | ok v2 =>
      cases hr : EntityManager.pruneBuckets heap rest with
      | error f => simp [hv, hr] at h
      | ok r =>
        intro kv hkv
        rcases List.mem_cons.1 hkv with h1 | h1
        · rw [h1]; exact valid_of_removeDead hv
        · exact ih hr kv h1

theorem sub_pushBack (entityMap : EntityMap) (tag : String) (e : EntityPtr)
    (kv : String × EntityVector) (hkv : kv ∈ entityMap) :
    ∃ kv2 ∈ entityMap.pushBack tag e, ∀ p ∈ kv.2, p ∈ kv2.2 := by
  induction entityMap with
  | nil => simp at hkv
  | cons hd rest ih =>
    obtain ⟨k, v⟩ := hd
    by_cases hk : k = tag
    · simp only [EntityMap.pushBack, hk, if_true]
      rcases List.mem_cons.1 hkv with h1 | h1
      · refine ⟨(tag, v ++ [e]), List.mem_cons_self _ _, ?_⟩
        intro p hp
        rw [h1] at hp
        exact List.mem_append_left _ hp
      · exact ⟨kv, List.mem_cons_of_mem _ h1, fun p hp => hp⟩
    · simp only [EntityMap.pushBack, hk, if_false]
      rcases List.mem_cons.1 hkv with h1 | h1
      · exact ⟨kv, by rw [h1]; exact List.mem_cons_self _ _, fun p hp => hp⟩
      · obtain ⟨kv2, h2, h3⟩ := ih h1
        exact ⟨kv2, List.mem_cons_of_mem _ h2, h3⟩

theorem sub_pushAll (heap : List Entity) (toAdd : EntityVector) (entityMap : EntityMap)
    (kv : String × EntityVector) (hkv : kv ∈ entityMap) :
    ∃ kv2 ∈ pushAll heap entityMap toAdd, ∀ p ∈ kv.2, p ∈ kv2.2 := by
  induction toAdd generalizing entityMap kv with
  | nil => exact ⟨kv, by simpa [pushAll] using hkv, fun p hp => hp⟩
  | cons q rest ih =>
    obtain ⟨kv1, h1, h2⟩ := sub_pushBack entityMap (tagAt heap q) q kv hkv
    obtain ⟨kv2, h3, h4⟩ := ih _ kv1 h1
    exact ⟨kv2, h3, fun p hp => h4 p (h2 p hp)⟩

theorem flushPending_ok_eq {heap : List Entity} {toAdd : EntityVector}
    {st st2 : EntityVector × EntityMap}
    (h : EntityManager.flushPending heap toAdd st = .ok st2) :
    st2 = (st.1 ++ toAdd, pushAll heap st.2 toAdd) := by
  have hv := valid_of_flushPending h
  obtain ⟨entities, entityMap⟩ := st
  rw [flushPending_eq heap toAdd hv] at h
  injection h with h
  exact h.symm

theorem update_ok (m m1 : EntityManager) (h : m.update = .ok m1) :
    m.Valid ∧ m1 = m.updated := by
  have hvalid : m.Valid := by
    unfold EntityManager.update at h
    cases hf : EntityManager.flushPending m.heap m.m_toAdd (m.m_entities, m.m_entityMap) with
    | error f => simp [hf] at h
    | ok st =>
      obtain ⟨entities, entityMap⟩ := st
      have hst := flushPending_ok_eq hf
      simp only [Prod.mk.injEq] at hst
      obtain ⟨he, hm⟩ := hst
      cases hr : EntityManager.removeDeadEntities m.heap entities with
      | error f => simp [hf, hr] at h
      | ok v =>
        cases hp : EntityManager.pruneBuckets m.heap entityMap with
        | error f => simp [hf, hr, hp] at h
        | ok mp =>
          have h1 := valid_of_removeDead hr
          have h2 := valid_of_pruneBuckets hp
          rw [he] at h1
          rw [hm] at h2
          refine ⟨fun p hp => h1 p (List.mem_append_left _ hp),
            fun p hp => h1 p (List.mem_append_right _ hp), ?_⟩
          intro kv hkv p hp
          obtain ⟨kv2, h3, h4⟩ := sub_pushAll m.heap m.m_toAdd m.m_entityMap kv hkv
          exact h2 kv2 h3 p (h4 p hp)
  refine ⟨hvalid, ?_⟩
  rw [update_eq_updated m hvalid] at h
  injection h with h
  exact h.symm

theorem updated_of_clean (m : EntityManager) (hp : m.m_toAdd = [])
    (he : ∀ p ∈ m.m_entities, activeAt m.heap p = true)
    (hb : ∀ kv ∈ m.m_entityMap, ∀ p ∈ kv.2, activeAt m.heap p = true) : m.updated = m := by
  have h1 : (m.m_entities ++ m.m_toAdd).filter (activeAt m.heap) = m.m_entities := by
    rw [hp, List.append_nil, List.filter_eq_self]
    exact he
  have h2 : pruneAll m.heap (pushAll m.heap m.m_entityMap m.m_toAdd) = m.m_entityMap := by
    rw [hp]
    simp only [pushAll, List.foldl_nil, pruneAll]
    conv => rhs; rw [← List.map_id m.m_entityMap]
    apply List.map_congr_left
    intro kv hkv
    have : kv.2.filter (activeAt m.heap) = kv.2 := List.filter_eq_self.2 (hb kv hkv)
    rw [this]
    rfl
  cases m
  simp only [EntityManager.updated] at h1 h2 ⊢
  simp only [h1, h2] at *
  simp_all

theorem lt_of_activeAt {heap : List Entity} {p : EntityPtr} (h : activeAt heap p = true) :
    p < heap.length := by
  unfold activeAt at h
  cases hh : heap[p]? with
  | none => simp [hh] at h
  | some e => exact (List.getElem?_eq_some.1 hh).1

theorem update_of_clean (m : EntityManager) (hp : m.m_toAdd = [])
    (he : ∀ p ∈ m.m_entities, activeAt m.heap p = true)
    (hb : ∀ kv ∈ m.m_entityMap, ∀ p ∈ kv.2, activeAt m.heap p = true) : m.update = .ok m := by
  have hv : m.Valid := by
    refine ⟨fun p h => lt_of_activeAt (he p h), ?_, fun kv hkv p h => lt_of_activeAt (hb kv hkv p h)⟩
    rw [hp]
    intro p h
    simp at h
  rw [update_eq_updated m hv, updated_of_clean m hp he hb]

/-- C17. `update()` is a no-op on a clean state: when the pending list is empty and every
entity of the canonical list and of every tag bucket is active, `update` returns the state it
was given. Consequently, whenever `update` returns, a second `update` right after it returns
the same state. -/
theorem update_noop (m : EntityManager) :
    (m.m_toAdd = [] → (∀ p ∈ m.m_entities, activeAt m.heap p = true) →
      (∀ kv ∈ m.m_entityMap, ∀ p ∈ kv.2, activeAt m.heap p = true) → m.update = .ok m) ∧
    (∀ m1, m.update = .ok m1 → m1.update = .ok m1) := by
  refine ⟨update_of_clean m, ?_⟩
  intro m1 h
  obtain ⟨hv, rfl⟩ := update_ok m m1 h
  apply update_of_clean
  · rfl
  · intro p hp
    simp only [EntityManager.updated, List.mem_filter] at hp
    exact hp.2
  · intro kv hkv p hp
    simp only [EntityManager.updated, pruneAll, List.mem_map] at hkv
    obtain ⟨kv0, _, rfl⟩ := hkv
    exact (List.mem_filter.1 hp).2

/-! ## Creation order -/

theorem ordered_empty : EntityManager.Ordered {} := by
  refine ⟨?_, rfl, ?_⟩
  · intro p e h
    simp at h
  · simp

theorem ordered_addEntity (m : EntityManager) (tag : String) (hv : m.Valid) (h : m.Ordered) :
    (m.addEntity tag).2.Ordered := by
  refine ⟨?_, ?_, ?_⟩
  · intro p e he
    have he2 : (m.heap ++ [Entity.new m.m_totalEntities tag])[p]? = some e := he
    by_cases hp : p < m.heap.length
    · rw [List.getElem?_append_left hp] at he2
      exact h.ids p e he2
    · rw [List.getElem?_append_right (Nat.le_of_not_lt hp)] at he2
      have hp2 : p = m.heap.length := by
        by_contra hne
        have : p - m.heap.length ≠ 0 :=
          Nat.sub_ne_zero_of_lt (lt_of_le_of_ne (Nat.le_of_not_lt hp) (Ne.symm hne))
        obtain ⟨k, hk⟩ := Nat.exists_eq_succ_of_ne_zero this
        rw [hk] at he2
        simp at he2
      subst hp2
      simp only [Nat.sub_self, List.getElem?_cons_zero, Option.some.injEq] at he2
      rw [← he2]
      exact h.total
  · show m.m_totalEntities + 1 = (m.heap ++ [Entity.new m.m_totalEntities tag]).length
    rw [h.total]
    simp
  · show (m.m_entities ++ (m.m_toAdd ++ [m.heap.length])).Pairwise (fun a b => a < b)
    rw [← List.append_assoc, List.pairwise_append]
    refine ⟨h.sorted, List.pairwise_singleton _ _, ?_⟩
    intro a ha b hb
    rw [List.mem_singleton] at hb
    rw [hb]
    rcases List.mem_append.1 ha with h1 | h1
    · exact hv.entities a h1
    · exact hv.toAdd a h1

theorem ordered_destroy (m m2 : EntityManager) (p : EntityPtr) (h : m.Ordered)
    (hd : m.destroy p = .ok m2) : m2.Ordered := by
  obtain ⟨e, he, rfl⟩ := destroy_heap m m2 p hd
  have hp : p < m.heap.length := (List.getElem?_eq_some.1 he).1
  refine ⟨?_, ?_, h.sorted⟩
  · intro q e2 he2
    have he3 : (m.heap.set p e.destroy)[q]? = some e2 := he2
    by_cases hq : p = q
    · subst hq
      rw [List.getElem?_set_self hp] at he3
      injection he3 with he3
      rw [← he3]
      exact h.ids p e he
    · rw [List.getElem?_set_ne hq] at he3
      exact h.ids q e2 he3
  · show m.m_totalEntities = (m.heap.set p e.destroy).length
    rw [List.length_set]
    exact h.total

theorem ordered_updated (m : EntityManager) (h : m.Ordered) : m.updated.Ordered := by
  refine ⟨h.ids, h.total, ?_⟩
  show (((m.m_entities ++ m.m_toAdd).filter (activeAt m.heap)) ++ []).Pairwise _
  rw [List.append_nil]
  exact h.sorted.filter _

theorem ordered_of_reachable (m : EntityManager) (h : m.Reachable) : m.Ordered := by
  induction h with
  | empty => exact ordered_empty
  | addEntity m tag hr ih => exact ordered_addEntity m tag (inv_of_reachable m hr).valid ih
  | destroy m m2 p _ hd ih => exact ordered_destroy m m2 p ih hd
  | update m m2 _ hu ih =>
    obtain ⟨_, rfl⟩ := update_ok m m2 hu
    exact ordered_updated m ih
  | getEntities m tag _ ih => exact ⟨ih.ids, ih.total, ih.sorted⟩
  | setComponents m p e e2 _ he hid _ _ ih =>
    have hp : p < m.heap.length := (List.getElem?_eq_some.1 he).1
    refine ⟨?_, ?_, ih.sorted⟩
    · intro q e3 he3
      have he4 : (m.heap.set p e2)[q]? = some e3 := he3
      by_cases hq : p = q
      · subst hq
        rw [List.getElem?_set_self hp] at he4
        injection he4 with he4
        rw [← he4]
        exact hid.trans (ih.ids p e he)
      · rw [List.getElem?_set_ne hq] at he4
        exact ih.ids q e3 he4
    · show m.m_totalEntities = (m.heap.set p e2).length
      rw [List.length_set]
      exact ih.total

theorem map_idAt_of_valid (m : EntityManager) (h : m.Ordered) (l : EntityVector)
    (hl : ValidVec m.heap l) : l.map (idAt m.heap) = l := by
  conv => rhs; rw [← List.map_id l]
  apply List.map_congr_left
  intro p hp
  have hlt := hl p hp
  simp only [idAt, List.getElem?_eq_getElem hlt, id]
  exact h.ids p _ (List.getElem?_eq_getElem hlt)

/-- C19. Insertion order is kept. In every manager state reached from the empty manager, the
canonical list, every tag bucket and the pending list are strictly increasing in entity id
(creation order), with every pending entity created after every canonical one; and `update`
returns a state whose canonical list is the surviving entities of the old list in their old
order, followed by the surviving pending entities in the order they were created, and
likewise for every bucket. -/
theorem insertion_order (m : EntityManager) (h : m.Reachable) :
    (m.m_entities.map (idAt m.heap)).Pairwise (fun a b => a < b) ∧
    (∀ kv ∈ m.m_entityMap, (kv.2.map (idAt m.heap)).Pairwise (fun a b => a < b)) ∧
    (m.m_toAdd.map (idAt m.heap)).Pairwise (fun a b => a < b) ∧
    (∀ p ∈ m.m_entities, ∀ q ∈ m.m_toAdd, idAt m.heap p < idAt m.heap q) ∧
    ∃ m2, m.update = .ok m2 ∧
      m2.m_entities = m.m_entities.filter (activeAt m.heap) ++
        m.m_toAdd.filter (activeAt m.heap) ∧
      ∀ tag, m2.m_entityMap.bucket tag =
        (m.m_entityMap.bucket tag).filter (activeAt m.heap) ++
          (m.m_toAdd.filter (fun p => decide (tagAt m.heap p = tag))).filter (activeAt m.heap) := by
  have hinv := inv_of_reachable m h
  have hord := ordered_of_reachable m h
  have hsorted := List.pairwise_append.1 hord.sorted
  have hid : ∀ p, p ∈ m.m_entities ∨ p ∈ m.m_toAdd → idAt m.heap p = p := by
    intro p hp
    have hlt : p < m.heap.length := by
      rcases hp with hp | hp
      · exact hinv.valid.entities p hp
      · exact hinv.valid.toAdd p hp
    simp only [idAt, List.getElem?_eq_getElem hlt]
    exact hord.ids p _ (List.getElem?_eq_getElem hlt)
  refine ⟨?_, ?_, ?_, ?_, m.updated, update_eq_updated m hinv.valid, ?_, ?_⟩
  · rw [map_idAt_of_valid m hord _ hinv.valid.entities]
    exact hsorted.1
  · intro kv hkv
    rw [map_idAt_of_valid m hord _ (hinv.valid.buckets kv hkv)]
    rw [← bucket_of_mem _ hinv.keys kv hkv, hinv.buckets kv.1]
    exact hsorted.1.filter _
  · rw [map_idAt_of_valid m hord _ hinv.valid.toAdd]
    exact hsorted.2.1
  · intro p hp q hq
    rw [hid p (Or.inl hp), hid q (Or.inr hq)]
    exact hsorted.2.2 p hp q hq
  · simp only [EntityManager.updated, List.filter_append]
  · intro tag
    simp only [EntityManager.updated, bucket_pruneAll, bucket_pushAll, List.filter_append]

theorem reachable_staggered : EntityManager.Reachable Examples.staggered :=
  EntityManager.Reachable.addEntity _ EntityTags.Player
    (EntityManager.Reachable.addEntity _ EntityTags.Enemy
      (EntityManager.Reachable.destroy Examples.threeListed Examples.firstDestroyed 0
        (EntityManager.Reachable.update Examples.threePending Examples.threeListed
          (EntityManager.Reachable.addEntity _ EntityTags.Enemy
            (EntityManager.Reachable.addEntity _ EntityTags.Player
              (EntityManager.Reachable.addEntity _ EntityTags.Enemy
                EntityManager.Reachable.empty)))
          (by decide))
        (by decide)))

/-- C19 at a concrete state: the canonical list is `[0, 1, 2]` with entity 0 destroyed, the
buckets are `[0, 2]` for `Enemy` and `[1]` for `Player`, and entities 3 (`Enemy`) and 4
(`Player`) are pending. The ids along the canonical list are 0, 1, 2, along the buckets 0, 2
and 1, along the pending list 3, 4; `update` returns the canonical list `[1, 2, 3, 4]` and the
buckets `[2, 3]` and `[1, 4]`: the survivors in their old order, then the flushed entities in
creation order. -/
theorem insertion_order_witness :
    Examples.staggered.m_entities.map (idAt Examples.staggered.heap) = [0, 1, 2] ∧
    (Examples.staggered.m_entities.map (idAt Examples.staggered.heap)).Pairwise
      (fun a b => a < b) ∧
    Examples.staggered.m_entityMap = [(EntityTags.Enemy, [0, 2]), (EntityTags.Player, [1])] ∧
    (∀ kv ∈ Examples.staggered.m_entityMap,
      (kv.2.map (idAt Examples.staggered.heap)).Pairwise (fun a b => a < b)) ∧
    Examples.staggered.m_toAdd.map (idAt Examples.staggered.heap) = [3, 4] ∧
    (Examples.staggered.m_toAdd.map (idAt Examples.staggered.heap)).Pairwise
      (fun a b => a < b) ∧
    (∀ p ∈ Examples.staggered.m_entities, ∀ q ∈ Examples.staggered.m_toAdd,
      idAt Examples.staggered.heap p < idAt Examples.staggered.heap q) ∧
    ∃ m2, Examples.staggered.update = .ok m2 ∧
      m2.m_entities = [1, 2, 3, 4] ∧
      m2.m_entityMap.bucket EntityTags.Enemy = [2, 3] ∧
      m2.m_entityMap.bucket EntityTags.Player = [1, 4] := by
  obtain ⟨h1, h2, h3, h4, m2, hu, hl, hb⟩ := insertion_order Examples.staggered
    reachable_staggered
  refine ⟨by decide, h1, by decide, h2, by decide, h3, h4, m2, hu, ?_, ?_, ?_⟩
  · rw [hl]
    decide
  · rw [hb EntityTags.Enemy]
    decide
  · rw [hb EntityTags.Player]
    decide

/-! ## `addEntity` and the tag query -/

theorem getElem?_append_length {α : Type} (l : List α) (a : α) :
    (l ++ [a])[l.length]? = some a := by
  simp

theorem mem_touch_of_mem (entityMap : EntityMap) (tag : String) (kv : String × EntityVector)
    (hkv : kv ∈ entityMap) : kv ∈ entityMap.touch tag := by
  induction entityMap with
  | nil => simp at hkv
  | cons hd rest ih =>
    obtain ⟨k, v⟩ := hd
    by_cases hk : k = tag
    · simpa [EntityMap.touch, hk] using hkv
    · simp only [EntityMap.touch, hk, if_false]
      rcases List.mem_cons.1 hkv with h1 | h1
      · rw [h1]; exact List.mem_cons_self _ _
      · exact List.mem_cons_of_mem _ (ih h1)

/-- C16. `addEntity` is deferred. On a manager whose pointers are valid, the call returns a
pointer to a new active entity with the given tag and no components, whose id is
`m_totalEntities`; the next call of `addEntity` gets the id one greater (`update` and
`destroy` do not change the counter); the pointer is appended to the end of the pending list;
the canonical list and the tag map are unchanged, and the new pointer is in neither; the next
`update` returns and has the entity in the canonical list and in the bucket of its tag. In a
state reached from the empty manager the ids of the entity objects, in creation order, are
0, 1, 2, ... -/
theorem addEntity_deferred (m : EntityManager) (tag : String) (hv : m.Valid) :
    (m.addEntity tag).2.heap[(m.addEntity tag).1]? = some (Entity.new m.m_totalEntities tag) ∧
    (Entity.new m.m_totalEntities tag).isActive = true ∧
    (Entity.new m.m_totalEntities tag).tag = tag ∧
    (Entity.new m.m_totalEntities tag).id = m.m_totalEntities ∧
    (∀ tag2, ((m.addEntity tag).2.addEntity tag2).2.heap[((m.addEntity tag).2.addEntity tag2).1]?
      = some (Entity.new (m.m_totalEntities + 1) tag2)) ∧
    (∀ m1, m.update = .ok m1 → m1.m_totalEntities = m.m_totalEntities) ∧
    (∀ p m1, m.destroy p = .ok m1 → m1.m_totalEntities = m.m_totalEntities) ∧
    (m.addEntity tag).2.m_toAdd = m.m_toAdd ++ [(m.addEntity tag).1] ∧
    (m.addEntity tag).2.m_entities = m.m_entities ∧
    (m.addEntity tag).2.m_entityMap = m.m_entityMap ∧
    (m.addEntity tag).1 ∉ m.m_entities ∧
    (∀ kv ∈ m.m_entityMap, (m.addEntity tag).1 ∉ kv.2) ∧
    (∃ m1, (m.addEntity tag).2.update = .ok m1 ∧
      (m.addEntity tag).1 ∈ m1.m_entities ∧
      (m.addEntity tag).1 ∈ m1.m_entityMap.bucket tag) ∧
    (m.Reachable → m.m_totalEntities = m.heap.length ∧
      m.heap.map Entity.id = List.range m.heap.length) := by
  have hnew : (m.heap ++ [Entity.new m.m_totalEntities tag])[m.heap.length]? =
      some (Entity.new m.m_totalEntities tag) := by simp
  have hv2 : (m.addEntity tag).2.Valid := by
    have hlen : (m.heap ++ [Entity.new m.m_totalEntities tag]).length = m.heap.length + 1 := by
      simp
    refine ⟨?_, ?_, ?_⟩
    · intro p hp
      show p < (m.heap ++ [Entity.new m.m_totalEntities tag]).length
      rw [hlen]; exact Nat.lt_succ_of_lt (hv.entities p hp)
    · intro p hp
      show p < (m.heap ++ [Entity.new m.m_totalEntities tag]).length
      have hp2 : p ∈ m.m_toAdd ++ [m.heap.length] := hp
      rcases List.mem_append.1 hp2 with h | h
      · rw [hlen]; exact Nat.lt_succ_of_lt (hv.toAdd p h)
      · rw [List.mem_singleton] at h
        rw [hlen, h]; exact Nat.lt_succ_self _
    · intro kv hkv p hp
      show p < (m.heap ++ [Entity.new m.m_totalEntities tag]).length
      rw [hlen]; exact Nat.lt_succ_of_lt (hv.buckets kv hkv p hp)
  have hact : activeAt (m.addEntity tag).2.heap m.heap.length = true := by
    show activeAt (m.heap ++ [Entity.new m.m_totalEntities tag]) m.heap.length = true
    simp only [activeAt, hnew]
    rfl
  have htag : tagAt (m.addEntity tag).2.heap m.heap.length = tag := by
    show tagAt (m.heap ++ [Entity.new m.m_totalEntities tag]) m.heap.length = tag
    simp only [tagAt, hnew]
    rfl
  refine ⟨hnew, rfl, rfl, rfl, ?_, ?_, ?_, rfl, rfl, rfl, ?_, ?_, ?_, ?_⟩
  · intro tag2
    exact getElem?_append_length (m.heap ++ [Entity.new m.m_totalEntities tag])
      (Entity.new (m.m_totalEntities + 1) tag2)
  · intro m1 h
    obtain ⟨_, rfl⟩ := update_ok m m1 h
    rfl
  · intro p m1 h
    obtain ⟨e, _, rfl⟩ := destroy_heap m m1 p h
    rfl
  · intro h
    exact Nat.lt_irrefl _ (hv.entities _ h)
  · intro kv hkv h
    exact Nat.lt_irrefl _ (hv.buckets kv hkv _ h)
  · refine ⟨_, update_eq_updated _ hv2, ?_, ?_⟩
    · show m.heap.length ∈ ((m.m_entities ++ (m.m_toAdd ++ [m.heap.length])).filter _)
      rw [List.mem_filter]
      exact ⟨by simp, hact⟩
    · show m.heap.length ∈ (pruneAll _ (pushAll _ m.m_entityMap (m.m_toAdd ++ [m.heap.length]))).bucket tag
      rw [bucket_pruneAll, bucket_pushAll, List.mem_filter]
      refine ⟨List.mem_append_right _ ?_, hact⟩
      rw [List.mem_filter]
      exact ⟨by simp, by simp [htag]⟩
  · intro hr
    have hord := ordered_of_reachable m hr
    refine ⟨hord.total, ?_⟩
    apply List.ext_getElem?
    intro i
    rw [List.getElem?_map]
    by_cases hi : i < m.heap.length
    · rw [List.getElem?_eq_getElem hi, List.getElem?_range hi]
      simp only [Option.map_some']
      rw [hord.ids i _ (List.getElem?_eq_getElem hi)]
    · rw [List.getElem?_eq_none (Nat.le_of_not_lt hi), List.getElem?_eq_none]
      · rfl
      · simpa using Nat.le_of_not_lt hi

/-- C16 at a concrete state: `addEntity(Enemy)` on the manager that holds a pending player. -/
theorem addEntity_deferred_witness :
    (({} : EntityManager).addEntity EntityTags.Player).2.m_totalEntities = 1 ∧
    ((({} : EntityManager).addEntity EntityTags.Player).2.addEntity EntityTags.Enemy).2.heap[1]?
      = some (Entity.new 1 EntityTags.Enemy) ∧
    ((({} : EntityManager).addEntity EntityTags.Player).2.addEntity EntityTags.Enemy).2.m_toAdd
      = [0, 1] ∧
    ∃ m1, ((({} : EntityManager).addEntity EntityTags.Player).2.addEntity
        EntityTags.Enemy).2.update = .ok m1 ∧ 1 ∈ m1.m_entities ∧
      1 ∈ m1.m_entityMap.bucket EntityTags.Enemy := by
  have h := addEntity_deferred (({} : EntityManager).addEntity EntityTags.Player).2
    EntityTags.Enemy
    ⟨by unfold ValidVec; decide, by unfold ValidVec; decide, by unfold ValidVec; decide⟩
  exact ⟨rfl, h.1, h.2.2.2.2.2.2.2.1, h.2.2.2.2.2.2.2.2.2.2.2.2.1⟩

/-- C17 at concrete states: `update` on the clean manager that holds one active player, and
two calls of `update` on a manager with a destroyed pending entity. -/
theorem update_noop_witness :
    (Examples.playerAlone 0 0 {}).m_entities.update = .ok (Examples.playerAlone 0 0 {}).m_entities ∧
    ∀ m1, Examples.pendingDestroyed.update = .ok m1 → m1.update = .ok m1 :=
  ⟨(update_noop (Examples.playerAlone 0 0 {}).m_entities).1 rfl (by decide) (by decide),
    (update_noop Examples.pendingDestroyed).2⟩

/-- C18. The tag query is total. In a manager state reached from the empty manager, for a tag
that no entity of the canonical list has, `getEntities(tag)` returns the empty sequence; the
heap, the canonical list, the pending list and the counter are unchanged, every bucket of the
map is still there with the same content, and the bucket of every tag is what it was. -/
theorem getEntities_unknown_tag (m : EntityManager) (tag : String) (h : m.Reachable)
    (hno : ∀ p ∈ m.m_entities, ∀ e, m.heap[p]? = some e → e.tag ≠ tag) :
    (m.getEntitiesByTag tag).1 = [] ∧
    (m.getEntitiesByTag tag).2.heap = m.heap ∧
    (m.getEntitiesByTag tag).2.m_entities = m.m_entities ∧
    (m.getEntitiesByTag tag).2.m_toAdd = m.m_toAdd ∧
    (m.getEntitiesByTag tag).2.m_totalEntities = m.m_totalEntities ∧
    (∀ kv ∈ m.m_entityMap, kv ∈ (m.getEntitiesByTag tag).2.m_entityMap) ∧
    (∀ kv ∈ (m.getEntitiesByTag tag).2.m_entityMap, kv ∈ m.m_entityMap ∨ kv = (tag, [])) ∧
    (∀ t, (m.getEntitiesByTag tag).2.m_entityMap.bucket t = m.m_entityMap.bucket t) := by
  have hinv := inv_of_reachable m h
  refine ⟨?_, rfl, rfl, rfl, rfl, ?_, fun kv hkv => mem_touch hkv, fun t => bucket_touch _ _ _⟩
  · show m.m_entityMap.bucket tag = []
    rw [hinv.buckets tag, List.filter_eq_nil_iff]
    intro p hp
    have hlt := hinv.valid.entities p hp
    have := hno p hp _ (List.getElem?_eq_getElem hlt)
    simp only [tagAt, List.getElem?_eq_getElem hlt, decide_eq_true_eq]
    exact this
  · intro kv hkv
    exact mem_touch_of_mem _ _ kv hkv

/-- C18 at a concrete state: the query for a tag never used, on the manager that holds a
player and an enemy in its canonical list. -/
theorem getEntities_unknown_tag_witness :
    (Examples.twoListed.getEntitiesByTag "Bullet").1 = [] ∧
    (Examples.twoListed.getEntitiesByTag "Bullet").2.m_entities = [0, 1] ∧
    ∀ t, (Examples.twoListed.getEntitiesByTag "Bullet").2.m_entityMap.bucket t
      = Examples.twoListed.m_entityMap.bucket t := by
  have hr : Examples.twoListed.Reachable :=
    EntityManager.Reachable.update Examples.twoPending _
      (EntityManager.Reachable.addEntity _ EntityTags.Enemy
        (EntityManager.Reachable.addEntity _ EntityTags.Player EntityManager.Reachable.empty))
      (by decide)
  have h := getEntities_unknown_tag Examples.twoListed "Bullet" hr
    (by
      intro p hp e he
      have hp2 : p = 0 ∨ p = 1 := by simpa [Examples.twoListed] using hp
      rcases hp2 with rfl | rfl
      · have he2 : some (Entity.new 0 EntityTags.Player) = some e := he
        injection he2 with he2
        rw [← he2]
        decide
      · have he2 : some (Entity.new 1 EntityTags.Enemy) = some e := he
        injection he2 with he2
        rw [← he2]
        decide)
  exact ⟨h.1, h.2.2.1, h.2.2.2.2.2.2.2⟩

/-! ## The lifespan phase -/

theorem sub32_of_le (now birth : Nat) (h1 : birth ≤ now) (h2 : now < 2 ^ 32) :
    sub32 now birth = now - birth := by
  unfold sub32
  have hb : birth < 2 ^ 32 := Nat.lt_of_le_of_lt h1 h2
  rw [Nat.mod_eq_of_lt h2, Nat.mod_eq_of_lt hb]
  have : now + 2 ^ 32 - birth = (now - birth) + 2 ^ 32 := by omega
  rw [this, Nat.add_mod_right, Nat.mod_eq_of_lt]
  omega

theorem lifespanLoop_spec (now : Nat) (G : List Entity) (l : EntityVector)
    (hl : ∀ p ∈ l, ∃ e, G[p]? = some e)
    (heap : List Entity) (calls : Nat) (hG : heap.map Entity.destroy = G) :
    ∃ heap2 calls2, Game.lifespanLoop (fun _ => now) (heap, calls) l = .ok (heap2, calls2) ∧
      heap2.map Entity.destroy = G ∧
      ∀ q, activeAt heap2 q = (activeAt heap q && !(decide (q ∈ l) && expiredAt G now q)) := by
  induction l generalizing heap calls with
  | nil => exact ⟨heap, calls, by simp [Game.lifespanLoop], hG, by simp⟩
  | cons p rest ih =>
    have hrest : ∀ p ∈ rest, ∃ e, G[p]? = some e := fun q hq => hl q (List.mem_cons_of_mem _ hq)
    obtain ⟨e, heG⟩ := hl p (List.mem_cons_self _ _)
    obtain ⟨e0, he0, hde⟩ := getElem?_map_destroy hG heG
    have htag : e0.tag = e.tag := by rw [← hde]; rfl
    have hls : e0.cLifespan = e.cLifespan := by rw [← hde]; rfl
    -- the two ways in which the loop goes on without a write
    have hskip : expiredAt G now p = false →
        Game.lifespanLoop (fun _ => now) (heap, calls) (p :: rest) =
          Game.lifespanLoop (fun _ => now) (heap, calls) rest ∨
        Game.lifespanLoop (fun _ => now) (heap, calls) (p :: rest) =
          Game.lifespanLoop (fun _ => now) (heap, calls + 1) rest := by
      intro hex
      by_cases hP : e0.tag = EntityTags.Player
      · left
        simp only [Game.lifespanLoop, deref, he0, hP, if_true, bind, Except.bind]
      · cases hc : e0.cLifespan with
        | none =>
          left
          simp only [Game.lifespanLoop, deref, he0, hP, if_false, bind, Except.bind, hc]
        | some c =>
          right
          have hnot : ¬ sub32 now c.birthTime > c.lifespan := by
            have hP2 : ¬ e.tag = EntityTags.Player := htag ▸ hP
            simpa [expiredAt, heG, hP2, ← hls, hc] using hex
          simp only [Game.lifespanLoop, deref, he0, hP, if_false, bind, Except.bind, hc, hnot]
    cases hex : expiredAt G now p with
    | false =>
      have key : ∀ c, ∃ heap2 calls2,
          Game.lifespanLoop (fun _ => now) (heap, c) rest = .ok (heap2, calls2) ∧
          heap2.map Entity.destroy = G ∧
          ∀ q, activeAt heap2 q =
            (activeAt heap q && !(decide (q ∈ p :: rest) && expiredAt G now q)) := by
        intro c
        obtain ⟨heap2, calls2, h1, h2, h3⟩ := ih hrest heap c hG
        refine ⟨heap2, calls2, h1, h2, ?_⟩
        intro q
        rw [h3 q]
        by_cases hq : q = p
        · subst hq; simp [hex]
        · simp [hq]
      rcases hskip hex with h | h
      · rw [h]; exact key calls
      · rw [h]; exact key (calls + 1)
    | true =>
      have hP : ¬ e0.tag = EntityTags.Player := by
        intro hP
        have hP2 : e.tag = EntityTags.Player := htag ▸ hP
        simp [expiredAt, heG, hP2] at hex
      have hP2 : ¬ e.tag = EntityTags.Player := htag ▸ hP
      cases hc : e0.cLifespan with
      | none =>
        simp [expiredAt, heG, hP2, ← hls, hc] at hex
      | some c =>
        have hgt : sub32 now c.birthTime > c.lifespan := by
          simpa [expiredAt, heG, hP2, ← hls, hc] using hex
        have hG2 : (heap.set p e0.destroy).map Entity.destroy = G := by
          rw [map_destroy_set he0, hG]
        obtain ⟨heap2, calls2, h1, h2, h3⟩ := ih hrest (heap.set p e0.destroy) (calls + 1) hG2
        refine ⟨heap2, calls2, ?_, h2, ?_⟩
        · simp only [Game.lifespanLoop, deref, he0, hP, if_false, bind, Except.bind, hc, hgt,
            if_true, h1]
        · intro q
          rw [h3 q, activeAt_set_destroy he0]
          by_cases hq : q = p
          · subst hq; simp [hex]
          · simp [hq]

theorem sLifespan_spec (g : Game) (now : Nat)
    (hv : ValidVec g.m_entities.heap g.m_entities.m_entities) :
    ∃ heap2, g.sLifespan (fun _ => now) =
        .ok { g with m_entities := { g.m_entities with heap := heap2 } } ∧
      heap2.map Entity.destroy = g.m_entities.heap.map Entity.destroy ∧
      ∀ q, activeAt heap2 q = (activeAt g.m_entities.heap q &&
        !(decide (q ∈ g.m_entities.m_entities) &&
          expiredAt (g.m_entities.heap.map Entity.destroy) now q)) := by
  have hl : ∀ p ∈ g.m_entities.m_entities,
      ∃ e, (g.m_entities.heap.map Entity.destroy)[p]? = some e := by
    intro p hp
    have hlt := hv p hp
    exact ⟨_, by rw [List.getElem?_map, List.getElem?_eq_getElem hlt]; rfl⟩
  obtain ⟨heap2, calls2, h1, h2, h3⟩ :=
    lifespanLoop_spec now _ g.m_entities.m_entities hl g.m_entities.heap 0 rfl
  refine ⟨heap2, ?_, h2, h3⟩
  simp only [Game.sLifespan, EntityManager.getEntities, h1, bind, Except.bind, pure, Except.pure]

/-- C11. Lifespan expiry. Let the pointers of the canonical list be valid and let every
reading of the clock during the phase be `now`. Then `sLifespan` returns, changes nothing but
active flags, and for every entity of the canonical list: without a lifespan component, or
tagged `Player`, its active flag is unchanged; a hazard with birth time T and duration D is
inactive afterwards if the `Uint32` difference `now - T` exceeds D, and keeps its flag if not;
for `T <= now < 2^32` that difference is `now - T`. So a hazard of duration 30000 born at T is
destroyed at `T + 30001` and not at `T + 29999` or `T + 30000`. -/
theorem sLifespan_expiry (g : Game) (now : Nat)
    (hv : ValidVec g.m_entities.heap g.m_entities.m_entities) :
    (∃ g2, g.sLifespan (fun _ => now) = .ok g2 ∧
      g2 = { g with m_entities := { g.m_entities with heap := g2.m_entities.heap } } ∧
      ∀ p ∈ g.m_entities.m_entities, ∀ e, g.m_entities.heap[p]? = some e →
        ∃ e2, g2.m_entities.heap[p]? = some e2 ∧ e2.destroy = e.destroy ∧
          (e.cLifespan = none → e2.isActive = e.isActive) ∧
          (e.tag = EntityTags.Player → e2.isActive = e.isActive) ∧
          ∀ c, e.tag ≠ EntityTags.Player → e.cLifespan = some c →
            (sub32 now c.birthTime > c.lifespan → e2.isActive = false) ∧
            (¬ sub32 now c.birthTime > c.lifespan → e2.isActive = e.isActive) ∧
            (c.birthTime ≤ now → now < 2 ^ 32 →
              (now - c.birthTime > c.lifespan → e2.isActive = false) ∧
              (¬ now - c.birthTime > c.lifespan → e2.isActive = e.isActive))) ∧
    (∀ T, T + 30001 < 2 ^ 32 →
      sub32 (T + 30001) T > 30000 ∧ ¬ sub32 (T + 29999) T > 30000 ∧
        ¬ sub32 (T + 30000) T > 30000) ∧
    ((Examples.playerAndHazardBorn 1000).sLifespan (fun _ => 31001)).map
      (fun g2 => g2.m_entities.heap.map Entity.isActive) = .ok [true, false] ∧
    ((Examples.playerAndHazardBorn 1000).sLifespan (fun _ => 30999)).map
      (fun g2 => g2.m_entities.heap.map Entity.isActive) = .ok [true, true] ∧
    ((Examples.playerAndHazardBorn 1000).sLifespan (fun _ => 31000)).map
      (fun g2 => g2.m_entities.heap.map Entity.isActive) = .ok [true, true] := by
  refine ⟨?_, ?_, by decide, by decide, by decide⟩
  · obtain ⟨heap2, hres, hmap, hact⟩ := sLifespan_spec g now hv
    refine ⟨_, hres, rfl, ?_⟩
    intro p hp e he
    have hG : (g.m_entities.heap.map Entity.destroy)[p]? = some e.destroy := by
      rw [List.getElem?_map, he]; rfl
    obtain ⟨e2, he2, hd⟩ := getElem?_map_destroy hmap hG
    have hq := hact p
    have ha2 : activeAt heap2 p = e2.isActive := by simp only [activeAt, he2]
    have ha : activeAt g.m_entities.heap p = e.isActive := by simp only [activeAt, he]
    rw [ha2, ha] at hq
    have hexp : expiredAt (g.m_entities.heap.map Entity.destroy) now p =
        (decide (e.tag ≠ EntityTags.Player) &&
          (match e.cLifespan with
           | some c => decide (sub32 now c.birthTime > c.lifespan)
           | none => false)) := by
      simp only [expiredAt, hG]
      rfl
    rw [hexp] at hq
    refine ⟨e2, he2, hd, ?_, ?_, ?_⟩
    · intro hn
      rw [hq, hn]; simp
    · intro ht
      rw [hq]; simp [ht]
    · intro c ht hc
      have h1 : sub32 now c.birthTime > c.lifespan → e2.isActive = false := by
        intro h
        rw [hq, hc]; simp [ht, hp, h]
      have h2 : ¬ sub32 now c.birthTime > c.lifespan → e2.isActive = e.isActive := by
        intro h
        rw [hq, hc]; simp [h]
      refine ⟨h1, h2, ?_⟩
      intro hle hlt
      rw [← sub32_of_le now c.birthTime hle hlt]
      exact ⟨h1, h2⟩
  · intro T hT
    rw [sub32_of_le _ _ (by omega) hT, sub32_of_le _ _ (by omega) (by omega),
      sub32_of_le _ _ (by omega) (by omega)]
    omega

/-- C11 at a concrete state: a hazard of duration 30000 born at 1000, next to the player, when
the phase runs at 31001. -/
theorem sLifespan_expiry_witness :
    ∃ g2, (Examples.playerAndHazardBorn 1000).sLifespan (fun _ => 31001) = .ok g2 ∧
      ∃ e2, g2.m_entities.heap[1]? = some e2 ∧ e2.isActive = false := by
  obtain ⟨⟨g2, h, _, hall⟩, _⟩ := sLifespan_expiry (Examples.playerAndHazardBorn 1000) 31001
    (by unfold ValidVec; decide)
  obtain ⟨e2, he2, _, _, _, h3⟩ := hall 1 (by decide) (enemyAt 1 ⟨500, 500⟩ 1000) rfl
  exact ⟨g2, h, e2, he2, (h3 (CLifespan.new 30000 1000) (by decide) rfl).1 (by decide)⟩

/-! ## The precondition check of the collision helpers -/

/-- C13, the code at the failing input. `hasNullComponentPointers` looks at the transform
only: for an entity with a transform and no shape it answers `false`, and `detectOutOfBounds`,
`enforceNonPlayerBounds` (with a flag that needs the extent) and
`calculateCollisionBetweenEntities` (on either side) go on to dereference the null `cShape`
instead of raising the error "lacks a transform or collision component", while
`enforcePlayerBounds` and `enforceNonPlayerBounds` with no flag set return normally. An
entity without a transform does get the error. -/
theorem missing_shape_unchecked :
    hasNullComponentPointers (Examples.shapeless 10 10) = false ∧
    CollisionHelpers.detectOutOfBounds (Examples.shapeless 10 10) ⟨1366, 768⟩ =
      .error .nullDereference ∧
    CollisionHelpers.calculateCollisionBetweenEntities (Examples.shapeless 10 10)
      (Examples.hazardAt 1 20 20 0 0) = .error .nullDereference ∧
    CollisionHelpers.calculateCollisionBetweenEntities (Examples.hazardAt 1 20 20 0 0)
      (Examples.shapeless 10 10) = .error .nullDereference ∧
    CollisionHelpers.enforceNonPlayerBounds (Examples.shapeless 10 10) ⟨false, true, false, false⟩
      ⟨1366, 768⟩ = .error .nullDereference ∧
    CollisionHelpers.enforcePlayerBounds (Examples.shapeless 10 10) ⟨false, true, false, false⟩
      ⟨1366, 768⟩ = .error .nullDereference ∧
    CollisionHelpers.enforcePlayerBounds (Examples.shapeless 10 10) {} ⟨1366, 768⟩ =
      .ok (Examples.shapeless 10 10) ∧
    CollisionHelpers.enforceNonPlayerBounds (Examples.shapeless 10 10) {} ⟨1366, 768⟩ =
      .ok (Examples.shapeless 10 10) ∧
    CollisionHelpers.detectOutOfBounds (Entity.new 7 EntityTags.Enemy) ⟨1366, 768⟩ =
      .error (.missingComponent EntityTags.Enemy 7) := by
  decide

/-! ## The frame of the movement step -/

theorem movementLoop_exact (v : Vec2) (l : EntityVector) (hnd : l.Nodup) (heap : List Entity)
    (hl : ∀ p ∈ l, ∃ e t, heap[p]? = some e ∧ e.cTransform = some t) :
    ∃ heap2, Game.movementLoop v heap l = .ok heap2 ∧ heap2.length = heap.length ∧
      ∀ (q : EntityPtr) (e : Entity), heap[q]? = some e →
        heap2[q]? = some (if q ∈ l ∧ e.tag = EntityTags.Player then e.moved v else e) := by
  induction l generalizing heap with
  | nil => exact ⟨heap, rfl, rfl, fun q e he => by simpa using he⟩
  | cons p rest ih =>
    obtain ⟨hpn, hnd2⟩ := List.nodup_cons.1 hnd
    obtain ⟨e0, tr, he0, htr⟩ := hl p (List.mem_cons_self _ _)
    have hplt : p < heap.length := (List.getElem?_eq_some.1 he0).1
    by_cases hP : e0.tag = EntityTags.Player
    · have hmv : ({ e0 with cTransform := some { tr with
          topLeftCornerPos := tr.topLeftCornerPos.add (v.scale 2) } } : Entity) = e0.moved v := by
        simp [Entity.moved, htr, Vec2.add, Vec2.scale, mul_comm]
      have hl2 : ∀ r ∈ rest, ∃ e t, (heap.set p (e0.moved v))[r]? = some e ∧
          e.cTransform = some t := by
        intro r hr
        have hne : p ≠ r := fun h => hpn (h ▸ hr)
        rw [List.getElem?_set_ne hne]
        exact hl r (List.mem_cons_of_mem _ hr)
      obtain ⟨heap2, h1, h2, h3⟩ := ih hnd2 _ hl2
      refine ⟨heap2, ?_, ?_, ?_⟩
      · simp only [Game.movementLoop, deref, he0, htr, hP, if_true, bind, Except.bind, hmv, h1]
      · rw [h2, List.length_set]
      · intro q e he
        by_cases hq : p = q
        · subst hq
          rw [he0] at he
          injection he with he
          subst he
          rw [h3 p (e0.moved v) (List.getElem?_set_self hplt)]
          simp [hpn, hP]
        · have hq2 : ¬ q = p := fun h => hq h.symm
          rw [h3 q e (by rw [List.getElem?_set_ne hq]; exact he)]
          simp [hq2]
    · obtain ⟨heap2, h1, h2, h3⟩ := ih hnd2 heap (fun r hr => hl r (List.mem_cons_of_mem _ hr))
      refine ⟨heap2, ?_, h2, ?_⟩
      · simp only [Game.movementLoop, deref, he0, htr, hP, if_false, bind, Except.bind, h1]
      · intro q e he
        rw [h3 q e he]
        by_cases hq : p = q
        · subst hq
          rw [he0] at he
          injection he with he
          subst he
          simp [hP]
        · have hq2 : ¬ q = p := fun h => hq h.symm
          simp [hq2]

theorem playerVelocity_eq (cInput : CInput) :
    Game.playerVelocity cInput =
      ⟨if cInput.right then 1 else if cInput.left then -1 else 0,
       if cInput.backward then 1 else if cInput.forward then -1 else 0⟩ := by
  obtain ⟨f, b, l, r⟩ := cInput
  cases f <;> cases b <;> cases l <;> cases r <;> rfl

theorem sMovement_exact (g : Game) (pl : Entity) (cInput : CInput)
    (hnd : g.m_entities.m_entities.Nodup)
    (hpl : g.m_entities.heap[g.m_player]? = some pl) (hin : pl.cInput = some cInput)
    (hc : ∀ p ∈ g.m_entities.m_entities, ∃ e t, g.m_entities.heap[p]? = some e ∧
      e.cTransform = some t) :
    ∃ heap2, g.sMovement = .ok { g with m_entities := { g.m_entities with heap := heap2 } } ∧
      heap2.length = g.m_entities.heap.length ∧
      ∀ (q : EntityPtr) (e : Entity), g.m_entities.heap[q]? = some e →
        heap2[q]? = some (if q ∈ g.m_entities.m_entities ∧ e.tag = EntityTags.Player
          then e.moved (Game.playerVelocity cInput) else e) := by
  obtain ⟨heap2, h1, h2, h3⟩ := movementLoop_exact (Game.playerVelocity cInput)
    g.m_entities.m_entities hnd g.m_entities.heap hc
  refine ⟨heap2, ?_, h2, h3⟩
  simp only [Game.sMovement, deref, hpl, hin, bind, Except.bind, pure, Except.pure,
    EntityManager.getEntities, h1]

/-- C20. Movement frame. Let the canonical list hold no pointer twice, every entity of it have
a transform, and the player have an input component; and let the step of every entity tagged
`Player` in the list be exact in `float` (`SumExact`: the coordinate, the step `2 * v` and
their sum are integers of magnitude at most `2^24`). Then `sMovement` returns a state that
differs from the old one in the heap only (score, canonical list, tag map, pending list,
counter and flags of the game are unchanged, and no entity object is added or removed); the
intent vector `v` has components in {-1, 0, 1}; an entity tagged `Player` in the canonical
list has its position moved by `2 * v` and nothing else changed; every other entity is
unchanged; in particular active flags and velocities are unchanged. -/
theorem sMovement_frame (g : Game) (pl : Entity) (cInput : CInput)
    (hnd : g.m_entities.m_entities.Nodup)
    (hpl : g.m_entities.heap[g.m_player]? = some pl) (hin : pl.cInput = some cInput)
    (hc : ∀ p ∈ g.m_entities.m_entities, ∃ e t, g.m_entities.heap[p]? = some e ∧
      e.cTransform = some t)
    (_ : ∀ p ∈ g.m_entities.m_entities, ∀ (e : Entity) (t : CTransform),
      g.m_entities.heap[p]? = some e → e.tag = EntityTags.Player → e.cTransform = some t →
      SumExact t.topLeftCornerPos.x (2 * (Game.playerVelocity cInput).x) ∧
        SumExact t.topLeftCornerPos.y (2 * (Game.playerVelocity cInput).y)) :
    ∃ g1 v, g.sMovement = .ok g1 ∧ v = Game.playerVelocity cInput ∧
      (v.x = -1 ∨ v.x = 0 ∨ v.x = 1) ∧ (v.y = -1 ∨ v.y = 0 ∨ v.y = 1) ∧
      g1 = { g with m_entities := { g.m_entities with heap := g1.m_entities.heap } } ∧
      g1.m_entities.heap.length = g.m_entities.heap.length ∧
      ∀ (q : EntityPtr) (e : Entity), g.m_entities.heap[q]? = some e →
        ∃ e1, g1.m_entities.heap[q]? = some e1 ∧
          e1.isActive = e.isActive ∧
          e1.cTransform.map (fun t => t.velocity) = e.cTransform.map (fun t => t.velocity) ∧
          (e.tag ≠ EntityTags.Player → e1 = e) ∧
          (q ∉ g.m_entities.m_entities → e1 = e) ∧
          (q ∈ g.m_entities.m_entities → e.tag = EntityTags.Player →
            ∀ t, e.cTransform = some t →
              e1 = { e with cTransform := some { t with
                topLeftCornerPos :=
                  ⟨t.topLeftCornerPos.x + 2 * v.x, t.topLeftCornerPos.y + 2 * v.y⟩ } }) := by
  obtain ⟨heap2, h1, h2, h3⟩ := sMovement_exact g pl cInput hnd hpl hin hc
  refine ⟨_, _, h1, rfl, ?_, ?_, rfl, h2, ?_⟩
  · rw [playerVelocity_eq]
    by_cases hr : cInput.right = true
    · simp [hr]
    · by_cases hl : cInput.left = true <;> simp [hr, hl]
  · rw [playerVelocity_eq]
    by_cases hb : cInput.backward = true
    · simp [hb]
    · by_cases hf : cInput.forward = true <;> simp [hb, hf]
  · intro q e he
    refine ⟨_, h3 q e he, ?_, ?_, ?_, ?_, ?_⟩
    · split
      · unfold Entity.moved
        split <;> rfl
      · rfl
    · split
      · unfold Entity.moved
        split
        · rename_i tr htr
          simp [htr]
        · rfl
      · rfl
    · intro ht
      simp [ht]
    · intro hq
      simp [hq]
    · intro hq ht t htr
      simp [hq, ht, Entity.moved, htr]

/-- C20 at a concrete state: the player at `(100, 100)` with the right and forward intents
held, next to a hazard at `(500, 500)`. -/
theorem sMovement_frame_witness :
    ∃ g1, (Examples.playerAndHazard 100 100 { forward := true, right := true } 500 500).sMovement
        = .ok g1 ∧
      g1.m_entities.heap[0]? =
        some (Examples.playerAt 102 98 { forward := true, right := true }) ∧
      g1.m_entities.heap[1]? = some (Examples.hazardAt 1 500 500 0 0) ∧ g1.m_score = 0 := by
  obtain ⟨g1, v, h1, hv, _, _, h4, _, h6⟩ := sMovement_frame
    (Examples.playerAndHazard 100 100 { forward := true, right := true } 500 500)
    (Examples.playerAt 100 100 { forward := true, right := true })
    { forward := true, right := true } (by decide) rfl rfl
    (by
      intro p hp
      have hp2 : p = 0 ∨ p = 1 := by simpa [Examples.playerAndHazard] using hp
      rcases hp2 with rfl | rfl
      · exact ⟨_, _, rfl, rfl⟩
      · exact ⟨_, _, rfl, rfl⟩)
    (by
      intro p hp e t he htag ht
      have hp2 : p = 0 ∨ p = 1 := by simpa [Examples.playerAndHazard] using hp
      rcases hp2 with rfl | rfl
      · have he2 : e = Examples.playerAt 100 100 { forward := true, right := true } :=
          (Option.some.inj he).symm
        subst he2
        have ht2 : t = CTransform.new ⟨100, 100⟩ ⟨0, 0⟩ 0 := (Option.some.inj ht).symm
        subst ht2
        decide
      · have he2 : e = Examples.hazardAt 1 500 500 0 0 := (Option.some.inj he).symm
        subst he2
        exact absurd htag (by decide))
  obtain ⟨e0, he0, _, _, _, _, hmove⟩ := h6 0 _ rfl
  obtain ⟨e1, he1, _, _, hsame, _, _⟩ := h6 1 _ rfl
  have hv2 : v = ⟨1, -1⟩ := by rw [hv]; rfl
  subst hv2
  refine ⟨g1, h1, ?_, ?_, ?_⟩
  · rw [he0, hmove (by decide) rfl _ rfl]
    rfl
  · rw [he1, hsame (by decide)]
    rfl
  · rw [h4]
    rfl

/-! ## Opposing intents -/

/-- A tick composed of its phases: when every phase of an unpaused tick returns, `mainLoop`
returns the state after `sRender`, and `beforeRender` the state that `sRender` is given. -/
theorem mainLoop_of_phases (g a b c d e f : Game) (input : TickInput)
    (h1 : g.sInput input.events = .ok a) (hp : a.m_paused = false)
    (h2 : a.sMovement = .ok b) (h3 : b.sCollision = .ok c)
    (h4 : c.sSpawner input.spawnTicks input.rand input.birthTicks = .ok d)
    (h5 : d.sLifespan input.clock = .ok e) (h6 : e.sRender = .ok f) :
    g.beforeRender input = .ok e ∧ g.mainLoop input = .ok f := by
  simp [Game.beforeRender, Game.mainLoop, Game.systems, bind, Except.bind, h1, hp, h2, h3, h4,
    h5, h6]

theorem first_tick :
    Examples.started.beforeRender Examples.firstInput = .ok Examples.firstAfterSpawner ∧
      Examples.started.mainLoop Examples.firstInput = .ok Examples.afterFirst :=
  mainLoop_of_phases Examples.started Examples.started Examples.started Examples.started
    Examples.firstAfterSpawner Examples.firstAfterSpawner Examples.afterFirst Examples.firstInput
    (by decide) (by decide) (by decide) (by decide) (by decide) (by decide) (by decide)

theorem second_tick :
    Examples.afterFirst.beforeRender Examples.secondInput = .ok Examples.atSecondRender ∧
      Examples.afterFirst.mainLoop Examples.secondInput = .ok Examples.afterSecond :=
  mainLoop_of_phases Examples.afterFirst Examples.secondAfterInput Examples.secondAfterMovement
    Examples.secondAfterMovement Examples.secondAfterSpawner Examples.atSecondRender
    Examples.afterSecond Examples.secondInput
    (by decide) (by decide) (by decide) (by decide) (by decide) (by decide) (by decide)

theorem third_tick :
    Examples.afterSecond.beforeRender Examples.thirdInput = .ok Examples.thirdAfterCollision ∧
      Examples.afterSecond.mainLoop Examples.thirdInput = .ok Examples.afterThird :=
  mainLoop_of_phases Examples.afterSecond Examples.afterSecond Examples.thirdAfterMovement
    Examples.thirdAfterCollision Examples.thirdAfterCollision Examples.thirdAfterCollision
    Examples.afterThird Examples.thirdInput
    (by decide) (by decide) (by decide) (by decide) (by decide) (by decide) (by decide)

theorem reachable_started : Game.Reachable Examples.started :=
  Game.Reachable.init Examples.fresh Examples.started (by decide) (by decide)

theorem reachable_afterFirst : Game.Reachable Examples.afterFirst :=
  Game.Reachable.tick Examples.started Examples.afterFirst Examples.firstInput reachable_started
    first_tick.2

theorem reachable_afterSecond : Game.Reachable Examples.afterSecond :=
  Game.Reachable.tick Examples.afterFirst Examples.afterSecond Examples.secondInput
    reachable_afterFirst second_tick.2

/-- C14 (refuted by the code): `mainLoop` runs `sRender` right after `sLifespan`, with no
`update` in between. From the reachable state `Examples.afterFirst` (a player and one hazard
born at 2500), the unpaused tick at clock 40000 expires the hazard in its lifespan phase, and
the state given to `sRender` still lists that hazard, inactive, in the canonical list; the
tick returns with the score unchanged at 0. In the next tick, at clock 40016, the player has
moved onto the expired hazard, the collision phase examines it, and the score becomes 1. -/
theorem stale_entity_at_render :
    Game.Reachable Examples.afterFirst ∧
      Examples.afterFirst.beforeRender Examples.secondInput = .ok Examples.atSecondRender ∧
      Examples.atSecondRender.m_paused = false ∧
      Examples.atSecondRender.m_entities.getEntities = [0, 1, 2] ∧
      activeAt Examples.atSecondRender.m_entities.heap 1 = false ∧
      Examples.afterFirst.mainLoop Examples.secondInput = .ok Examples.afterSecond ∧
      Examples.afterSecond.m_entities.getEntities = [0, 1, 2] ∧
      activeAt Examples.afterSecond.m_entities.heap 1 = false ∧
      Examples.afterSecond.m_score = 0 ∧
      Examples.afterSecond.mainLoop Examples.thirdInput = .ok Examples.afterThird ∧
      Examples.afterThird.m_score = 1 :=
  ⟨reachable_afterFirst, second_tick.1, by decide, by decide, by decide, second_tick.2,
    by decide, by decide, by decide, third_tick.2, by decide⟩

/-! ## The player is never removed -/

theorem bind_ok {α β : Type} {x : Except Fault α} {f : α → Except Fault β} {b : β}
    (h : (x >>= f) = .ok b) : ∃ a, x = .ok a ∧ f a = .ok b := by
  cases x with
  | error e => simp [bind, Except.bind] at h
  | ok a => exact ⟨a, rfl, h⟩

theorem deref_ok {heap : List Entity} {p : EntityPtr} {e : Entity} (h : deref heap p = .ok e) :
    heap[p]? = some e := by
  unfold deref at h
  cases hp : heap[p]? with
  | none => simp [hp] at h
  | some e0 =>
    simp only [hp, Except.ok.injEq] at h
    rw [h]

theorem kept_refl (heap : List Entity) : PlayersKept heap heap :=
  fun _ e he => ⟨e, he, rfl, fun _ => rfl⟩

theorem kept_trans {h1 h2 h3 : List Entity} (a : PlayersKept h1 h2) (b : PlayersKept h2 h3) :
    PlayersKept h1 h3 := by
  intro p e he
  obtain ⟨e2, he2, ht2, ha2⟩ := a p e he
  obtain ⟨e3, he3, ht3, ha3⟩ := b p e2 he2
  exact ⟨e3, he3, ht3.trans ht2, fun hP => (ha3 (ht2.trans hP)).trans (ha2 hP)⟩

theorem kept_set {heap : List Entity} {p : EntityPtr} {e e2 : Entity} (he : heap[p]? = some e)
    (ht : e2.tag = e.tag) (ha : e.tag = EntityTags.Player → e2.isActive = e.isActive) :
    PlayersKept heap (heap.set p e2) := by
  intro q x hx
  by_cases hq : p = q
  · subst hq
    have hlt : p < heap.length := (List.getElem?_eq_some_iff.1 he).1
    have hxe : x = e := Option.some.inj (hx.symm.trans he)
    subst hxe
    exact ⟨e2, by simp [List.getElem?_set, hlt], ht, ha⟩
  · exact ⟨x, by rw [List.getElem?_set_ne hq]; exact hx, rfl, fun _ => rfl⟩

theorem kept_set_destroy {heap : List Entity} {p : EntityPtr} {e : Entity}
    (he : heap[p]? = some e) (ht : e.tag ≠ EntityTags.Player) :
    PlayersKept heap (heap.set p e.destroy) :=
  kept_set he rfl (fun hP => absurd hP ht)

theorem kept_append (heap extra : List Entity) : PlayersKept heap (heap ++ extra) := by
  intro p e he
  have hlt : p < heap.length := (List.getElem?_eq_some_iff.1 he).1
  exact ⟨e, by rw [List.getElem?_append_left hlt]; exact he, rfl, fun _ => rfl⟩

theorem tagAt_of_kept {heap heap2 : List Entity} (h : PlayersKept heap heap2) (p : EntityPtr)
    (hp : tagAt heap p = EntityTags.Player) :
    tagAt heap2 p = EntityTags.Player ∧ activeAt heap2 p = activeAt heap p := by
  cases he : heap[p]? with
  | none =>
    simp only [tagAt, he] at hp
    exact absurd hp (by decide)
  | some e =>
    have hP : e.tag = EntityTags.Player := by simpa [tagAt, he] using hp
    obtain ⟨e2, he2, ht2, ha2⟩ := h p e he
    exact ⟨by simp [tagAt, he2, ht2, hP], by simp [activeAt, he, he2, ha2 hP]⟩

theorem playerPresent_of_keeps {g g2 : Game} (h : g.PlayerPresent) (k : g.KeepsPlayers g2) :
    g2.PlayerPresent := by
  obtain ⟨ht, ha⟩ := tagAt_of_kept k.heap g.m_player h.tagged
  have hact : activeAt g2.m_entities.heap g.m_player = true := ha.trans h.active
  refine ⟨?_, ?_, ?_⟩
  · rw [k.player]; exact ht
  · rw [k.player]; exact hact
  · rw [k.player]; exact k.listed _ h.listed hact

theorem keeps_of_heap {g g2 : Game} (hh : PlayersKept g.m_entities.heap g2.m_entities.heap)
    (hp : g2.m_player = g.m_player) (hl : g2.m_entities.m_entities = g.m_entities.m_entities) :
    g.KeepsPlayers g2 :=
  ⟨hh, hp, fun p hpl _ => by
    show p ∈ g2.m_entities.m_entities
    rw [hl]; exact hpl⟩

theorem keeps_of_update {g g2 : Game} (m m2 : EntityManager)
    (hh : PlayersKept g.m_entities.heap m.heap) (hl : m.m_entities = g.m_entities.m_entities)
    (hp : g2.m_player = g.m_player) (hu : m.update = .ok m2)
    (hg2 : g2.m_entities = m2) : g.KeepsPlayers g2 := by
  obtain ⟨_, hm2⟩ := update_ok m m2 hu
  subst hm2
  refine ⟨?_, hp, ?_⟩
  · rw [hg2]; exact hh
  · intro p hpl hact
    rw [hg2] at hact ⊢
    show p ∈ (m.m_entities ++ m.m_toAdd).filter (activeAt m.heap)
    rw [List.mem_filter, hl]
    exact ⟨List.mem_append_left _ hpl, hact⟩
theorem writeInput_keeps {g g2 : Game} {f : CInput → CInput} (h : g.writeInput f = .ok g2) :
    g.KeepsPlayers g2 ∧ g2.m_paused = g.m_paused := by
  unfold Game.writeInput at h
  obtain ⟨player, hpl, h⟩ := bind_ok h
  have hpl := deref_ok hpl
  cases hc : player.cInput with
  | none => simp [hc] at h
  | some cInput =>
    simp only [hc, pure, Except.pure, Except.ok.injEq] at h
    subst h
    exact ⟨keeps_of_heap (kept_set hpl rfl (fun _ => rfl)) rfl rfl, rfl⟩

theorem keeps_refl (g : Game) : g.KeepsPlayers g := keeps_of_heap (kept_refl _) rfl rfl

theorem sInput_keeps (events : List Event) :
    ∀ (g g2 : Game), g.sInput events = .ok g2 →
      PlayersKept g.m_entities.heap g2.m_entities.heap ∧ g2.m_player = g.m_player ∧
        g2.m_entities.m_entities = g.m_entities.m_entities := by
  induction events with
  | nil =>
    intro g g2 h
    simp only [Game.sInput, Except.ok.injEq] at h
    subst h
    exact ⟨kept_refl _, rfl, rfl⟩
  | cons event rest ih =>
    intro g g2 h
    have hwrite : ∀ f : CInput → CInput,
        (g.writeInput f >>= fun g1 => g1.sInput rest) = .ok g2 →
        PlayersKept g.m_entities.heap g2.m_entities.heap ∧ g2.m_player = g.m_player ∧
          g2.m_entities.m_entities = g.m_entities.m_entities := by
      intro f hf
      obtain ⟨g1, h1, h2⟩ := bind_ok hf
      obtain ⟨k1, _⟩ := writeInput_keeps h1
      have hl1 : g1.m_entities.m_entities = g.m_entities.m_entities := by
        unfold Game.writeInput at h1
        obtain ⟨player, _, h1⟩ := bind_ok h1
        cases hc : player.cInput with
        | none => simp [hc] at h1
        | some cInput =>
          simp only [hc, pure, Except.pure, Except.ok.injEq] at h1
          subst h1
          rfl
      obtain ⟨a, b, c⟩ := ih g1 g2 h2
      exact ⟨kept_trans k1.heap a, b.trans k1.player, c.trans hl1⟩
    cases event with
    | quit =>
      simp only [Game.sInput, Except.ok.injEq] at h
      subst h
      exact ⟨kept_refl _, rfl, rfl⟩
    | other => exact ih g g2 (by simpa only [Game.sInput] using h)
    | keyDown sym =>
      cases sym with
      | w => exact hwrite _ (by simpa only [Game.sInput] using h)
      | s => exact hwrite _ (by simpa only [Game.sInput] using h)
      | a => exact hwrite _ (by simpa only [Game.sInput] using h)
      | d => exact hwrite _ (by simpa only [Game.sInput] using h)
      | p => exact ih (g.setPaused (!g.m_paused)) g2 (by simpa only [Game.sInput] using h)
      | other => exact ih g g2 (by simpa only [Game.sInput] using h)
    | keyUp sym =>
      cases sym with
      | w => exact hwrite _ (by simpa only [Game.sInput] using h)
      | s => exact hwrite _ (by simpa only [Game.sInput] using h)
      | a => exact hwrite _ (by simpa only [Game.sInput] using h)
      | d => exact hwrite _ (by simpa only [Game.sInput] using h)
      | p => exact ih g g2 (by simpa only [Game.sInput] using h)
      | other => exact ih g g2 (by simpa only [Game.sInput] using h)

theorem movementLoop_kept (v : Vec2) (l : EntityVector) :
    ∀ (heap heap2 : List Entity), Game.movementLoop v heap l = .ok heap2 →
      PlayersKept heap heap2 := by
  induction l with
  | nil =>
    intro heap heap2 h
    simp only [Game.movementLoop, Except.ok.injEq] at h
    subst h
    exact kept_refl _
  | cons p rest ih =>
    intro heap heap2 h
    rw [Game.movementLoop] at h
    obtain ⟨e, he, h⟩ := bind_ok h
    have he := deref_ok he
    cases htr : e.cTransform with
    | none => simp [htr] at h
    | some tr =>
      simp only [htr] at h
      by_cases hP : e.tag = EntityTags.Player
      · simp only [hP, if_true] at h
        refine kept_trans ?_ (ih _ _ h)
        exact kept_set he rfl (fun _ => rfl)
      · simp only [hP, if_false] at h
        exact ih _ _ h

theorem sMovement_keeps {g g2 : Game} (h : g.sMovement = .ok g2) : g.KeepsPlayers g2 := by
  unfold Game.sMovement at h
  obtain ⟨player, _, h⟩ := bind_ok h
  cases hc : player.cInput with
  | none => simp [hc] at h
  | some cInput =>
    simp only [hc] at h
    obtain ⟨heap, hloop, h⟩ := bind_ok h
    simp only [pure, Except.pure, Except.ok.injEq] at h
    subst h
    exact keeps_of_heap (movementLoop_kept _ _ _ _ hloop) rfl rfl

theorem collisionLoop_kept (player : EntityPtr) (l : EntityVector) :
    ∀ (heap heap2 : List Entity) (score score2 : Int),
      Game.collisionLoop player (heap, score) l = .ok (heap2, score2) →
      PlayersKept heap heap2 := by
  induction l with
  | nil =>
    intro heap heap2 score score2 h
    simp only [Game.collisionLoop, Except.ok.injEq, Prod.mk.injEq] at h
    rw [h.1]
    exact kept_refl _
  | cons p rest ih =>
    intro heap heap2 score score2 h
    rw [Game.collisionLoop] at h
    obtain ⟨e, he, h⟩ := bind_ok h
    have he := deref_ok he
    by_cases hP : e.tag = EntityTags.Player
    · simp only [hP, if_true] at h
      exact ih _ _ _ _ h
    · simp only [hP, if_false] at h
      obtain ⟨pl, _, h⟩ := bind_ok h
      obtain ⟨hit, _, h⟩ := bind_ok h
      cases hit with
      | false =>
        simp only [Bool.false_eq_true, if_false] at h
        exact ih _ _ _ _ h
      | true =>
        simp only [if_true] at h
        exact kept_trans (kept_set_destroy he hP) (ih _ _ _ _ h)

theorem enforcePlayerBounds_tag {e e2 : Entity} {flags : Bitset4} {ws : Vec2}
    (h : CollisionHelpers.enforcePlayerBounds e flags ws = .ok e2) :
    e2.tag = e.tag ∧ e2.isActive = e.isActive := by
  cases hB : flags.get .BOTTOM <;> cases hR : flags.get .RIGHT <;> cases hs : e.cShape <;>
    cases htr : e.cTransform <;>
    simp only [CollisionHelpers.enforcePlayerBounds, hasNullComponentPointers, derefTransform,
      derefRect, hB, hR, hs, htr, bind, Except.bind, pure, Except.pure, Option.isNone_none,
      Option.isNone_some, if_true, if_false, Bool.false_eq_true, Except.ok.injEq] at h <;>
    first
      | exact absurd h (by simp)
      | (subst h; exact ⟨rfl, rfl⟩)

theorem sCollision_keeps {g g2 : Game} (h : g.sCollision = .ok g2) : g.KeepsPlayers g2 := by
  unfold Game.sCollision at h
  obtain ⟨player, hpl, h⟩ := bind_ok h
  have hpl := deref_ok hpl
  obtain ⟨flags, _, h⟩ := bind_ok h
  obtain ⟨clamped, hcl, h⟩ := bind_ok h
  obtain ⟨hs, hloop, h⟩ := bind_ok h
  obtain ⟨heap, score⟩ := hs
  obtain ⟨m2, hu, h⟩ := bind_ok h
  simp only [pure, Except.pure, Except.ok.injEq] at h
  subst h
  obtain ⟨ht, ha⟩ := enforcePlayerBounds_tag hcl
  have hk : PlayersKept g.m_entities.heap heap :=
    kept_trans (kept_set hpl ht (fun _ => ha)) (collisionLoop_kept _ _ _ _ _ _ hloop)
  exact keeps_of_update { g.m_entities with heap := heap } m2 hk rfl rfl hu rfl

theorem lifespanLoop_kept (clock : Nat → Nat) (l : EntityVector) :
    ∀ (heap heap2 : List Entity) (calls calls2 : Nat),
      Game.lifespanLoop clock (heap, calls) l = .ok (heap2, calls2) →
      PlayersKept heap heap2 := by
  induction l with
  | nil =>
    intro heap heap2 calls calls2 h
    simp only [Game.lifespanLoop, Except.ok.injEq, Prod.mk.injEq] at h
    rw [h.1]
    exact kept_refl _
  | cons p rest ih =>
    intro heap heap2 calls calls2 h
    rw [Game.lifespanLoop] at h
    obtain ⟨e, he, h⟩ := bind_ok h
    have he := deref_ok he
    by_cases hP : e.tag = EntityTags.Player
    · simp only [hP, if_true] at h
      exact ih _ _ _ _ h
    · simp only [hP, if_false] at h
      cases hc : e.cLifespan with
      | none =>
        simp only [hc] at h
        exact ih _ _ _ _ h
      | some c =>
        simp only [hc] at h
        split at h
        · exact kept_trans (kept_set_destroy he hP) (ih _ _ _ _ h)
        · exact ih _ _ _ _ h

theorem sLifespan_keeps {g g2 : Game} {clock : Nat → Nat} (h : g.sLifespan clock = .ok g2) :
    g.KeepsPlayers g2 := by
  unfold Game.sLifespan at h
  obtain ⟨hs, hloop, h⟩ := bind_ok h
  obtain ⟨heap, calls⟩ := hs
  simp only [pure, Except.pure, Except.ok.injEq] at h
  subst h
  exact keeps_of_heap (lifespanLoop_kept _ _ _ _ _ _ hloop) rfl rfl

theorem renderLoop_kept (l : EntityVector) :
    ∀ (heap heap2 : List Entity), Game.renderLoop heap l = .ok heap2 → PlayersKept heap heap2 := by
  induction l with
  | nil =>
    intro heap heap2 h
    simp only [Game.renderLoop, Except.ok.injEq] at h
    subst h
    exact kept_refl _
  | cons p rest ih =>
    intro heap heap2 h
    rw [Game.renderLoop] at h
    obtain ⟨e, he, h⟩ := bind_ok h
    have he := deref_ok he
    cases hs : e.cShape with
    | none =>
      simp only [hs] at h
      exact ih _ _ h
    | some cShape =>
      simp only [hs] at h
      obtain ⟨tr, _, h⟩ := bind_ok h
      refine kept_trans ?_ (ih _ _ h)
      exact kept_set he rfl (fun _ => rfl)

theorem sRender_keeps {g g2 : Game} (h : g.sRender = .ok g2) : g.KeepsPlayers g2 := by
  unfold Game.sRender at h
  obtain ⟨heap, hloop, h⟩ := bind_ok h
  simp only [pure, Except.pure, Except.ok.injEq] at h
  subst h
  exact keeps_of_heap (renderLoop_kept _ _ _ hloop) rfl rfl
theorem tagAt_of_kept_some {heap heap2 : List Entity} (h : PlayersKept heap heap2)
    {p : EntityPtr} {e : Entity} (he : heap[p]? = some e) : tagAt heap2 p = e.tag := by
  obtain ⟨e2, he2, ht2, _⟩ := h p e he
  simp [tagAt, he2, ht2]

theorem spawnRetry_kept (ws : Vec2) (rand : Nat → Nat) (fuel : Nat) :
    ∀ (st st2 : Game.SpawnSearch), Game.spawnRetry ws rand fuel st = .ok st2 →
      PlayersKept st.entities.heap st2.entities.heap ∧ st2.enemy = st.enemy ∧
        st2.entities.m_entities = st.entities.m_entities ∧
        (tagAt st.entities.heap st.enemy = EntityTags.Enemy →
          tagAt st2.entities.heap st2.enemy = EntityTags.Enemy) := by
  induction fuel with
  | zero =>
    intro st st2 h
    unfold Game.spawnRetry at h
    split at h
    · simp at h
    · simp only [Except.ok.injEq] at h
      subst h
      exact ⟨kept_refl _, rfl, rfl, id⟩
  | succ f ih =>
    intro st st2 h
    unfold Game.spawnRetry at h
    split at h
    · obtain ⟨x, _, h⟩ := bind_ok h
      obtain ⟨y, _, h⟩ := bind_ok h
      obtain ⟨e, he, h⟩ := bind_ok h
      have he := deref_ok he
      obtain ⟨tr, _, h⟩ := bind_ok h
      obtain ⟨flags, _, h⟩ := bind_ok h
      obtain ⟨b, _, h⟩ := bind_ok h
      obtain ⟨k, hen, hl, ht⟩ := ih _ _ h
      have k1 : PlayersKept st.entities.heap
          (st.entities.heap.set st.enemy
            { e with cTransform := some { tr with topLeftCornerPos := ⟨x, y⟩ } }) :=
        kept_set he rfl (fun _ => rfl)
      refine ⟨kept_trans k1 k, hen, hl, ?_⟩
      intro htag
      apply ht
      have h1 : tagAt st.entities.heap st.enemy = e.tag := by simp [tagAt, he]
      rw [← htag, h1]
      exact tagAt_of_kept_some k1 he
    · simp only [Except.ok.injEq] at h
      subst h
      exact ⟨kept_refl _, rfl, rfl, id⟩

theorem spawnSearch_kept {g : Game} {rand : Nat → Nat} {ticks : Nat} {st : Game.SpawnSearch}
    (h : Game.spawnSearch g rand ticks = .ok st) :
    PlayersKept g.m_entities.heap st.entities.heap ∧
      st.entities.m_entities = g.m_entities.m_entities ∧
      tagAt st.entities.heap st.enemy = EntityTags.Enemy := by
  unfold Game.spawnSearch at h
  obtain ⟨x, _, h⟩ := bind_ok h
  obtain ⟨y, _, h⟩ := bind_ok h
  obtain ⟨e, he, h⟩ := bind_ok h
  have he := deref_ok he
  obtain ⟨flags, _, h⟩ := bind_ok h
  obtain ⟨b, _, h⟩ := bind_ok h
  obtain ⟨k, hen, hl, ht⟩ := spawnRetry_kept _ _ _ _ _ h
  have hnew : e = Entity.new g.m_entities.m_totalEntities EntityTags.Enemy := by
    have h2 := getElem?_append_length g.m_entities.heap
      (Entity.new g.m_entities.m_totalEntities EntityTags.Enemy)
    exact Option.some.inj (he.symm.trans h2)
  subst hnew
  have k1 : PlayersKept (g.m_entities.addEntity EntityTags.Enemy).2.heap
      ((g.m_entities.addEntity EntityTags.Enemy).2.heap.set
        (g.m_entities.addEntity EntityTags.Enemy).1
        { Entity.new g.m_entities.m_totalEntities EntityTags.Enemy with
          cTransform := some (CTransform.new ⟨x, y⟩ ⟨0, 0⟩ 0)
          cShape := some (CShape.new ⟨40, 40, ⟨255, 0, 0, 255⟩⟩)
          cLifespan := some (CLifespan.new 30000 ticks) }) :=
    kept_set he rfl (fun _ => rfl)
  refine ⟨kept_trans (kept_trans (kept_append _ _) k1) k, hl, ht ?_⟩
  exact tagAt_of_kept_some k1 he
theorem spawnEnemy_keeps {g g2 : Game} {rand : Nat → Nat} {ticks : Nat}
    (h : Game.spawnEnemy g rand ticks = .ok g2) : g.KeepsPlayers g2 := by
  unfold Game.spawnEnemy at h
  obtain ⟨st, hst, h⟩ := bind_ok h
  obtain ⟨k, hl, ht⟩ := spawnSearch_kept hst
  have key : ∃ m m2 : EntityManager, PlayersKept st.entities.heap m.heap ∧
      m.m_entities = st.entities.m_entities ∧ m.update = .ok m2 ∧
      g2 = { g with m_entities := m2 } := by
    cases hv : st.isValidSpawn with
    | true =>
      simp only [hv, Bool.not_true, Bool.false_eq_true, if_false] at h
      obtain ⟨m, hm, h⟩ := bind_ok h
      simp only [pure, Except.pure, Except.ok.injEq] at hm
      obtain ⟨m2, hu, hfin⟩ := bind_ok h
      simp only [pure, Except.pure, Except.ok.injEq] at hfin
      subst hm
      exact ⟨st.entities, m2, kept_refl _, rfl, hu, hfin.symm⟩
    | false =>
      simp only [hv, Bool.not_false, if_true] at h
      obtain ⟨m, hm, h⟩ := bind_ok h
      obtain ⟨m2, hu, hfin⟩ := bind_ok h
      simp only [pure, Except.pure, Except.ok.injEq] at hfin
      unfold EntityManager.destroy at hm
      cases he : st.entities.heap[st.enemy]? with
      | none => simp [he] at hm
      | some e =>
        simp only [he, Except.ok.injEq] at hm
        subst hm
        have hne : e.tag ≠ EntityTags.Player := by
          have h1 : tagAt st.entities.heap st.enemy = e.tag := by simp [tagAt, he]
          rw [← h1, ht]
          decide
        exact ⟨{ st.entities with heap := st.entities.heap.set st.enemy e.destroy }, m2,
          kept_set_destroy he hne, rfl, hu, hfin.symm⟩
  obtain ⟨m, m2, hk, hlm, hu, hg2⟩ := key
  subst hg2
  exact keeps_of_update m m2 (kept_trans k hk) (hlm.trans hl) rfl hu rfl

theorem sSpawner_keeps {g g2 : Game} {ticks : Nat} {rand : Nat → Nat} {birthTicks : Nat}
    (h : g.sSpawner ticks rand birthTicks = .ok g2) : g.KeepsPlayers g2 := by
  unfold Game.sSpawner at h
  split at h
  · simp only [Except.ok.injEq] at h
    subst h
    exact keeps_refl _
  · have k := spawnEnemy_keeps h
    exact ⟨k.heap, k.player, k.listed⟩

theorem playerPresent_systems {g g2 : Game} {input : TickInput} (hp : g.PlayerPresent)
    (h : g.systems input = .ok g2) : g2.PlayerPresent := by
  unfold Game.systems at h
  obtain ⟨a, ha, h⟩ := bind_ok h
  obtain ⟨b, hb, h⟩ := bind_ok h
  obtain ⟨c, hc, h⟩ := bind_ok h
  exact playerPresent_of_keeps
    (playerPresent_of_keeps
      (playerPresent_of_keeps (playerPresent_of_keeps hp (sMovement_keeps ha))
        (sCollision_keeps hb))
      (sSpawner_keeps hc))
    (sLifespan_keeps h)

theorem playerPresent_mainLoop {g g2 : Game} {input : TickInput} (hp : g.PlayerPresent)
    (h : g.mainLoop input = .ok g2) : g2.PlayerPresent := by
  unfold Game.mainLoop at h
  obtain ⟨a, ha, h⟩ := bind_ok h
  obtain ⟨k1, k2, k3⟩ := sInput_keeps _ _ _ ha
  have hpa : a.PlayerPresent := playerPresent_of_keeps hp (keeps_of_heap k1 k2 k3)
  cases hpause : a.m_paused with
  | true =>
    simp only [hpause, Bool.not_true, Bool.false_eq_true, if_false, pure, Except.pure,
      Except.ok.injEq] at h
    subst h
    exact hpa
  | false =>
    simp only [hpause, Bool.not_false, if_true] at h
    obtain ⟨b, hb, h⟩ := bind_ok h
    exact playerPresent_of_keeps (playerPresent_systems hpa hb) (sRender_keeps h)

theorem playerPresent_spawnPlayer {g0 g : Game} (hm : g0.m_entities = {})
    (h : g0.spawnPlayer = .ok g) : g.PlayerPresent := by
  obtain ⟨config, playerConfig, entities, player, score, last, paused, running⟩ := g0
  simp only at hm
  subst hm
  have hrun : Game.spawnPlayer ⟨config, playerConfig, {}, player, score, last, paused, running⟩ =
      .ok { m_gameConfig := config, m_playerConfig := playerConfig, m_player := 0,
            m_score := score, m_lastEnemySpawnTime := last, m_paused := paused,
            m_isRunning := running,
            m_entities :=
              { heap := [{ m_id := 0, m_tag := EntityTags.Player,
                           cTransform := some (CTransform.new ⟨0, 0⟩ ⟨0, 0⟩ 0),
                           cShape := some (CShape.new playerConfig.shape),
                           cInput := some {} }]
                m_entities := [0]
                m_entityMap := [(EntityTags.Player, [0])]
                m_toAdd := []
                m_totalEntities := 1 } } := rfl
  rw [hrun] at h
  simp only [Except.ok.injEq] at h
  subst h
  exact ⟨rfl, rfl, by simp [EntityManager.getEntities]⟩

theorem playerPresent_of_reachable {g : Game} (h : g.Reachable) : g.PlayerPresent := by
  induction h with
  | init g0 g hm hs => exact playerPresent_spawnPlayer hm hs
  | tick g g2 input _ hs ih => exact playerPresent_mainLoop ih hs

/-- C15: in every game state reached from the state after `spawnPlayer` by any number of
ticks, with any events, clock values and random draws, `m_player` refers to an entity tagged
`Player` whose `active` flag is set and which is in the canonical list. Moreover, from any
state `s` whatsoever, when the collision phase, the spawner or the lifespan phase returns the
state `s2`, every entity tagged `Player` in `s` is still tagged `Player` in `s2` and its
`active` flag is the same: none of the three phases destroys an entity tagged as the
player. -/
theorem player_never_removed (g : Game) (h : g.Reachable) :
    tagAt g.m_entities.heap g.m_player = EntityTags.Player ∧
      activeAt g.m_entities.heap g.m_player = true ∧
      g.m_player ∈ g.m_entities.getEntities ∧
      ∀ (s s2 : Game),
        (s.sCollision = .ok s2 ∨
          (∃ (ticks : Nat) (rand : Nat → Nat) (birthTicks : Nat),
            s.sSpawner ticks rand birthTicks = .ok s2) ∨
          ∃ clock : Nat → Nat, s.sLifespan clock = .ok s2) →
        ∀ p : EntityPtr, tagAt s.m_entities.heap p = EntityTags.Player →
          tagAt s2.m_entities.heap p = EntityTags.Player ∧
            activeAt s2.m_entities.heap p = activeAt s.m_entities.heap p := by
  have hp := playerPresent_of_reachable h
  refine ⟨hp.tagged, hp.active, hp.listed, ?_⟩
  intro s s2 hs p htag
  have k : s.KeepsPlayers s2 := by
    rcases hs with hs | ⟨ticks, rand, birthTicks, hs⟩ | ⟨clock, hs⟩
    · exact sCollision_keeps hs
    · exact sSpawner_keeps hs
    · exact sLifespan_keeps hs
  exact tagAt_of_kept k.heap p htag

theorem player_never_removed_witness :
    Game.Reachable Examples.afterThird ∧
      tagAt Examples.afterThird.m_entities.heap Examples.afterThird.m_player =
        EntityTags.Player ∧
      activeAt Examples.afterThird.m_entities.heap Examples.afterThird.m_player = true ∧
      Examples.afterThird.m_player ∈ Examples.afterThird.m_entities.getEntities ∧
      Examples.thirdAfterMovement.sCollision = .ok Examples.thirdAfterCollision ∧
      tagAt Examples.thirdAfterMovement.m_entities.heap 0 = EntityTags.Player ∧
      tagAt Examples.thirdAfterCollision.m_entities.heap 0 = EntityTags.Player ∧
      activeAt Examples.thirdAfterCollision.m_entities.heap 0 =
        activeAt Examples.thirdAfterMovement.m_entities.heap 0 :=
  have hr : Game.Reachable Examples.afterThird :=
    Game.Reachable.tick Examples.afterSecond Examples.afterThird Examples.thirdInput
      reachable_afterSecond third_tick.2
  have hc : Examples.thirdAfterMovement.sCollision = .ok Examples.thirdAfterCollision := by
    decide
  have ht : tagAt Examples.thirdAfterMovement.m_entities.heap 0 = EntityTags.Player := by
    decide
  have hw := player_never_removed Examples.afterThird hr
  ⟨hr, hw.1, hw.2.1, hw.2.2.1, hc, ht,
    hw.2.2.2 Examples.thirdAfterMovement Examples.thirdAfterCollision (Or.inl hc) 0 ht⟩

end SdlGame
